import Mathlib

/-!
# The GRAIPE server worker (`src/apps/server/workerthread.cxx`)

A shallow embedding of `graipe::WorkerThread`: the per-connection session
state machine driven by `readyRead`, and the two payload handlers
`readModel` and `readAndRunAlgorithm`.

Qt values are embedded as follows.

* `QByteArray` is a list of bytes, `QString` a list of characters.
* `int` members (`m_state`, `m_expected_bytes`) are `Int`; the only place
  where the 32-bit range matters is `QString::toInt`, which checks it.
* The socket is a record of the bytes available for reading, the bytes the
  worker has passed to `write`, the connection state, and the list of things
  that successive `waitForReadyRead` calls are going to observe.
* Collaborators whose code is not part of the worker (the gzip device, the
  XML loaders, `Algorithm::run`, `Model::serialize`) are fields of `Extern`,
  and every theorem quantifies over them.

The member `run()` of the image filters
(`src/modules/imagefilter/imagefiltermodule.cxx`) is embedded as
`FilterAlgorithm.run`, over a record of what it does to the outside.
-/

namespace graipe

/-! ## Qt strings and byte arrays -/

/-- Bytes of a `QByteArray`. -/
abbrev QByteArray := List UInt8

/-- Characters of a `QString`. -/
abbrev QString := List Char

/-- The character with the code point of byte `b` (Latin-1 decoding). -/
def latin1Char (b : UInt8) : Char := Char.ofNat b.toNat

/-- `QString::fromLatin1(const QByteArray &)` of Qt 5: the array is read as a
C string, so decoding stops in front of the first NUL byte. -/
def fromLatin1 (data : QByteArray) : QString :=
  (data.takeWhile (fun b => b != 0)).map latin1Char

/-- `QString::toLatin1`: characters outside Latin-1 become `?`. -/
def toLatin1 (s : QString) : QByteArray :=
  s.map (fun c => if c.toNat < 256 then UInt8.ofNat c.toNat else 63)

/-- A C++ string literal as a `QString`. -/
def qs (s : String) : QString := s.toList

/-- `QChar::isSpace`: the ASCII white space `\t \n \v \f \r` and space, NEL,
and the Unicode separators (categories Zs, Zl, Zp). -/
def isSpace (c : Char) : Bool :=
  let u := c.toNat
  u == 0x20 || (0x09 ≤ u && u ≤ 0x0d) || u == 0x85 || u == 0xa0 || u == 0x1680
    || (0x2000 ≤ u && u ≤ 0x200a) || u == 0x2028 || u == 0x2029 || u == 0x202f
    || u == 0x205f || u == 0x3000

/-- `QString::trimmed`: white space removed from both ends. -/
def trimmed (s : QString) : QString :=
  ((s.dropWhile isSpace).reverse.dropWhile isSpace).reverse

/-- `QString::split(sep)` for a one-character separator, keeping empty
parts: the fields between consecutive occurrences of `sep`. The empty string
has the single field `""`. -/
def split (sep : Char) : QString → List QString
  | [] => [[]]
  | c :: cs =>
    if c = sep then [] :: split sep cs
    else match split sep cs with
      | [] => [[c]]
      | f :: fs => (c :: f) :: fs

/-- Value of a string of ASCII decimal digits, `none` if another character
occurs. `acc` is the value of the digits read so far. -/
def parseDigits : List Char → Nat → Option Nat
  | [], acc => some acc
  | c :: cs, acc =>
    if 48 ≤ c.toNat ∧ c.toNat ≤ 57 then parseDigits cs (acc * 10 + (c.toNat - 48))
    else none

/-- `QString::toInt()` (base 10, C locale) on a string decoded from Latin-1:
surrounding white space is skipped, then an optional sign and at least one
decimal digit must make up the whole rest; the value must fit a 32-bit
`int`. In every other case the conversion fails and the result is `0`. -/
def toInt (s : QString) : Int :=
  let t := trimmed s
  let neg := t.head? == some '-'
  let ds := if t.head? == some '-' || t.head? == some '+' then t.tail else t
  if ds.isEmpty then 0
  else match parseDigits ds 0 with
    | none => 0
    | some v =>
      let x : Int := if neg then -(v : Int) else (v : Int)
      if -2147483648 ≤ x ∧ x ≤ 2147483647 then x else 0

/-- `QString::number(n)` / `QString::arg(int)` for a non-negative `n`: the
decimal digits, without leading zeros. -/
def number (n : Nat) : QString := Nat.toDigits 10 n

/-! ## The socket -/

/-- What one call of `QTcpSocket::waitForReadyRead` observes: new bytes,
the peer closing the connection, or the timeout (30 s) passing with neither.
An exhausted list stands for timeouts from then on. -/
inductive NetEvent where
  | data (bytes : QByteArray)
  | disconnect
  | timeout
  deriving DecidableEq, Repr

/-- The worker's view of `m_tcpSocket`. `written` collects the arguments of
all `write` calls in order; `readBuffer` holds what `bytesAvailable` counts;
`connected` is `state() == QTcpSocket::ConnectedState`. -/
structure Socket where
  readBuffer : QByteArray
  incoming : List NetEvent
  connected : Bool
  written : QByteArray
  deriving DecidableEq, Repr

namespace Socket

/-- `QIODevice::bytesAvailable`. -/
def bytesAvailable (s : Socket) : Nat := s.readBuffer.length

/-- The line part of `QIODevice::readLine`: the bytes up to and including
the first `\n`, or all bytes when there is none. -/
def lineOf : QByteArray → QByteArray
  | [] => []
  | b :: bs => if b = 10 then [b] else b :: lineOf bs

/-- `QIODevice::readLine()`: the line read, and the socket without it. -/
def readLine (s : Socket) : QByteArray × Socket :=
  (lineOf s.readBuffer, { s with readBuffer := s.readBuffer.drop (lineOf s.readBuffer).length })

/-- `QIODevice::readAll()`. -/
def readAll (s : Socket) : QByteArray × Socket :=
  (s.readBuffer, { s with readBuffer := [] })

/-- `QTcpSocket::waitForReadyRead()`: the next network event is taken in;
with none left the call times out. While a slot connected to `readyRead` is
running, the signal is not emitted again, so no other member runs
meanwhile. -/
def waitForReadyRead (s : Socket) : Socket :=
  match s.incoming with
  | [] => s
  | NetEvent.data d :: rest => { s with readBuffer := s.readBuffer ++ d, incoming := rest }
  | NetEvent.disconnect :: rest => { s with connected := false, incoming := rest }
  | NetEvent.timeout :: rest => { s with incoming := rest }

/-- `QIODevice::write(data)` with the following `flush()` and
`waitForBytesWritten()`: `data` is handed to the socket. `written` is what
the worker writes, whatever the connection state; what an unconnected socket
does with it is not the worker's doing. -/
def write (data : QByteArray) (s : Socket) : Socket :=
  { s with written := s.written ++ data }

end Socket

/-! ## Collaborators -/

/-- How a call into a collaborator ends. -/
inductive Outcome (α : Type) where
  | returns (a : α)
  | throws
  deriving DecidableEq, Repr

/-- The collaborators of the worker, over a state `W` of everything outside
it (the workspace, the loaded objects).

* `openRead w buf`: `QIOCompressor::open(QIODevice::ReadOnly)` on a buffer
  holding `buf`, in gzip format.
* `loadModel w buf`, `loadAlgorithm w buf`: `Impex::loadModel` and
  `Impex::loadAlgorithm` on an XML reader over that device; `none` is `NULL`.
* `run w alg`: `Algorithm::run`.
* `results w alg`: `Algorithm::results`.
* `openWrite w`: `QIOCompressor::open(QIODevice::WriteOnly)` on an empty
  buffer.
* `serialize w m`: `Model::serialize` into the compressor followed by
  `close`; the value is the content of `out_model_data` afterwards. -/
structure Extern (W Model Algorithm : Type) where
  openRead : W → QByteArray → Bool
  loadModel : W → QByteArray → Outcome (Option Model) × W
  loadAlgorithm : W → QByteArray → Outcome (Option Algorithm) × W
  run : W → Algorithm → Outcome Unit × W
  results : W → Algorithm → List Model
  openWrite : W → Bool
  serialize : W → Model → Outcome QByteArray × W

/-- Calls the worker makes, recorded in order. The record is never read by
the worker. -/
inductive Call where
  | readModel (bytesToRead : Int)
  | readAndRunAlgorithm (bytesToRead : Int)
  | openRead (buf : QByteArray)
  | loadModel (buf : QByteArray)
  | loadAlgorithm (buf : QByteArray)
  | run
  | serialize
  deriving DecidableEq, Repr

/-! ## The worker -/

/-- The members of `WorkerThread`, the state of the collaborators, and the
record of calls. -/
structure WorkerThread (W : Type) where
  m_registered_users : List QString
  m_state : Int
  m_expected_bytes : Int
  m_tcpSocket : Socket
  world : W
  calls : List Call

namespace WorkerThread

variable {W Model Algorithm : Type}

/-- `WorkerThread::WorkerThread` followed by `run()`: state `-1`, no bytes
expected, and the socket of the accepted connection. -/
def init (registered_users : List QString) (sock : Socket) (w : W) : WorkerThread W :=
  { m_registered_users := registered_users, m_state := -1, m_expected_bytes := 0,
    m_tcpSocket := sock, world := w, calls := [] }

/-- The record of calls extended by `c`. -/
def note (c : Call) (t : WorkerThread W) : WorkerThread W :=
  { t with calls := t.calls ++ [c] }

/-- `m_tcpSocket->write(data); flush(); waitForBytesWritten();`. -/
def send (data : QByteArray) (t : WorkerThread W) : WorkerThread W :=
  { t with m_tcpSocket := t.m_tcpSocket.write data }

/-- The `catch(...)` block of both handlers: `Error:0` is written if the
socket is in the connected state. -/
def catchAll (t : WorkerThread W) : WorkerThread W :=
  if t.m_tcpSocket.connected then t.send (toLatin1 (qs "Error:0")) else t

/-- The receive loop of both handlers,
`while(bytesAvailable() && data.size() < bytesToRead) { data.append(readAll());
if(data.size() == bytesToRead) break; else waitForReadyRead(); }`,
with one unit of `fuel` per iteration. -/
def readLoop (bytesToRead : Int) : Nat → QByteArray → Socket → QByteArray × Socket
  | 0, data, s => (data, s)
  | fuel + 1, data, s =>
    if s.bytesAvailable ≠ 0 ∧ (data.length : Int) < bytesToRead then
      let data1 := data ++ s.readAll.1
      let s1 := s.readAll.2
      if (data1.length : Int) = bytesToRead then (data1, s1)
      else readLoop bytesToRead fuel data1 s1.waitForReadyRead
    else (data, s)

/-- The receive loop run to its end: every iteration but the last takes one
network event, so `incoming.length + 2` iterations are never used up. -/
def receive (bytesToRead : Int) (s : Socket) : QByteArray × Socket :=
  readLoop bytesToRead (s.incoming.length + 2) [] s

/-- `WorkerThread::readModel(int bytesToRead)`. -/
def readModel (ext : Extern W Model Algorithm) (bytesToRead : Int) (t0 : WorkerThread W) :
    WorkerThread W :=
  let t := t0.note (Call.readModel bytesToRead)
  let in_model_data := (receive bytesToRead t.m_tcpSocket).1
  let t := { t with m_tcpSocket := (receive bytesToRead t.m_tcpSocket).2 }
  if (in_model_data.length : Int) < bytesToRead then catchAll t
  else
    let t := t.note (Call.openRead in_model_data)
    if !ext.openRead t.world in_model_data then catchAll t
    else
      let t := t.note (Call.loadModel in_model_data)
      match ext.loadModel t.world in_model_data with
      | (Outcome.throws, w) => catchAll { t with world := w }
      | (Outcome.returns none, w) => catchAll { t with world := w }
      | (Outcome.returns (some _), w) =>
        send (toLatin1 (qs "Success:0")) { t with world := w }

/-- The body of `for(Model* model : new_alg->results())` in
`readAndRunAlgorithm`, over the models still to be sent. The flag tells
whether the loop ended by `throw`. -/
def sendResults (ext : Extern W Model Algorithm) :
    List Model → WorkerThread W → Bool × WorkerThread W
  | [], t => (false, t)
  | model :: rest, t =>
    if !ext.openWrite t.world then (true, t)
    else
      let t := t.note Call.serialize
      match ext.serialize t.world model with
      | (Outcome.throws, w) => (true, { t with world := w })
      | (Outcome.returns out_model_data, w) =>
        let t := { t with world := w }
        let request := qs "Model:" ++ number out_model_data.length ++ qs "\n"
        let t := t.send (toLatin1 request)
        let t := t.send out_model_data
        sendResults ext rest t

/-- `WorkerThread::readAndRunAlgorithm(int bytesToRead)`. -/
def readAndRunAlgorithm (ext : Extern W Model Algorithm) (bytesToRead : Int)
    (t0 : WorkerThread W) : WorkerThread W :=
  let t := t0.note (Call.readAndRunAlgorithm bytesToRead)
  let in_alg_data := (receive bytesToRead t.m_tcpSocket).1
  let t := { t with m_tcpSocket := (receive bytesToRead t.m_tcpSocket).2 }
  if (in_alg_data.length : Int) < bytesToRead then catchAll t
  else
    let t := t.note (Call.openRead in_alg_data)
    if !ext.openRead t.world in_alg_data then catchAll t
    else
      let t := t.note (Call.loadAlgorithm in_alg_data)
      match ext.loadAlgorithm t.world in_alg_data with
      | (Outcome.throws, w) => catchAll { t with world := w }
      | (Outcome.returns none, w) => catchAll { t with world := w }
      | (Outcome.returns (some new_alg), w) =>
        let t := ({ t with world := w } : WorkerThread W).note Call.run
        match ext.run t.world new_alg with
        | (Outcome.throws, w1) => catchAll { t with world := w1 }
        | (Outcome.returns _, w1) =>
          let t := { t with world := w1 }
          match sendResults ext (ext.results t.world new_alg) t with
          | (true, t1) => catchAll t1
          | (false, t1) => t1

/-- The fields of a line in the login and command states:
`QString::fromLatin1(data).trimmed().split(":")`. -/
def splitLine (data : QByteArray) : List QString :=
  split ':' (trimmed (fromLatin1 data))

/-- `WorkerThread::readyRead()`. -/
def readyRead (ext : Extern W Model Algorithm) (t : WorkerThread W) : WorkerThread W :=
  if t.m_state < 0 then
    let data := t.m_tcpSocket.readLine.1
    let t := { t with m_tcpSocket := t.m_tcpSocket.readLine.2 }
    match splitLine data with
    | [f0, f1, f2] =>
      if f0 = qs "login" then
        let account := f1 ++ qs ":" ++ f2
        if account ∈ t.m_registered_users then { t with m_state := 0 } else t
      else t
    | _ => t
  else if t.m_state = 0 then
    let data := t.m_tcpSocket.readLine.1
    let t := { t with m_tcpSocket := t.m_tcpSocket.readLine.2 }
    match splitLine data with
    | [f0, f1] =>
      if f0 = qs "Model" then { t with m_state := 1, m_expected_bytes := toInt f1 }
      else if f0 = qs "Algorithm" then { t with m_state := 2, m_expected_bytes := toInt f1 }
      else t
    | _ => t
  else if t.m_state = 1 then
    let t := readModel ext t.m_expected_bytes { t with m_state := 3 }
    { t with m_state := 0, m_expected_bytes := 0 }
  else if t.m_state = 2 then
    let t := readAndRunAlgorithm ext t.m_expected_bytes { t with m_state := 3 }
    { t with m_state := 0, m_expected_bytes := 0 }
  else t

/-- New bytes arrive on the connection and the socket emits `readyRead`. -/
def deliver (ext : Extern W Model Algorithm) (t : WorkerThread W) (bytes : QByteArray) :
    WorkerThread W :=
  readyRead ext { t with m_tcpSocket :=
    { t.m_tcpSocket with readBuffer := t.m_tcpSocket.readBuffer ++ bytes } }

/-- A sequence of arrivals, each followed by its `readyRead`. -/
def deliverAll (ext : Extern W Model Algorithm) (t : WorkerThread W)
    (chunks : List QByteArray) : WorkerThread W :=
  chunks.foldl (deliver ext) t

end WorkerThread

/-- Collaborators for examples: the gzip device opens on a buffer that
starts with the byte `0x1f`; a model or algorithm is the list of bytes it was
loaded from, and fewer than two bytes load to nothing; an algorithm returns
its own bytes as its one result, and a model is serialized to its bytes. -/
def echoExtern : Extern Unit QByteArray QByteArray where
  openRead := fun _ buf => buf.head? == some 31
  loadModel := fun _ buf => (Outcome.returns (if buf.length < 2 then none else some buf), ())
  loadAlgorithm := fun _ buf => (Outcome.returns (if buf.length < 2 then none else some buf), ())
  run := fun _ _ => (Outcome.returns (), ())
  results := fun _ alg => [alg]
  openWrite := fun _ => true
  serialize := fun _ m => (Outcome.returns m, ())

/-- Collaborators for examples: as `echoExtern`, but the gzip device opens
on every buffer. -/
def openingExtern : Extern Unit QByteArray QByteArray :=
  { echoExtern with openRead := fun _ _ => true }

/-- A connected socket holding `bytes`, with nothing else on its way. -/
def socketWith (bytes : QByteArray) : Socket :=
  { readBuffer := bytes, incoming := [], connected := true, written := [] }

/-- The bytes of a C++ string literal. -/
def lit (s : String) : QByteArray := toLatin1 (qs s)

/-! ## Predicates used in the statements -/

/-- A string of Latin-1 characters other than NUL: what survives the trip
through a `QByteArray` unchanged. -/
def IsText (s : QString) : Prop := ∀ c ∈ s, 0 < c.toNat ∧ c.toNat < 256

instance (s : QString) : Decidable (IsText s) := by
  unfold IsText; infer_instance

/-- The fields put together again, with `sep` between neighbours. -/
def joinWith (sep : Char) : List QString → QString
  | [] => []
  | [f] => f
  | f :: g :: r => f ++ sep :: joinWith sep (g :: r)

/-- Whether the last character of `s` is white space. -/
def endsInSpace (s : QString) : Bool :=
  match s.getLast? with
  | some c => isSpace c
  | none => false

/-- A name that can be sent as one field of a line: Latin-1 text without
NUL, colon or line feed. -/
def IsField (s : QString) : Prop := IsText s ∧ ':' ∉ s ∧ '\n' ∉ s

instance (s : QString) : Decidable (IsField s) := by
  unfold IsField; infer_instance

/-- The test `readyRead` makes on a line in the login state. -/
def acceptsLogin (users : List QString) (data : QByteArray) : Bool :=
  match WorkerThread.splitLine data with
  | [f0, f1, f2] => f0 = qs "login" && decide (f1 ++ qs ":" ++ f2 ∈ users)
  | _ => false

/-- The text of `line`, surrounding white space apart, is
`login:<user>:<pass>` for a `user` and a `pass` with `user:pass` on the
allow-list. -/
def IsValidLoginLine (users : List QString) (line : QByteArray) : Prop :=
  ∃ user pass : QString,
    trimmed (fromLatin1 line) = qs "login:" ++ user ++ qs ":" ++ pass ∧
    user ++ qs ":" ++ pass ∈ users

/-- The part of the session that a rejected login line leaves alone. -/
def SameSession {W : Type} (t u : WorkerThread W) : Prop :=
  u.m_state = t.m_state ∧ u.m_expected_bytes = t.m_expected_bytes ∧
  u.m_tcpSocket.written = t.m_tcpSocket.written ∧ u.calls = t.calls ∧
  u.m_registered_users = t.m_registered_users

/-- The session after the arrivals `chunks` on a fresh connection. -/
def session {W Model Algorithm : Type} (ext : Extern W Model Algorithm) (users : List QString)
    (sock : Socket) (w : W) (chunks : List QByteArray) : WorkerThread W :=
  WorkerThread.deliverAll ext (WorkerThread.init users sock w) chunks

/-- An ASCII decimal digit. -/
def IsDigit (c : Char) : Prop := 48 ≤ c.toNat ∧ c.toNat ≤ 57

instance (c : Char) : Decidable (IsDigit c) := by
  unfold IsDigit; infer_instance

/-- A session for examples, in state `m_state`, expecting `m_expected_bytes`
bytes, over the socket `sock`. -/
def sessionIn (users : List QString) (m_state m_expected_bytes : Int) (sock : Socket) :
    WorkerThread Unit :=
  { m_registered_users := users, m_state := m_state, m_expected_bytes := m_expected_bytes,
    m_tcpSocket := sock, world := (), calls := [] }

/-- The text of `line`, surrounding white space apart, is `<kind>:<arg>`
for an `arg` without colon. -/
def IsCommandLine (kind : QString) (arg : QString) (line : QByteArray) : Prop :=
  ':' ∉ arg ∧ trimmed (fromLatin1 line) = kind ++ qs ":" ++ arg

/-- One result frame on the wire: the line `Model:<n>\n` with `n` the
number of bytes of `data`, followed by `data`. -/
def resultFrame (data : QByteArray) : QByteArray :=
  toLatin1 (qs "Model:" ++ number data.length ++ qs "\n") ++ data

/-- The result frames of the payloads `datas`, one after the other. -/
def resultFrames (datas : List QByteArray) : QByteArray :=
  (datas.map resultFrame).flatten

/-- Encoding the models `models` in order, starting in the state `w` of the
collaborators, succeeds for each of them (the gzip device opens for writing
and `serialize` completes) and yields the payloads `datas`, leaving the
collaborators in state `w2`. -/
inductive Encodes {W Model Algorithm : Type} (ext : Extern W Model Algorithm) :
    W → List Model → List QByteArray → W → Prop where
  | nil (w : W) : Encodes ext w [] [] w
  | cons (w w1 w2 : W) (m : Model) (ms : List Model) (d : QByteArray) (ds : List QByteArray)
      (hopen : ext.openWrite w = true) (hser : ext.serialize w m = (Outcome.returns d, w1))
      (hrest : Encodes ext w1 ms ds w2) : Encodes ext w (m :: ms) (d :: ds) w2

/-- The number of bytes that the network events `evs` bring. -/
def incomingBytes : List NetEvent → Nat
  | [] => 0
  | NetEvent.data d :: rest => d.length + incomingBytes rest
  | _ :: rest => incomingBytes rest

/-- Modelled from the spec: the serialization contract of a model, which the
spec assumes of `Model::serialize`, `Impex::loadModel` and the gzip device
`QIOCompressor` (none of them part of the worker's source): the model can be
encoded, and decoding the bytes that encoding produced, in whatever state
the collaborators are, yields a model with the same serializable content.
`Model` stands for the serializable content, and `data` for the bytes. -/
def SatisfiesContract {W Model Algorithm : Type} (ext : Extern W Model Algorithm)
    (w : W) (m : Model) (data : QByteArray) : Prop :=
  ext.openWrite w = true ∧ (ext.serialize w m).1 = Outcome.returns data ∧
  ∀ w2 : W, ext.openRead w2 data = true ∧ (ext.loadModel w2 data).1 = Outcome.returns (some m)

/-- The collaborators `ext` with the encoding of a model made explicit:
`serialize` writes the XML document `xml m` through the compressor `gzip`,
so that `out_model_data` holds `gzip (xml m)` once the compressor is closed;
the compressor always opens. -/
def compressing {W Model Algorithm : Type} (ext : Extern W Model Algorithm)
    (xml : Model → QByteArray) (gzip : QByteArray → QByteArray) : Extern W Model Algorithm :=
  { ext with
    openWrite := fun _ => true
    serialize := fun w m => (Outcome.returns (gzip (xml m)), w) }

/-- Collaborators for examples in which encoding a later result fails: as
`echoExtern`, but an algorithm has two results, its own bytes and the empty
model, and serializing the empty model throws. -/
def secondFailsExtern : Extern Unit QByteArray QByteArray where
  openRead := fun _ buf => buf.head? == some 31
  loadModel := fun _ buf => (Outcome.returns (if buf.length < 2 then none else some buf), ())
  loadAlgorithm := fun _ buf => (Outcome.returns (if buf.length < 2 then none else some buf), ())
  run := fun _ _ => (Outcome.returns (), ())
  results := fun _ alg => [alg, []]
  openWrite := fun _ => true
  serialize := fun _ m => (if m.isEmpty then Outcome.throws else Outcome.returns m, ())

/-! ## The image filters (`src/modules/imagefilter/imagefiltermodule.cxx`) -/

/-- The eight algorithms of the image-filter module. -/
inductive FilterKind where
  | FrostFilter
  | EnhancedFrostFilter
  | GammaMAPFilter
  | KuanFilter
  | LeeFilter
  | EnhancedLeeFilter
  | MedianFilter
  | ShockFilter
  deriving DecidableEq, Repr

/-- The prefix that `run()` puts in front of the name of the filtered
image, `new_image->setName(QString("Frost Filtered ") + current_image->name())`. -/
def FilterKind.namePrefix : FilterKind → QString
  | FilterKind.FrostFilter => qs "Frost Filtered "
  | FilterKind.EnhancedFrostFilter => qs "Enh. Frost Filtered "
  | FilterKind.GammaMAPFilter => qs "Gamma Filtered "
  | FilterKind.KuanFilter => qs "Kuan Filtered "
  | FilterKind.LeeFilter => qs "Lee Filtered "
  | FilterKind.EnhancedLeeFilter => qs "Enh. Lee Filtered "
  | FilterKind.MedianFilter => qs "Median Filtered "
  | FilterKind.ShockFilter => qs "Shock Filtered "

/-- What the worker and the filters see of an `Image<float>`: its name, its
description and the number of its bands. Pixel values are not part of the
embedding. -/
structure Image where
  name : QString
  description : QString
  numBands : Nat
  deriving DecidableEq, Repr

/-- What a `catch` of `run()` receives: a `std::exception` with its
`what()`, or anything else. -/
inductive Thrown where
  | stdException (what : QString)
  | other
  deriving DecidableEq, Repr

/-- The first argument of `statusMessage`, the quotient `num / den`, which
the code computes in floating point. -/
structure Percent where
  num : Nat
  den : Nat
  deriving DecidableEq, Repr

/-- The signals of an `Algorithm`. -/
inductive Signal where
  | errorMessage (text : QString)
  | statusMessage (percent : Percent) (text : QString)
  | finished
  deriving DecidableEq, Repr

/-- What `run()` does to the outside, in order: locking and unlocking the
models, emitting a signal, calling the filter function of vigra on the band
`m_phase`. -/
inductive RunEvent where
  | lockModels
  | unlockModels
  | emit (s : Signal)
  | filterBand (m_phase : Nat)
  deriving DecidableEq, Repr

/-- Which of the operations inside the `try` block of `run()` throw, and
what: creating the new image (`new Image<float>(...)`, `copyMetadata`,
`setName`), the filter function on each band, and composing the description
(`valueText`, `setDescription`). `none` stands for a normal return. -/
structure Computation where
  create : Option Thrown
  filter : Nat → Option Thrown
  describe : Option Thrown

/-- An image filter as `run()` sees it: its kind, the verdict of
`parametersValid()`, the image selected by the parameter `image`, the text
`m_parameters->valueText("ModelParameter")`, the behaviour of the operations
that may throw, the list `m_results`, whether the models are locked, and the
record of what `run()` has done. -/
structure FilterAlgorithm where
  kind : FilterKind
  parametersValid : Bool
  current_image : Image
  valueText : QString
  computation : Computation
  m_results : List Image
  locked : Bool
  events : List RunEvent

namespace FilterAlgorithm

/-- The record of events extended by `e`. -/
def note (e : RunEvent) (a : FilterAlgorithm) : FilterAlgorithm :=
  { a with events := a.events ++ [e] }

/-- The statement `emit s`. -/
def emit (s : Signal) (a : FilterAlgorithm) : FilterAlgorithm :=
  a.note (RunEvent.emit s)

/-- Modelled from the spec: `Algorithm::lockModels()`, which is not part of
the module's source: the models the algorithm uses are locked. -/
def lockModels (a : FilterAlgorithm) : FilterAlgorithm :=
  { a.note RunEvent.lockModels with locked := true }

/-- Modelled from the spec: `Algorithm::unlockModels()`, which is not part
of the module's source: the models the algorithm uses are unlocked. -/
def unlockModels (a : FilterAlgorithm) : FilterAlgorithm :=
  { a.note RunEvent.unlockModels with locked := false }

/-- The loop `for(m_phase = 0; m_phase < m_phase_count; m_phase++)` of
`run()`, over the values of `m_phase` still to come: the filter function on
the band, then `statusMessage(m_phase*99.0/m_phase_count, "filtering")`. The
second component tells what was thrown, if anything. -/
def filterBands (m_phase_count : Nat) :
    List Nat → FilterAlgorithm → FilterAlgorithm × Option Thrown
  | [], a => (a, none)
  | m_phase :: rest, a =>
    let a := a.note (RunEvent.filterBand m_phase)
    match a.computation.filter m_phase with
    | some e => (a, some e)
    | none =>
      filterBands m_phase_count rest
        (a.emit (Signal.statusMessage ⟨m_phase * 99, m_phase_count⟩ (qs "filtering")))

/-- The `try` block of `run()`. The second component tells what was thrown,
if anything. -/
def tryBlock (a : FilterAlgorithm) : FilterAlgorithm × Option Thrown :=
  let a := a.emit (Signal.statusMessage ⟨0, 1⟩ (qs "started"))
  let current_image := a.current_image
  let a := a.emit (Signal.statusMessage ⟨1, 1⟩ (qs "starting computation"))
  match a.computation.create with
  | some e => (a, some e)
  | none =>
    let new_image : Image :=
      { current_image with name := a.kind.namePrefix ++ current_image.name }
    let m_phase_count := current_image.numBands
    match filterBands m_phase_count (List.range m_phase_count) a with
    | (a, some e) => (a, some e)
    | (a, none) =>
      match a.computation.describe with
      | some e => (a, some e)
      | none =>
        let descr := qs "The following parameters were used for filtering:\n" ++ a.valueText
        let new_image := { new_image with description := descr }
        let a := { a with m_results := a.m_results.set 0 new_image }
        let a := a.emit (Signal.statusMessage ⟨100, 1⟩ (qs "finished computation"))
        let a := a.emit Signal.finished
        (a, none)

/-- The member `run()` of each of the eight filters. The eight bodies differ
only in the parameters they fetch, in the filter function they call on a
band and in the prefix of the new name. -/
def run (a : FilterAlgorithm) : FilterAlgorithm :=
  if !a.parametersValid then
    a.emit (Signal.errorMessage (qs "Some parameters are not available"))
  else
    let a := a.lockModels
    let a :=
      match tryBlock a with
      | (a, none) => a
      | (a, some (Thrown.stdException what)) =>
        a.emit (Signal.errorMessage (qs "Explainable error occured: " ++ what))
      | (a, some Thrown.other) =>
        a.emit (Signal.errorMessage (qs "Non-explainable error occured"))
    a.unlockModels

end FilterAlgorithm

/-- A computation in which nothing throws. -/
def Computation.completes : Computation :=
  { create := none, filter := fun _ => none, describe := none }

/-- A filter for examples: a Frost filter on an image `scene` of two bands,
with the placeholder result of the constructor, and with the given verdict
of `parametersValid()` and behaviour of the computation. -/
def frostOn (parametersValid : Bool) (computation : Computation) : FilterAlgorithm :=
  { kind := FilterKind.FrostFilter, parametersValid := parametersValid,
    current_image := { name := qs "scene", description := [], numBands := 2 },
    valueText := qs "size: 11", computation := computation,
    m_results := [{ name := qs "new", description := [], numBands := 0 }],
    locked := false, events := [] }

/-- Collaborators for examples with a filter as the algorithm. The state is
the algorithm object once it has run. A payload whose second byte is `0`
loads to a Frost filter whose parameters are not valid, any other payload to
one whose filter function throws a `std::exception` on the second band. A
model is serialized to the bytes of its name. -/
def filterExtern : Extern (Option FilterAlgorithm) Image FilterAlgorithm where
  openRead := fun _ buf => buf.head? == some 31
  loadModel := fun w _ => (Outcome.returns none, w)
  loadAlgorithm := fun w buf =>
    (Outcome.returns (some (if buf.tail.head? == some 0 then frostOn false Computation.completes
      else frostOn true { Computation.completes with
        filter := fun m_phase =>
          if m_phase = 1 then some (Thrown.stdException (qs "bad kernel")) else none })), w)
  run := fun _ alg => (Outcome.returns (), some alg.run)
  results := fun w alg =>
    match w with
    | some ran => ran.m_results
    | none => alg.m_results
  openWrite := fun _ => true
  serialize := fun w m => (Outcome.returns (toLatin1 m.name), w)

/-- The state in which `readAndRunAlgorithm` goes on once the algorithm has
been loaded: the payload is received, and the handler, the opening of the
gzip device, the loading and the call of `run` are on record. -/
def afterLoad {W : Type} (n : Int) (t : WorkerThread W) (w : W) : WorkerThread W :=
  { t with
    m_tcpSocket := (WorkerThread.receive n t.m_tcpSocket).2
    world := w
    calls := t.calls ++ [Call.readAndRunAlgorithm n,
      Call.openRead (WorkerThread.receive n t.m_tcpSocket).1,
      Call.loadAlgorithm (WorkerThread.receive n t.m_tcpSocket).1, Call.run] }

/-- A session for examples with a filter as the algorithm: an
`Algorithm` command is pending for the bytes `payload`, which are on the
socket. -/
def filterSession (payload : QByteArray) : WorkerThread (Option FilterAlgorithm) :=
  { m_registered_users := [], m_state := 2, m_expected_bytes := payload.length,
    m_tcpSocket := socketWith payload, world := none, calls := [] }

/-- The constructor of a filter, followed by the setting of what `run()`
looks at: the constructor registers the parameters and pushes one new, empty
`Image<float>`, here `placeholder`, onto `m_results`; the models are not
locked and nothing has been done yet. -/
def FilterAlgorithm.construct (kind : FilterKind) (placeholder : Image)
    (parametersValid : Bool) (current_image : Image) (valueText : QString)
    (computation : Computation) : FilterAlgorithm :=
  { kind := kind, parametersValid := parametersValid, current_image := current_image,
    valueText := valueText, computation := computation, m_results := [placeholder],
    locked := false, events := [] }

/-- The first thing thrown by the operations of the `try` block, taken in
the order in which `run()` performs them: creating the new image, the filter
function on the bands `0, 1, ...`, composing the description. -/
def firstThrown (c : Computation) (numBands : Nat) : Option Thrown :=
  ([c.create] ++ (List.range numBands).map c.filter ++ [c.describe]).findSome? id

/-- The errors among the events: the texts of the `errorMessage` signals, in
order. -/
def errorsOf : List RunEvent → List QString
  | [] => []
  | RunEvent.emit (Signal.errorMessage text) :: rest => text :: errorsOf rest
  | _ :: rest => errorsOf rest

/-- The calls of the filter function on a band among the events. -/
def filterCallsOf : List RunEvent → List Nat
  | [] => []
  | RunEvent.filterBand m_phase :: rest => m_phase :: filterCallsOf rest
  | _ :: rest => filterCallsOf rest

/-! ### Parameters, border treatment and the factory of the module -/

/-- The parameter classes used by the image filters. -/
inductive ParameterClass where
  | ModelParameter
  | IntParameter
  | FloatParameter
  | EnumParameter
  deriving DecidableEq, Repr

/-- The parameters that the constructor of each filter registers with
`m_parameters->addParameter(key, new <class>(...))`: key and class, in the
order of the source. -/
def FilterKind.registered : FilterKind → List (String × ParameterClass)
  | FilterKind.FrostFilter =>
    [("image", ParameterClass.ModelParameter), ("size", ParameterClass.IntParameter),
     ("k", ParameterClass.FloatParameter), ("bt", ParameterClass.EnumParameter)]
  | FilterKind.EnhancedFrostFilter =>
    [("image", ParameterClass.ModelParameter), ("size", ParameterClass.IntParameter),
     ("k", ParameterClass.FloatParameter), ("ENL", ParameterClass.IntParameter),
     ("bt", ParameterClass.EnumParameter)]
  | FilterKind.GammaMAPFilter =>
    [("image", ParameterClass.ModelParameter), ("size", ParameterClass.IntParameter),
     ("ENL", ParameterClass.IntParameter), ("bt", ParameterClass.EnumParameter)]
  | FilterKind.KuanFilter =>
    [("image", ParameterClass.ModelParameter), ("size", ParameterClass.IntParameter),
     ("ENL", ParameterClass.IntParameter), ("bt", ParameterClass.EnumParameter)]
  | FilterKind.LeeFilter =>
    [("image", ParameterClass.ModelParameter), ("size", ParameterClass.IntParameter),
     ("ENL", ParameterClass.IntParameter), ("bt", ParameterClass.EnumParameter)]
  | FilterKind.EnhancedLeeFilter =>
    [("image", ParameterClass.ModelParameter), ("size", ParameterClass.IntParameter),
     ("k", ParameterClass.FloatParameter), ("ENL", ParameterClass.IntParameter),
     ("bt", ParameterClass.EnumParameter)]
  | FilterKind.MedianFilter =>
    [("image", ParameterClass.ModelParameter), ("size", ParameterClass.IntParameter),
     ("bt", ParameterClass.EnumParameter)]
  | FilterKind.ShockFilter =>
    [("image", ParameterClass.ModelParameter), ("sigma1", ParameterClass.FloatParameter),
     ("sigma2", ParameterClass.FloatParameter), ("upwind", ParameterClass.FloatParameter),
     ("iterations", ParameterClass.IntParameter)]

/-- The parameters that `run()` of each filter fetches with
`static_cast<<class>*>((*m_parameters)[key])`: key and class of the cast, in
the order of the source. -/
def FilterKind.fetched : FilterKind → List (String × ParameterClass)
  | FilterKind.FrostFilter =>
    [("image", ParameterClass.ModelParameter), ("size", ParameterClass.IntParameter),
     ("k", ParameterClass.FloatParameter), ("bt", ParameterClass.EnumParameter)]
  | FilterKind.EnhancedFrostFilter =>
    [("image", ParameterClass.ModelParameter), ("size", ParameterClass.IntParameter),
     ("k", ParameterClass.FloatParameter), ("ENL", ParameterClass.IntParameter),
     ("bt", ParameterClass.EnumParameter)]
  | FilterKind.GammaMAPFilter =>
    [("image", ParameterClass.ModelParameter), ("size", ParameterClass.IntParameter),
     ("ENL", ParameterClass.FloatParameter), ("bt", ParameterClass.EnumParameter)]
  | FilterKind.KuanFilter =>
    [("image", ParameterClass.ModelParameter), ("size", ParameterClass.IntParameter),
     ("ENL", ParameterClass.IntParameter), ("bt", ParameterClass.EnumParameter)]
  | FilterKind.LeeFilter =>
    [("image", ParameterClass.ModelParameter), ("size", ParameterClass.IntParameter),
     ("ENL", ParameterClass.IntParameter), ("bt", ParameterClass.EnumParameter)]
  | FilterKind.EnhancedLeeFilter =>
    [("image", ParameterClass.ModelParameter), ("size", ParameterClass.IntParameter),
     ("k", ParameterClass.FloatParameter), ("ENL", ParameterClass.IntParameter),
     ("bt", ParameterClass.EnumParameter)]
  | FilterKind.MedianFilter =>
    [("image", ParameterClass.ModelParameter), ("size", ParameterClass.IntParameter),
     ("bt", ParameterClass.EnumParameter)]
  | FilterKind.ShockFilter =>
    [("image", ParameterClass.ModelParameter), ("sigma1", ParameterClass.FloatParameter),
     ("sigma2", ParameterClass.FloatParameter), ("upwind", ParameterClass.FloatParameter),
     ("iterations", ParameterClass.IntParameter)]

/-- The class under which the constructor registered `key`, if it did. -/
def FilterKind.registeredClass (k : FilterKind) (key : String) : Option ParameterClass :=
  (k.registered.find? (fun entry => entry.1 == key)).map (fun entry => entry.2)

/-- `vigra::BorderTreatmentMode` as the comment in the constructor of
`ImageFilter` documents it, in the order of the enumeration. -/
inductive BorderTreatmentMode where
  | BORDER_TREATMENT_AVOID
  | BORDER_TREATMENT_CLIP
  | BORDER_TREATMENT_REPEAT
  | BORDER_TREATMENT_REFLECT
  | BORDER_TREATMENT_WRAP
  | BORDER_TREATMENT_ZEROPAD
  deriving DecidableEq, Repr

/-- The value of an enumerator: its place in the enumeration, from `0`. -/
def BorderTreatmentMode.value : BorderTreatmentMode → Nat
  | BORDER_TREATMENT_AVOID => 0
  | BORDER_TREATMENT_CLIP => 1
  | BORDER_TREATMENT_REPEAT => 2
  | BORDER_TREATMENT_REFLECT => 3
  | BORDER_TREATMENT_WRAP => 4
  | BORDER_TREATMENT_ZEROPAD => 5

/-- The conversion `vigra::BorderTreatmentMode(index)` of `run()`, for an
index that is the value of an enumerator. -/
def BorderTreatmentMode.ofIndex : Nat → Option BorderTreatmentMode
  | 0 => some BORDER_TREATMENT_AVOID
  | 1 => some BORDER_TREATMENT_CLIP
  | 2 => some BORDER_TREATMENT_REPEAT
  | 3 => some BORDER_TREATMENT_REFLECT
  | 4 => some BORDER_TREATMENT_WRAP
  | 5 => some BORDER_TREATMENT_ZEROPAD
  | _ => none

/-- The name of a mode as the entries of the list spell it. -/
def BorderTreatmentMode.name : BorderTreatmentMode → QString
  | BORDER_TREATMENT_AVOID => qs "AVOID"
  | BORDER_TREATMENT_CLIP => qs "CLIP"
  | BORDER_TREATMENT_REPEAT => qs "REPEAT"
  | BORDER_TREATMENT_REFLECT => qs "REFLECT"
  | BORDER_TREATMENT_WRAP => qs "WRAP"
  | BORDER_TREATMENT_ZEROPAD => qs "ZEROPAD"

/-- The list `m_border_treatment_modes` that the constructor of
`ImageFilter` fills. -/
def m_border_treatment_modes : List QString :=
  [qs "AVOID \tIgnore the borders",
   qs "",
   qs "REPEAT \tlast rows and columns at border",
   qs "REFLECT \timage intensities at border",
   qs "WRAP \timage intensities around border",
   qs "ZEROPAD \t filling of borders"]

/-- The initial index of the parameter `bt`, the third argument of
`new EnumParameter("Border treatment", m_border_treatment_modes, 2)`, for the
filters that register `bt`. -/
def FilterKind.borderTreatmentDefault : FilterKind → Option Nat
  | FilterKind.ShockFilter => none
  | _ => some 2

/-- The first word of an entry of the list: the characters in front of the
first blank. -/
def firstWord (entry : QString) : QString := entry.takeWhile (fun c => c != ' ')

/-- The text `typeName()` of each filter returns. -/
def FilterKind.typeName : FilterKind → QString
  | FilterKind.FrostFilter => qs "FrostFilter"
  | FilterKind.EnhancedFrostFilter => qs "EnhancedFrostFilter"
  | FilterKind.GammaMAPFilter => qs "GammaMAPFilter"
  | FilterKind.KuanFilter => qs "KuanFilter"
  | FilterKind.LeeFilter => qs "LeeFilter"
  | FilterKind.EnhancedLeeFilter => qs "EnhancedLeeFilter"
  | FilterKind.MedianFilter => qs "MedianFilter"
  | FilterKind.ShockFilter => qs "ShockFilter"

/-- An `AlgorithmFactoryItem`. `algorithm_fptr` is given by the class of
which the function pointed to returns a new instance. -/
structure AlgorithmFactoryItem where
  topic_name : QString
  algorithm_name : QString
  algorithm_type : QString
  algorithm_fptr : FilterKind
  deriving DecidableEq, Repr

/-- The functions `createFrostFilter`, ..., `createShockFilter`: each
returns a new instance of the class in its name. -/
def createFrostFilter : FilterKind := FilterKind.FrostFilter
/-- See `createFrostFilter`. -/
def createEnhancedFrostFilter : FilterKind := FilterKind.EnhancedFrostFilter
/-- See `createFrostFilter`. -/
def createGammaMAPFilter : FilterKind := FilterKind.GammaMAPFilter
/-- See `createFrostFilter`. -/
def createKuanFilter : FilterKind := FilterKind.KuanFilter
/-- See `createFrostFilter`. -/
def createLeeFilter : FilterKind := FilterKind.LeeFilter
/-- See `createFrostFilter`. -/
def createEnhancedLeeFilter : FilterKind := FilterKind.EnhancedLeeFilter
/-- See `createFrostFilter`. -/
def createMedianFilter : FilterKind := FilterKind.MedianFilter
/-- See `createFrostFilter`. -/
def createShockFilter : FilterKind := FilterKind.ShockFilter

/-- `ImageFilterModule::algorithmFactory()`: the items pushed, in order.
`topic_name` is set once and kept for all items. -/
def algorithmFactory : List AlgorithmFactoryItem :=
  [{ topic_name := qs "Image filters", algorithm_name := qs "Frost filter",
     algorithm_type := qs "FrostFilter", algorithm_fptr := createFrostFilter },
   { topic_name := qs "Image filters", algorithm_name := qs "Enhanced Frost filter",
     algorithm_type := qs "EnhancedFrostFilter", algorithm_fptr := createEnhancedFrostFilter },
   { topic_name := qs "Image filters", algorithm_name := qs "Gamma MAP filter",
     algorithm_type := qs "GammaMAPFilter", algorithm_fptr := createGammaMAPFilter },
   { topic_name := qs "Image filters", algorithm_name := qs "Kuan filter",
     algorithm_type := qs "KuanFilter", algorithm_fptr := createKuanFilter },
   { topic_name := qs "Image filters", algorithm_name := qs "Lee filter",
     algorithm_type := qs "LeeFilter", algorithm_fptr := createLeeFilter },
   { topic_name := qs "Image filters", algorithm_name := qs "Enhanced Lee filter",
     algorithm_type := qs "EnhancedLeeFilter", algorithm_fptr := createEnhancedLeeFilter },
   { topic_name := qs "Image filters", algorithm_name := qs "Median filter",
     algorithm_type := qs "MedianFilter", algorithm_fptr := createMedianFilter },
   { topic_name := qs "Image filters", algorithm_name := qs "Coherence enhancing shock filter",
     algorithm_type := qs "ShockFilter", algorithm_fptr := createShockFilter }]

/-! ## `FloatParameter` (`src/core/parameters/floatparameter.cxx`) -/

/-- The values of a `float` as far as comparisons see them: not-a-number,
the two infinities, and the finite values, each given by the rational number
it stands for (so `-0.0` and `0.0` are the same value). -/
inductive FloatValue where
  | nan
  | negInf
  | posInf
  | finite (q : ℚ)
  deriving DecidableEq

namespace FloatValue

/-- The comparison `a <= b` of two `float`s: false as soon as one of them is
not-a-number. -/
def le : FloatValue → FloatValue → Bool
  | nan, _ => false
  | _, nan => false
  | negInf, _ => true
  | _, posInf => true
  | finite p, finite q => decide (p ≤ q)
  | _, _ => false

/-- The comparison `a >= b` of two `float`s: false as soon as one of them is
not-a-number. -/
def ge : FloatValue → FloatValue → Bool
  | nan, _ => false
  | _, nan => false
  | _, negInf => true
  | posInf, _ => true
  | finite p, finite q => decide (p ≥ q)
  | _, _ => false

/-- The comparison `a > b` of two `float`s. -/
def gt : FloatValue → FloatValue → Bool
  | nan, _ => false
  | _, nan => false
  | negInf, _ => false
  | _, posInf => false
  | finite p, finite q => decide (p > q)
  | _, _ => true

end FloatValue

/-- The delegate widget `QDoubleSpinBox` as far as `FloatParameter` uses it:
its range and the value it holds. -/
structure QDoubleSpinBox where
  minimum : FloatValue
  maximum : FloatValue
  value : FloatValue

/-- The members of `FloatParameter` that the functions below use.
`m_dsbDelegate` is the delegate widget, `none` for `NULL`. -/
structure FloatParameter where
  m_value : FloatValue
  m_min_value : FloatValue
  m_max_value : FloatValue
  m_dsbDelegate : Option QDoubleSpinBox

namespace FloatParameter

/-- `FloatParameter::FloatParameter(name, low, upp, value, ...)`. -/
def new (low upp value : FloatValue) : FloatParameter :=
  { m_value := value, m_min_value := low, m_max_value := upp, m_dsbDelegate := none }

/-- `FloatParameter::lowerBound()`. -/
def lowerBound (p : FloatParameter) : FloatValue := p.m_min_value

/-- `FloatParameter::upperBound()`. -/
def upperBound (p : FloatParameter) : FloatValue := p.m_max_value

/-- `FloatParameter::value()`. -/
def value (p : FloatParameter) : FloatValue := p.m_value

/-- `FloatParameter::setValue(value)`: the member is set. When the delegate
exists, `m_dsbDelegate->setValue(value)` is called. `boxSetValue` is that
function of Qt: the box afterwards (it holds the argument rounded to its
decimals and bounded to its range) and whether it emitted
`valueChanged(double)`, which it does when the value it holds has changed.
The signal is connected to the slot `FloatParameter::updateValue()`, which
sets `m_value` to the value the box holds. `Parameter::updateValue()`, called
by the slot and at the end, is a member of the base class and does not
reach `m_value`. -/
def setValue (boxSetValue : QDoubleSpinBox → FloatValue → QDoubleSpinBox × Bool)
    (value : FloatValue) (p : FloatParameter) : FloatParameter :=
  let p := { p with m_value := value }
  match p.m_dsbDelegate with
  | none => p
  | some box =>
    let box1 := (boxSetValue box value).1
    let valueChanged := (boxSetValue box value).2
    let p := { p with m_dsbDelegate := some box1 }
    if valueChanged then { p with m_value := box1.value } else p

/-- `FloatParameter::isValid()`:
`value() >= lowerBound() && value() <= upperBound()`. -/
def isValid (p : FloatParameter) : Bool :=
  p.value.ge p.lowerBound && p.value.le p.upperBound

/-- `QByteArray::trimmed`: the ASCII white space `\t \n \v \f \r` and space
removed from both ends. -/
def trimmedBytes (data : QByteArray) : QByteArray :=
  let isspace := fun (b : UInt8) => b == 32 || (9 ≤ b && b ≤ 13)
  ((data.dropWhile isspace).reverse.dropWhile isspace).reverse

/-- `FloatParameter::deserialize(in)`, on the bytes `input` still to be read
from the device. `base` is `Parameter::deserialize`, which is not part of
this file's source: its verdict and the bytes it leaves. `toFloat` is the
conversion of Qt behind `QString(content).toFloat()`: the value when the
bytes are a number, `none` when the conversion fails, in which case
`toFloat()` returns `0.0`; it does not throw, and neither does `setValue`, so
the `catch` block is never entered. `boxSetValue` is the function of Qt that
`setValue` calls on the delegate. The result is the value returned, the
parameter, and the bytes left on the device. -/
def deserialize (base : QByteArray → Bool × QByteArray)
    (toFloat : QByteArray → Option FloatValue)
    (boxSetValue : QDoubleSpinBox → FloatValue → QDoubleSpinBox × Bool)
    (p : FloatParameter) (input : QByteArray) : Bool × FloatParameter × QByteArray :=
  if !(base input).1 then (false, p, (base input).2)
  else
    let rest := (base input).2
    let content := trimmedBytes (Socket.lineOf rest)
    let val := (toFloat content).getD (FloatValue.finite 0)
    (true, p.setValue boxSetValue val, rest.drop (Socket.lineOf rest).length)

end FloatParameter

/-- A conversion for examples: the bytes are a number when they are decimal
digits, at least one. -/
def digitsToFloat (content : QByteArray) : Option FloatValue :=
  if content.isEmpty then none
  else (parseDigits (fromLatin1 content) 0).map (fun n => FloatValue.finite n)

/-! ## `Impex` (`src/core/impex.cxx`) -/

/-- The device that `Impex::openFile` returns: the file itself, or a gzip
compressor on the file. -/
inductive Device where
  | file (filename : QString)
  | compressor (filename : QString)
  deriving DecidableEq, Repr

/-- What `Impex::openFile` and `Impex::save` need from outside: whether
`QFile::open` succeeds on a file name, whether `QIOCompressor::open` succeeds
on it, and how `Serializable::serialize` ends on a device. -/
structure FileSystem (Object : Type) where
  fileOpen : QString → Bool
  compressorOpen : QString → Bool
  serialize : Object → Device → Outcome Unit

/-- What `Impex::save` does to a device: `object->serialize(xmlWriter)` with
the writer on the device, and `device->close()`. -/
inductive DeviceEvent where
  | serialize (device : Device)
  | close (device : Device)
  deriving DecidableEq, Repr

/-- `QString::right(n)`: the last `n` characters, the whole string if it is
shorter. -/
def right (n : Nat) (s : QString) : QString := s.drop (s.length - n)

namespace Impex

/-- `Impex::openFile(filename, openMode)`; `none` is `NULL`. -/
def openFile {Object : Type} (fs : FileSystem Object) (filename : QString) : Option Device :=
  let compress := right 2 filename == qs "gz"
  if !filename.isEmpty then
    if compress then
      if fs.compressorOpen filename then some (Device.compressor filename) else none
    else
      if fs.fileOpen filename then some (Device.file filename) else none
  else none

/-- `Impex::save(object, filename, compress)`: the value returned, or the
exception of `serialize` passed on, together with what was done to the
device that `openFile` gave, in order. -/
def save {Object : Type} (fs : FileSystem Object) (object : Object) (filename : QString)
    (_compress : Bool) : Outcome Bool × List DeviceEvent :=
  match openFile fs filename with
  | some device =>
    match fs.serialize object device with
    | Outcome.returns _ =>
      (Outcome.returns true, [DeviceEvent.serialize device, DeviceEvent.close device])
    | Outcome.throws => (Outcome.throws, [DeviceEvent.serialize device])
  | none => (Outcome.returns false, [])

end Impex

/-- The session invariant: `m_state` is one of `-1`, `0`, `1`, `2`, and in
the states `-1` and `0` the expected byte count is `0`. -/
def SessionInvariant {W : Type} (t : WorkerThread W) : Prop :=
  (t.m_state = -1 ∨ t.m_state = 0 ∨ t.m_state = 1 ∨ t.m_state = 2) ∧
  (t.m_state = -1 ∨ t.m_state = 0 → t.m_expected_bytes = 0)

instance {W : Type} (t : WorkerThread W) : Decidable (SessionInvariant t) := by
  unfold SessionInvariant; infer_instance

/-! ## Facts about the string functions -/

theorem toNat_ofNat_byte (n : Nat) (h : n < 256) : (UInt8.ofNat n).toNat = n := by
  simp [UInt8.ofNat, UInt8.toNat, BitVec.toNat_ofNat, Nat.mod_eq_of_lt h]

theorem latin1Char_ofNat (c : Char) (h : c.toNat < 256) :
    latin1Char (UInt8.ofNat c.toNat) = c := by
  simp [latin1Char, toNat_ofNat_byte c.toNat h, Char.ofNat_toNat]

theorem IsText.append {s t : QString} (hs : IsText s) (ht : IsText t) : IsText (s ++ t) := by
  intro c hc
  rcases List.mem_append.1 hc with h | h
  · exact hs c h
  · exact ht c h

theorem toLatin1_append (s t : QString) : toLatin1 (s ++ t) = toLatin1 s ++ toLatin1 t := by
  simp [toLatin1]

theorem toLatin1_ne_zero (c : Char) (h0 : 0 < c.toNat) (h : c.toNat < 256) :
    (UInt8.ofNat c.toNat != 0) = true := by
  have h1 := toNat_ofNat_byte c.toNat h
  simp only [bne_iff_ne, ne_eq]
  intro h2
  rw [h2] at h1
  have h3 : (0 : UInt8).toNat = 0 := by decide
  omega

/-- Decoding the Latin-1 bytes of a text, followed by any bytes, gives the
text followed by the decoding of those bytes. -/
theorem fromLatin1_toLatin1_append (s : QString) (hs : IsText s) (rest : QByteArray) :
    fromLatin1 (toLatin1 s ++ rest) = s ++ fromLatin1 rest := by
  induction s with
  | nil => simp [toLatin1]
  | cons c cs ih =>
    have hc := hs c (List.mem_cons_self _ _)
    have hcs : IsText cs := fun d hd => hs d (List.mem_cons_of_mem _ hd)
    have ih' := ih hcs
    simp only [fromLatin1, toLatin1, List.map_cons, List.cons_append, if_pos hc.2] at ih' ⊢
    rw [List.takeWhile_cons, if_pos (toLatin1_ne_zero c hc.1 hc.2)]
    simp only [List.map_cons, latin1Char_ofNat c hc.2, ih']

theorem fromLatin1_toLatin1 (s : QString) (hs : IsText s) : fromLatin1 (toLatin1 s) = s := by
  have := fromLatin1_toLatin1_append s hs []
  simpa [fromLatin1] using this

theorem toLatin1_not_mem (s : QString) (hs : IsText s) (c : Char) (hc : c.toNat < 256)
    (h : c ∉ s) : UInt8.ofNat c.toNat ∉ toLatin1 s := by
  intro hm
  simp only [toLatin1, List.mem_map] at hm
  obtain ⟨d, hd, hEq⟩ := hm
  rw [if_pos (hs d hd).2] at hEq
  have h1 := congrArg UInt8.toNat hEq
  rw [toNat_ofNat_byte _ (hs d hd).2, toNat_ofNat_byte _ hc] at h1
  have h2 : d = c := by rw [← Char.ofNat_toNat d, ← Char.ofNat_toNat c, h1]
  exact h (h2 ▸ hd)

theorem lineOf_append (l rest : QByteArray) (h : (10 : UInt8) ∉ l) :
    Socket.lineOf (l ++ 10 :: rest) = l ++ [10] := by
  induction l with
  | nil => simp [Socket.lineOf]
  | cons b bs ih =>
    have hb : b ≠ 10 := fun e => h (e ▸ List.mem_cons_self _ _)
    have hbs : (10 : UInt8) ∉ bs := fun e => h (List.mem_cons_of_mem _ e)
    simp [Socket.lineOf, hb, ih hbs]

/-- The line read from a buffer that starts with a text without line feed,
followed by a line feed. -/
theorem readLine_text (s : QString) (hs : IsText s) (hn : '\n' ∉ s) (rest : QByteArray)
    (sock : Socket) (hb : sock.readBuffer = toLatin1 s ++ 10 :: rest) :
    sock.readLine.1 = toLatin1 s ++ [10] ∧ sock.readLine.2 = { sock with readBuffer := rest } := by
  have h10 : (10 : UInt8) ∉ toLatin1 s := toLatin1_not_mem s hs '\n' (by decide) hn
  have hl := lineOf_append (toLatin1 s) rest h10
  simp only [Socket.readLine, hb, hl, true_and]
  congr 1
  rw [show toLatin1 s ++ 10 :: rest = (toLatin1 s ++ [10]) ++ rest by simp]
  exact List.drop_left _ _

theorem dropWhile_all {α : Type} (p : α → Bool) (ws l : List α) (h : ∀ c ∈ ws, p c = true) :
    (ws ++ l).dropWhile p = l.dropWhile p := by
  induction ws with
  | nil => rfl
  | cons w ws ih =>
    have hw := h w (List.mem_cons_self _ _)
    simp only [List.cons_append, List.dropWhile_cons, hw, if_true]
    exact ih (fun c hc => h c (List.mem_cons_of_mem _ hc))

/-- White space after a string that neither starts nor ends with white space
is all that `trimmed` removes. -/
theorem trimmed_append_space (a z : Char) (s ws : QString) (hh : s.head? = some a)
    (ha : isSpace a = false) (hl : s.getLast? = some z) (hz : isSpace z = false)
    (hws : ∀ c ∈ ws, isSpace c = true) : trimmed (s ++ ws) = s := by
  obtain ⟨s1, rfl⟩ : ∃ s1, s = a :: s1 := by
    cases s with
    | nil => simp at hh
    | cons b s1 => simp at hh; exact ⟨s1, by rw [hh]⟩
  have h1 : (a :: s1 ++ ws).dropWhile isSpace = a :: s1 ++ ws := by
    simp [List.dropWhile_cons, ha]
  have h2 : (a :: s1).reverse.head? = some z := by
    rw [List.head?_reverse]; exact hl
  obtain ⟨r, hr⟩ : ∃ r, (a :: s1).reverse = z :: r := by
    cases hrev : (a :: s1).reverse with
    | nil => rw [hrev] at h2; simp at h2
    | cons b r => rw [hrev] at h2; simp at h2; exact ⟨r, by rw [h2]⟩
  unfold trimmed
  rw [h1, List.reverse_append, dropWhile_all isSpace ws.reverse _ (by
    intro c hc; exact hws c (List.mem_reverse.1 hc)), hr]
  simp only [List.dropWhile_cons, hz, Bool.false_eq_true, if_false]
  rw [← hr, List.reverse_reverse]

/-! ### `split` -/

theorem split_ne_nil (sep : Char) (s : QString) : split sep s ≠ [] := by
  cases s with
  | nil => simp [split]
  | cons c cs =>
    simp only [split]
    split_ifs
    · simp
    · cases split sep cs <;> simp

theorem joinWith_split (sep : Char) (s : QString) : joinWith sep (split sep s) = s := by
  induction s with
  | nil => rfl
  | cons c cs ih =>
    simp only [split]
    split_ifs with h
    · cases hs : split sep cs with
      | nil => exact absurd hs (split_ne_nil sep cs)
      | cons f fs => rw [hs] at ih; simp [joinWith, ih, h]
    · cases hs : split sep cs with
      | nil => exact absurd hs (split_ne_nil sep cs)
      | cons f fs =>
        rw [hs] at ih
        cases fs with
        | nil => simpa [joinWith] using ih
        | cons g r => simp only [joinWith] at ih ⊢; rw [← ih]; rfl

theorem split_no_sep (sep : Char) (s : QString) (h : sep ∉ s) : split sep s = [s] := by
  induction s with
  | nil => rfl
  | cons c cs ih =>
    have hc : c ≠ sep := fun e => h (e ▸ List.mem_cons_self _ _)
    have hcs : sep ∉ cs := fun e => h (List.mem_cons_of_mem _ e)
    simp [split, hc, ih hcs]

theorem split_append_sep (sep : Char) (a b : QString) (h : sep ∉ a) :
    split sep (a ++ sep :: b) = a :: split sep b := by
  induction a with
  | nil => simp [split]
  | cons c cs ih =>
    have hc : c ≠ sep := fun e => h (e ▸ List.mem_cons_self _ _)
    have hcs : sep ∉ cs := fun e => h (List.mem_cons_of_mem _ e)
    simp [split, hc, ih hcs]

theorem split_field_no_sep (sep : Char) (s : QString) : ∀ f ∈ split sep s, sep ∉ f := by
  induction s with
  | nil => simp [split]
  | cons c cs ih =>
    simp only [split]
    split_ifs with h
    · intro f hf
      rcases List.mem_cons.1 hf with rfl | hf
      · simp
      · exact ih f hf
    · cases hs : split sep cs with
      | nil => exact absurd hs (split_ne_nil sep cs)
      | cons g gs =>
        rw [hs] at ih
        intro f hf
        rcases List.mem_cons.1 hf with rfl | hf
        · intro hm
          rcases List.mem_cons.1 hm with e | hm
          · exact h e.symm
          · exact ih g (List.mem_cons_self _ _) hm
        · exact ih f (List.mem_cons_of_mem _ hf)

/-! ## The login state -/

theorem getLast?_append_cons (a : QString) (c : Char) (b : QString) :
    (a ++ c :: b).getLast? = (c :: b).getLast? := by
  rw [List.getLast?_append]
  cases h : (c :: b).getLast? with
  | none => simp at h
  | some z => rfl

/-- The fields of the line `login:<user>:<pass>\n`. -/
theorem splitLine_login (user pass : QString) (hu : IsField user) (hp : IsField pass)
    (hend : endsInSpace pass = false) :
    WorkerThread.splitLine (toLatin1 (qs "login:" ++ user ++ qs ":" ++ pass) ++ [10]) =
      [qs "login", user, pass] := by
  have htext : IsText (qs "login:" ++ user ++ qs ":" ++ pass) :=
    ((IsText.append (by decide) hu.1).append (by decide)).append hp.1
  have hdec : fromLatin1 (toLatin1 (qs "login:" ++ user ++ qs ":" ++ pass) ++ [10]) =
      (qs "login:" ++ user ++ qs ":" ++ pass) ++ ['\n'] := by
    rw [fromLatin1_toLatin1_append _ htext]; rfl
  have hlast : ∃ z, (qs "login:" ++ user ++ qs ":" ++ pass).getLast? = some z ∧
      isSpace z = false := by
    have e : qs "login:" ++ user ++ qs ":" ++ pass = (qs "login:" ++ user) ++ ':' :: pass := by
      simp [qs]
    rw [e, getLast?_append_cons]
    cases hpl : pass.getLast? with
    | none =>
      have : pass = [] := by simpa using hpl
      subst this
      exact ⟨':', rfl, by decide⟩
    | some z =>
      refine ⟨z, ?_, ?_⟩
      · cases pass with
        | nil => simp at hpl
        | cons q qs' => rw [List.getLast?_cons_cons]; exact hpl
      · simpa [endsInSpace, hpl] using hend
  obtain ⟨z, hz1, hz2⟩ := hlast
  have htrim := trimmed_append_space 'l' z (qs "login:" ++ user ++ qs ":" ++ pass) ['\n']
    (by simp [qs]) (by decide) hz1 hz2 (by decide)
  unfold WorkerThread.splitLine
  rw [hdec, htrim]
  have e1 : qs "login:" ++ user ++ qs ":" ++ pass = qs "login" ++ ':' :: (user ++ ':' :: pass) := by
    simp [qs]
  rw [e1, split_append_sep ':' _ _ (by decide), split_append_sep ':' _ _ hu.2.1,
    split_no_sep ':' _ hp.2.1]

/-- C1 (amended): in `AwaitingLogin` (`m_state = -1`), for every `user` and
`pass` that are Latin-1 texts without NUL, colon and line feed, `pass` not
ending in white space, with `user:pass` on the allow-list: when the line
`login:<user>:<pass>\n` is read, the session moves to `AwaitingCommand`
(`m_state = 0`), nothing is written, no handler is called, and exactly the
line is consumed. -/
theorem login_line_accepted {W Model Algorithm : Type} (ext : Extern W Model Algorithm)
    (t : WorkerThread W) (user pass : QString) (rest : QByteArray)
    (hu : IsField user) (hp : IsField pass) (hend : endsInSpace pass = false)
    (hmem : user ++ qs ":" ++ pass ∈ t.m_registered_users)
    (hstate : t.m_state = -1)
    (hbuf : t.m_tcpSocket.readBuffer =
      toLatin1 (qs "login:" ++ user ++ qs ":" ++ pass ++ qs "\n") ++ rest) :
    (WorkerThread.readyRead ext t).m_state = 0 ∧
    (WorkerThread.readyRead ext t).m_tcpSocket.written = t.m_tcpSocket.written ∧
    (WorkerThread.readyRead ext t).calls = t.calls ∧
    (WorkerThread.readyRead ext t).m_tcpSocket.readBuffer = rest := by
  have htext : IsText (qs "login:" ++ user ++ qs ":" ++ pass) :=
    ((IsText.append (by decide) hu.1).append (by decide)).append hp.1
  have hnl : '\n' ∉ qs "login:" ++ user ++ qs ":" ++ pass := by
    simp only [List.mem_append, not_or]
    exact ⟨⟨⟨by decide, hu.2.2⟩, by decide⟩, hp.2.2⟩
  have hb : t.m_tcpSocket.readBuffer =
      toLatin1 (qs "login:" ++ user ++ qs ":" ++ pass) ++ 10 :: rest := by
    rw [hbuf, toLatin1_append]
    simp [toLatin1, qs]
  obtain ⟨hl1, hl2⟩ := readLine_text _ htext hnl rest t.m_tcpSocket hb
  have hsp := splitLine_login user pass hu hp hend
  have hneg : t.m_state < 0 := by rw [hstate]; decide
  simp only [WorkerThread.readyRead, hneg, if_true, hl1, hl2, hsp, hmem]
  simp

/-- C1, refuted as stated: a name with a colon is on the allow-list, the
line `login:a:b:c\n` is exactly `login:<user>:<pass>\n` for `user = a:b` and
`pass = c`, and the session stays in `AwaitingLogin`; likewise for a
password that ends in a blank. -/
theorem login_with_colon_or_blank_rejected :
    (qs "a:b" ++ qs ":" ++ qs "c" ∈ [qs "a:b:c"] ∧
      lit "login:a:b:c\n" = toLatin1 (qs "login:" ++ qs "a:b" ++ qs ":" ++ qs "c" ++ qs "\n") ∧
      (WorkerThread.readyRead echoExtern
        (WorkerThread.init [qs "a:b:c"] (socketWith (lit "login:a:b:c\n")) ())).m_state = -1) ∧
    (qs "bob" ++ qs ":" ++ qs "pw " ∈ [qs "bob:pw "] ∧
      (WorkerThread.readyRead echoExtern
        (WorkerThread.init [qs "bob:pw "] (socketWith (lit "login:bob:pw \n")) ())).m_state = -1) := by
  decide

/-- C1, an instance: `alice` logs in with `secret`. -/
theorem login_line_accepted_witness :
    (WorkerThread.readyRead echoExtern
      (WorkerThread.init [qs "alice:secret"] (socketWith (lit "login:alice:secret\n")) ())).m_state = 0 ∧
    (WorkerThread.readyRead echoExtern
      (WorkerThread.init [qs "alice:secret"] (socketWith (lit "login:alice:secret\n")) ())
        ).m_tcpSocket.written = [] ∧
    (WorkerThread.readyRead echoExtern
      (WorkerThread.init [qs "alice:secret"] (socketWith (lit "login:alice:secret\n")) ())).calls = [] ∧
    (WorkerThread.readyRead echoExtern
      (WorkerThread.init [qs "alice:secret"] (socketWith (lit "login:alice:secret\n")) ())
        ).m_tcpSocket.readBuffer = [] :=
  login_line_accepted echoExtern
    (WorkerThread.init [qs "alice:secret"] (socketWith (lit "login:alice:secret\n")) ())
    (qs "alice") (qs "secret") [] (by decide) (by decide) (by decide) (by decide) rfl (by decide)

/-- One `readyRead` in the login state: the line is consumed, the state
becomes `0` if the line passes the test, and nothing else changes. -/
theorem readyRead_login {W Model Algorithm : Type} (ext : Extern W Model Algorithm)
    (t : WorkerThread W) (h : t.m_state < 0) :
    WorkerThread.readyRead ext t =
      { t with
        m_tcpSocket := t.m_tcpSocket.readLine.2
        m_state := if acceptsLogin t.m_registered_users t.m_tcpSocket.readLine.1 then 0
          else t.m_state } := by
  unfold WorkerThread.readyRead acceptsLogin
  simp only [h, if_true]
  split
  · rename_i f0 f1 f2 heq
    by_cases h0 : f0 = qs "login"
    · by_cases h1 : f1 ++ (qs ":" ++ f2) ∈ t.m_registered_users
      · simp [h0, h1]
      · simp [h0, h1]
    · simp [h0]
  · simp

/-- A line that passes the test of `readyRead` is a valid login line. -/
theorem acceptsLogin_valid (users : List QString) (data : QByteArray)
    (h : acceptsLogin users data = true) : IsValidLoginLine users data := by
  unfold acceptsLogin at h
  split at h
  · rename_i f0 f1 f2 heq
    simp only [Bool.and_eq_true, decide_eq_true_eq] at h
    refine ⟨f1, f2, ?_, h.2⟩
    have hj := joinWith_split ':' (trimmed (fromLatin1 data))
    unfold WorkerThread.splitLine at heq
    rw [heq] at hj
    rw [← hj, h.1]
    simp [joinWith, qs]
  · exact absurd h (by simp)

/-- Deliveries in the login state: either nothing but the read buffer has
changed, or a valid login line was read at some delivery, up to which nothing
but the read buffer had changed. -/
theorem deliverAll_login {W Model Algorithm : Type} (ext : Extern W Model Algorithm)
    (chunks : List QByteArray) : ∀ t : WorkerThread W, t.m_state < 0 →
    SameSession t (WorkerThread.deliverAll ext t chunks) ∨
    ∃ pre c post, chunks = pre ++ c :: post ∧
      SameSession t (WorkerThread.deliverAll ext t pre) ∧
      IsValidLoginLine t.m_registered_users
        (Socket.lineOf ((WorkerThread.deliverAll ext t pre).m_tcpSocket.readBuffer ++ c)) := by
  induction chunks with
  | nil => intro t _; exact Or.inl ⟨rfl, rfl, rfl, rfl, rfl⟩
  | cons c cs ih =>
    intro t ht
    have hstep := readyRead_login ext
      { t with m_tcpSocket := { t.m_tcpSocket with readBuffer := t.m_tcpSocket.readBuffer ++ c } } ht
    by_cases hacc : acceptsLogin t.m_registered_users (Socket.lineOf (t.m_tcpSocket.readBuffer ++ c)) = true
    · exact Or.inr ⟨[], c, cs, rfl, ⟨rfl, rfl, rfl, rfl, rfl⟩, acceptsLogin_valid _ _ hacc⟩
    · have h1 : WorkerThread.deliver ext t c =
          { t with m_tcpSocket := ({ t.m_tcpSocket with
              readBuffer := t.m_tcpSocket.readBuffer ++ c } : Socket).readLine.2 } := by
        unfold WorkerThread.deliver
        rw [hstep]
        simp only [Socket.readLine] at hacc ⊢
        simp only [hacc]
        rfl
      have hsame : SameSession t (WorkerThread.deliver ext t c) := by
        rw [h1]; exact ⟨rfl, rfl, rfl, rfl, rfl⟩
      have hneg : (WorkerThread.deliver ext t c).m_state < 0 := by rw [hsame.1]; exact ht
      have hd : ∀ l, WorkerThread.deliverAll ext t (c :: l) =
          WorkerThread.deliverAll ext (WorkerThread.deliver ext t c) l := fun _ => rfl
      rcases ih (WorkerThread.deliver ext t c) hneg with hl | ⟨pre, c1, post, he, hs, hv⟩
      · left
        rw [hd]
        exact ⟨hl.1.trans hsame.1, hl.2.1.trans hsame.2.1, hl.2.2.1.trans hsame.2.2.1,
          hl.2.2.2.1.trans hsame.2.2.2.1, hl.2.2.2.2.trans hsame.2.2.2.2⟩
      · right
        refine ⟨c :: pre, c1, post, by rw [he]; rfl, ?_, ?_⟩
        · rw [hd]
          exact ⟨hs.1.trans hsame.1, hs.2.1.trans hsame.2.1, hs.2.2.1.trans hsame.2.2.1,
            hs.2.2.2.1.trans hsame.2.2.2.1, hs.2.2.2.2.trans hsame.2.2.2.2⟩
        · rw [hd, ← hsame.2.2.2.2]; exact hv

/-- A line whose trimmed text is known and is not `login:` followed by an
entry of the allow-list is not a valid login line. -/
theorem not_validLoginLine (users : List QString) (line : QByteArray) (text : QString)
    (h : trimmed (fromLatin1 line) = text)
    (hne : ∀ account ∈ users, text ≠ qs "login:" ++ account) :
    ¬ IsValidLoginLine users line := by
  rintro ⟨u, p, h1, h2⟩
  apply hne _ h2
  rw [← h, h1]
  simp [qs]

/-- C2: in `AwaitingLogin` with no bytes expected, for every sequence of
arrivals in which no line read is a login line carrying credentials on the
allow-list, the session stays in `AwaitingLogin` with expected byte count
`0`, nothing is written and no handler is called, however many lines are
tried. -/
theorem failed_logins_ignored {W Model Algorithm : Type} (ext : Extern W Model Algorithm)
    (t : WorkerThread W) (chunks : List QByteArray)
    (hstate : t.m_state = -1) (hexp : t.m_expected_bytes = 0)
    (hfail : ∀ (k : Nat) (hk : k < chunks.length),
      ¬ IsValidLoginLine t.m_registered_users
        (Socket.lineOf ((WorkerThread.deliverAll ext t (chunks.take k)).m_tcpSocket.readBuffer ++
          chunks.get ⟨k, hk⟩))) :
    (WorkerThread.deliverAll ext t chunks).m_state = -1 ∧
    (WorkerThread.deliverAll ext t chunks).m_expected_bytes = 0 ∧
    (WorkerThread.deliverAll ext t chunks).m_tcpSocket.written = t.m_tcpSocket.written ∧
    (WorkerThread.deliverAll ext t chunks).calls = t.calls := by
  rcases deliverAll_login ext chunks t (by rw [hstate]; decide) with h | ⟨pre, c, post, he, _, hv⟩
  · exact ⟨h.1.trans hstate, h.2.1.trans hexp, h.2.2.1, h.2.2.2.1⟩
  · exfalso
    have hk : pre.length < chunks.length := by rw [he]; simp
    have h1 : chunks.take pre.length = pre := by rw [he]; simp
    have h2 : chunks.get ⟨pre.length, hk⟩ = c := by
      subst he
      simp only [List.get_eq_getElem]
      rw [List.getElem_append_right (Nat.le_refl _)]
      simp
    have := hfail pre.length hk
    rw [h1, h2] at this
    exact this hv

/-- C2, an instance: a greeting, a wrong password and a command sent
without login leave the session in `AwaitingLogin`. -/
theorem failed_logins_ignored_witness :
    (WorkerThread.deliverAll echoExtern (WorkerThread.init [qs "alice:secret"] (socketWith []) ())
      [lit "hello\n", lit "login:alice:wrong\n", lit "Model:3\n"]).m_state = -1 ∧
    (WorkerThread.deliverAll echoExtern (WorkerThread.init [qs "alice:secret"] (socketWith []) ())
      [lit "hello\n", lit "login:alice:wrong\n", lit "Model:3\n"]).m_expected_bytes = 0 ∧
    (WorkerThread.deliverAll echoExtern (WorkerThread.init [qs "alice:secret"] (socketWith []) ())
      [lit "hello\n", lit "login:alice:wrong\n", lit "Model:3\n"]).m_tcpSocket.written = [] ∧
    (WorkerThread.deliverAll echoExtern (WorkerThread.init [qs "alice:secret"] (socketWith []) ())
      [lit "hello\n", lit "login:alice:wrong\n", lit "Model:3\n"]).calls = [] :=
  failed_logins_ignored echoExtern (WorkerThread.init [qs "alice:secret"] (socketWith []) ())
    [lit "hello\n", lit "login:alice:wrong\n", lit "Model:3\n"] rfl rfl (by
      intro k hk
      have hk3 : k < 3 := hk
      interval_cases k
      · exact not_validLoginLine _ _ (qs "hello") rfl (by decide)
      · exact not_validLoginLine _ _ (qs "login:alice:wrong") rfl (by decide)
      · exact not_validLoginLine _ _ (qs "Model:3") rfl (by decide))

/-- Reading a line in the login state calls no handler and writes
nothing. -/
theorem deliver_login_quiet {W Model Algorithm : Type} (ext : Extern W Model Algorithm)
    (t : WorkerThread W) (c : QByteArray) (h : t.m_state < 0) :
    (WorkerThread.deliver ext t c).calls = t.calls ∧
    (WorkerThread.deliver ext t c).m_tcpSocket.written = t.m_tcpSocket.written := by
  have hstep := readyRead_login ext
    { t with m_tcpSocket := { t.m_tcpSocket with readBuffer := t.m_tcpSocket.readBuffer ++ c } } h
  unfold WorkerThread.deliver
  rw [hstep]
  exact ⟨rfl, rfl⟩

/-- C3: after every sequence of arrivals on a fresh connection, either no
handler has been called (neither `readModel` nor `readAndRunAlgorithm`, nor
anything they call) and nothing has been written, or one of the arrivals
made the worker read a login line with credentials on the allow-list; up to
that arrival the session was in `AwaitingLogin`, no handler had been called
and nothing had been written, and the same holds right after that line was
read. -/
theorem no_handler_before_login {W Model Algorithm : Type} (ext : Extern W Model Algorithm)
    (users : List QString) (sock : Socket) (w : W) (chunks : List QByteArray) :
    ((session ext users sock w chunks).calls = [] ∧
      (session ext users sock w chunks).m_tcpSocket.written = sock.written) ∨
    ∃ pre c post, chunks = pre ++ c :: post ∧
      (session ext users sock w pre).m_state = -1 ∧
      (session ext users sock w pre).calls = [] ∧
      (session ext users sock w pre).m_tcpSocket.written = sock.written ∧
      IsValidLoginLine users
        (Socket.lineOf ((session ext users sock w pre).m_tcpSocket.readBuffer ++ c)) ∧
      (session ext users sock w (pre ++ [c])).calls = [] ∧
      (session ext users sock w (pre ++ [c])).m_tcpSocket.written = sock.written := by
  rcases deliverAll_login ext chunks (WorkerThread.init users sock w)
      (by show (-1 : Int) < 0; decide) with
    h | ⟨pre, c, post, he, hs, hv⟩
  · exact Or.inl ⟨h.2.2.2.1, h.2.2.1⟩
  · have hstep : session ext users sock w (pre ++ [c]) =
        WorkerThread.deliver ext (session ext users sock w pre) c := by
      simp [session, WorkerThread.deliverAll, List.foldl_append]
    have hneg : (session ext users sock w pre).m_state < 0 := by
      have h1 : (session ext users sock w pre).m_state = -1 := hs.1
      rw [h1]; decide
    have hq := deliver_login_quiet ext (session ext users sock w pre) c hneg
    refine Or.inr ⟨pre, c, post, he, hs.1, hs.2.2.2.1, hs.2.2.1, hv, ?_, ?_⟩
    · rw [hstep, hq.1]; exact hs.2.2.2.1
    · rw [hstep, hq.2]; exact hs.2.2.1

/-! ## The command state -/

theorem digitChar_toNat (d : Nat) (h : d < 10) : (Nat.digitChar d).toNat = 48 + d := by
  interval_cases d <;> rfl

/-- The digits that `Nat.toDigitsCore` puts in front of `ds`: there is at
least one, all are decimal digits, and read from the left they add `n` to
ten times the value read before, once per digit. -/
theorem toDigitsCore_digits : ∀ (fuel n : Nat) (ds : List Char), n < fuel →
    ∃ pre : List Char, Nat.toDigitsCore 10 fuel n ds = pre ++ ds ∧ pre ≠ [] ∧
      (∀ c ∈ pre, IsDigit c) ∧
      ∀ (acc : Nat) (rest : List Char),
        parseDigits (pre ++ rest) acc = parseDigits rest (acc * 10 ^ pre.length + n) := by
  intro fuel
  induction fuel with
  | zero => intro n _ h; omega
  | succ fuel ih =>
    intro n ds hn
    have hd : (Nat.digitChar (n % 10)).toNat = 48 + n % 10 :=
      digitChar_toNat _ (Nat.mod_lt _ (by decide))
    have hdig : IsDigit (Nat.digitChar (n % 10)) := by
      unfold IsDigit; rw [hd]; have := Nat.mod_lt n (show 10 > 0 by decide); omega
    rw [Nat.toDigitsCore]
    by_cases h0 : n / 10 = 0
    · simp only [h0, if_true]
      refine ⟨[Nat.digitChar (n % 10)], rfl, by simp, ?_, ?_⟩
      · intro c hc
        rw [List.mem_singleton.1 hc]; exact hdig
      · intro acc rest
        have hlt : n < 10 := by omega
        simp only [List.singleton_append, parseDigits, hd, List.length_singleton, pow_one]
        rw [if_pos (by omega)]
        congr 1
        omega
    · simp only [h0, if_false]
      obtain ⟨pre, hpre, hne, hall, hval⟩ := ih (n / 10) (Nat.digitChar (n % 10) :: ds) (by omega)
      refine ⟨pre ++ [Nat.digitChar (n % 10)], by rw [hpre]; simp, by simp, ?_, ?_⟩
      · intro c hc
        rcases List.mem_append.1 hc with h | h
        · exact hall c h
        · rw [List.mem_singleton.1 h]; exact hdig
      · intro acc rest
        rw [List.append_assoc, hval]
        simp only [List.singleton_append, parseDigits, hd, List.length_append,
          List.length_singleton]
        rw [if_pos (by omega)]
        congr 1
        rw [pow_succ]
        have := Nat.div_add_mod n 10
        have e : 48 + n % 10 - 48 = n % 10 := by omega
        rw [e]
        nlinarith [Nat.div_add_mod n 10]

theorem isSpace_digit (c : Char) (h : IsDigit c) : isSpace c = false := by
  unfold IsDigit at h
  have h2 : c.toNat ≠ 0x20 := by omega
  simp only [isSpace, Bool.or_eq_false_iff, Bool.and_eq_false_iff, beq_eq_false_iff_ne, ne_eq,
    decide_eq_false_iff_not, not_le]
  omega

/-- The decimal digits of `n`: a non-empty string of digits whose value is
`n`. -/
theorem number_digits (n : Nat) :
    number n ≠ [] ∧ (∀ c ∈ number n, IsDigit c) ∧ parseDigits (number n) 0 = some n := by
  obtain ⟨pre, hpre, hne, hall, hval⟩ := toDigitsCore_digits (n + 1) n [] (by omega)
  have e : number n = pre := by
    unfold number Nat.toDigits; rw [hpre]; simp
  rw [e]
  refine ⟨hne, hall, ?_⟩
  have := hval 0 []
  simpa [parseDigits] using this

theorem head?_getLast?_of_ne_nil (s : QString) (h : s ≠ []) :
    ∃ a z, s.head? = some a ∧ s.getLast? = some z ∧ a ∈ s ∧ z ∈ s := by
  cases s with
  | nil => exact absurd rfl h
  | cons a r =>
    cases hl : (a :: r).getLast? with
    | none => simp at hl
    | some z => exact ⟨a, z, rfl, rfl, List.mem_cons_self _ _, List.mem_of_getLast?_eq_some hl⟩

/-- `toInt` reads back what `number` prints, within the range of `int`. -/
theorem toInt_number (n : Nat) (h : n ≤ 2147483647) : toInt (number n) = (n : Int) := by
  obtain ⟨hne, hall, hval⟩ := number_digits n
  obtain ⟨a, z, ha, hz, ham, hzm⟩ := head?_getLast?_of_ne_nil _ hne
  have htrim : trimmed (number n) = number n := by
    have := trimmed_append_space a z (number n) [] ha (isSpace_digit a (hall a ham)) hz
      (isSpace_digit z (hall z hzm)) (by simp)
    simpa using this
  have hminus : a ≠ '-' := by
    intro e; have := hall a ham; rw [e] at this; revert this; decide
  have hplus : a ≠ '+' := by
    intro e; have := hall a ham; rw [e] at this; revert this; decide
  have hempty : (number n).isEmpty = false := by
    cases hnum : number n with
    | nil => exact absurd hnum hne
    | cons _ _ => rfl
  unfold toInt
  simp only [htrim, ha]
  have hr : (-2147483648 : Int) ≤ (n : Int) ∧ (n : Int) ≤ 2147483647 := ⟨by omega, by omega⟩
  have hm : (some a == some '-') = false := by simp [hminus]
  have hp : (some a == some '+') = false := by simp [hplus]
  simp only [hm, hp, Bool.or_self, Bool.false_eq_true, if_false, hempty, hval]
  rw [if_pos hr]

/-- The fields of a line made of a text that neither starts nor ends with
white space, followed by a line feed. -/
theorem splitLine_text (s : QString) (a z : Char) (hs : IsText s) (hh : s.head? = some a)
    (ha : isSpace a = false) (hl : s.getLast? = some z) (hz : isSpace z = false) :
    WorkerThread.splitLine (toLatin1 s ++ [10]) = split ':' s := by
  have hdec : fromLatin1 (toLatin1 s ++ [10]) = s ++ ['\n'] := by
    rw [fromLatin1_toLatin1_append _ hs]; rfl
  unfold WorkerThread.splitLine
  rw [hdec, trimmed_append_space a z s ['\n'] hh ha hl hz (by decide)]

theorem isText_digits (s : QString) (h : ∀ c ∈ s, IsDigit c) : IsText s := by
  intro c hc
  have := h c hc
  unfold IsDigit at this
  omega

theorem not_mem_digits (s : QString) (h : ∀ c ∈ s, IsDigit c) (c : Char) (hc : ¬ IsDigit c) :
    c ∉ s := fun hm => hc (h c hm)

/-- The fields of the line `<kind>:<n>\n`, for a command word `kind`. -/
theorem splitLine_command (kind : QString) (k : Char) (r : QString) (hk : kind = k :: r)
    (hkt : IsText kind) (hks : isSpace k = false) (hkc : ':' ∉ kind) (n : Nat) :
    WorkerThread.splitLine (toLatin1 (kind ++ qs ":" ++ number n) ++ [10]) = [kind, number n] := by
  obtain ⟨hne, hall, _⟩ := number_digits n
  obtain ⟨a, z, _, hz, _, hzm⟩ := head?_getLast?_of_ne_nil _ hne
  have htext : IsText (kind ++ qs ":" ++ number n) :=
    (IsText.append hkt (by decide)).append (isText_digits _ hall)
  have hlast : (kind ++ qs ":" ++ number n).getLast? = some z := by
    cases hnum : number n with
    | nil => exact absurd hnum hne
    | cons d ds =>
      rw [hnum] at hz
      rw [getLast?_append_cons]; exact hz
  rw [splitLine_text _ k z htext (by rw [hk]; rfl) hks hlast (isSpace_digit z (hall z hzm))]
  have e : kind ++ qs ":" ++ number n = kind ++ ':' :: number n := by simp [qs]
  rw [e, split_append_sep ':' _ _ hkc,
    split_no_sep ':' _ (not_mem_digits _ hall ':' (by decide))]

/-- One `readyRead` on the line `<kind>:<n>\n` in the command state. -/
theorem readLine_command {W : Type} (t : WorkerThread W) (kind : QString) (hkt : IsText kind)
    (hkn : '\n' ∉ kind) (n : Nat) (rest : QByteArray)
    (hbuf : t.m_tcpSocket.readBuffer = toLatin1 (kind ++ qs ":" ++ number n ++ qs "\n") ++ rest) :
    t.m_tcpSocket.readLine.1 = toLatin1 (kind ++ qs ":" ++ number n) ++ [10] ∧
    t.m_tcpSocket.readLine.2 = { t.m_tcpSocket with readBuffer := rest } := by
  obtain ⟨_, hall, _⟩ := number_digits n
  have htext : IsText (kind ++ qs ":" ++ number n) :=
    (IsText.append hkt (by decide)).append (isText_digits _ hall)
  have hnl : '\n' ∉ kind ++ qs ":" ++ number n := by
    simp only [List.mem_append, not_or]
    exact ⟨⟨hkn, by decide⟩, not_mem_digits _ hall '\n' (by decide)⟩
  have hb : t.m_tcpSocket.readBuffer = toLatin1 (kind ++ qs ":" ++ number n) ++ 10 :: rest := by
    rw [hbuf, toLatin1_append]
    simp [toLatin1, qs]
  exact readLine_text _ htext hnl rest t.m_tcpSocket hb

/-- C4 (amended): in `AwaitingCommand` (`m_state = 0`), for every
`n` with `0 ≤ n ≤ 2147483647`: when the line `Model:<n>\n` is read the
session moves to `m_state = 1` with expected byte count `n`, when the line
`Algorithm:<n>\n` is read it moves to `m_state = 2` with expected byte count
`n`; in both cases nothing is written, no handler is called and exactly the
line is consumed. -/
theorem command_line_accepted {W Model Algorithm : Type} (ext : Extern W Model Algorithm)
    (t : WorkerThread W) (n : Nat) (rest : QByteArray) (hn : n ≤ 2147483647)
    (hstate : t.m_state = 0) :
    (t.m_tcpSocket.readBuffer = toLatin1 (qs "Model:" ++ number n ++ qs "\n") ++ rest →
      (WorkerThread.readyRead ext t).m_state = 1 ∧
      (WorkerThread.readyRead ext t).m_expected_bytes = (n : Int) ∧
      (WorkerThread.readyRead ext t).m_tcpSocket.written = t.m_tcpSocket.written ∧
      (WorkerThread.readyRead ext t).calls = t.calls ∧
      (WorkerThread.readyRead ext t).m_tcpSocket.readBuffer = rest) ∧
    (t.m_tcpSocket.readBuffer = toLatin1 (qs "Algorithm:" ++ number n ++ qs "\n") ++ rest →
      (WorkerThread.readyRead ext t).m_state = 2 ∧
      (WorkerThread.readyRead ext t).m_expected_bytes = (n : Int) ∧
      (WorkerThread.readyRead ext t).m_tcpSocket.written = t.m_tcpSocket.written ∧
      (WorkerThread.readyRead ext t).calls = t.calls ∧
      (WorkerThread.readyRead ext t).m_tcpSocket.readBuffer = rest) := by
  have hnneg : ¬ t.m_state < 0 := by rw [hstate]; decide
  constructor
  · intro hbuf
    obtain ⟨hl1, hl2⟩ := readLine_command t (qs "Model") (by decide) (by decide) n rest hbuf
    have hsp := splitLine_command (qs "Model") 'M' (qs "odel") rfl (by decide) (by decide)
      (by decide) n
    simp only [WorkerThread.readyRead, hnneg, hstate, if_true, if_false, hl1, hl2, hsp,
      toInt_number n hn]
    simp
  · intro hbuf
    obtain ⟨hl1, hl2⟩ := readLine_command t (qs "Algorithm") (by decide) (by decide) n rest hbuf
    have hsp := splitLine_command (qs "Algorithm") 'A' (qs "lgorithm") rfl (by decide)
      (by decide) (by decide) n
    have hne : qs "Algorithm" ≠ qs "Model" := by decide
    simp only [WorkerThread.readyRead, hnneg, hstate, if_true, if_false, hl1, hl2, hsp,
      toInt_number n hn, hne]
    simp

/-- C4, refuted as stated: `Model:2147483648\n` is the line `Model:<n>\n`
for `n = 2147483648`; the session moves to `m_state = 1`, but the expected
byte count it records is `0`. -/
theorem command_length_beyond_int :
    lit "Model:2147483648\n" = toLatin1 (qs "Model:" ++ number 2147483648 ++ qs "\n") ∧
    (WorkerThread.readyRead echoExtern
      (sessionIn [] 0 0 (socketWith (lit "Model:2147483648\n")))).m_state = 1 ∧
    (WorkerThread.readyRead echoExtern
      (sessionIn [] 0 0 (socketWith (lit "Model:2147483648\n")))).m_expected_bytes = 0 := by
  decide

/-- C4, an instance: `Model:128\n` and `Algorithm:64\n`. -/
theorem command_line_accepted_witness :
    ((WorkerThread.readyRead echoExtern
        (sessionIn [] 0 0 (socketWith (toLatin1 (qs "Model:" ++ number 128 ++ qs "\n") ++ [])))
        ).m_state = 1 ∧
      (WorkerThread.readyRead echoExtern
        (sessionIn [] 0 0 (socketWith (toLatin1 (qs "Model:" ++ number 128 ++ qs "\n") ++ [])))
        ).m_expected_bytes = 128) ∧
    lit "Model:128\n" = toLatin1 (qs "Model:" ++ number 128 ++ qs "\n") ++ [] :=
  ⟨⟨((command_line_accepted echoExtern
      (sessionIn [] 0 0 (socketWith (toLatin1 (qs "Model:" ++ number 128 ++ qs "\n") ++ [])))
      128 [] (by decide) rfl).1 rfl).1,
    ((command_line_accepted echoExtern
      (sessionIn [] 0 0 (socketWith (toLatin1 (qs "Model:" ++ number 128 ++ qs "\n") ++ [])))
      128 [] (by decide) rfl).1 rfl).2.1⟩, by decide⟩

theorem splitLine_of_commandLine (kind arg : QString) (line : QByteArray) (hk : ':' ∉ kind)
    (h : IsCommandLine kind arg line) : WorkerThread.splitLine line = [kind, arg] := by
  unfold WorkerThread.splitLine
  rw [h.2]
  have e : kind ++ qs ":" ++ arg = kind ++ ':' :: arg := by simp [qs]
  rw [e, split_append_sep ':' _ _ hk, split_no_sep ':' _ h.1]

theorem commandLine_of_splitLine (f0 f1 : QString) (line : QByteArray)
    (h : WorkerThread.splitLine line = [f0, f1]) : IsCommandLine f0 f1 line := by
  unfold WorkerThread.splitLine at h
  have hj := joinWith_split ':' (trimmed (fromLatin1 line))
  have hf := split_field_no_sep ':' (trimmed (fromLatin1 line)) f1 (by rw [h]; simp)
  rw [h] at hj
  refine ⟨hf, ?_⟩
  rw [← hj]
  simp [joinWith, qs]

/-- One `readyRead` in the command state. -/
theorem readyRead_command {W Model Algorithm : Type} (ext : Extern W Model Algorithm)
    (t : WorkerThread W) (h : t.m_state = 0) :
    WorkerThread.readyRead ext t =
      match WorkerThread.splitLine t.m_tcpSocket.readLine.1 with
      | [f0, f1] =>
        if f0 = qs "Model" then
          { t with m_tcpSocket := t.m_tcpSocket.readLine.2, m_state := 1,
                   m_expected_bytes := toInt f1 }
        else if f0 = qs "Algorithm" then
          { t with m_tcpSocket := t.m_tcpSocket.readLine.2, m_state := 2,
                   m_expected_bytes := toInt f1 }
        else { t with m_tcpSocket := t.m_tcpSocket.readLine.2 }
      | _ => { t with m_tcpSocket := t.m_tcpSocket.readLine.2 } := by
  rw [WorkerThread.readyRead, if_neg (by rw [h]; decide), if_pos h]

/-- C5 (amended): in `AwaitingCommand` with expected byte count `0`, a line
is ignored (the session stays in `AwaitingCommand`, the expected byte count
stays `0`, nothing is written, no handler is called) whenever its text,
surrounding white space apart, is not `Model:<arg>` or `Algorithm:<arg>` for
an `arg` without colon. A line `Model:<arg>` or `Algorithm:<arg>` is not
ignored, whatever `arg` is: the session moves to `m_state = 1`, respectively
`2`, and the expected byte count becomes `toInt arg`. -/
theorem other_lines_ignored {W Model Algorithm : Type} (ext : Extern W Model Algorithm)
    (t : WorkerThread W) (hstate : t.m_state = 0) (hexp : t.m_expected_bytes = 0) :
    ((∀ arg, ¬ IsCommandLine (qs "Model") arg t.m_tcpSocket.readLine.1 ∧
        ¬ IsCommandLine (qs "Algorithm") arg t.m_tcpSocket.readLine.1) →
      (WorkerThread.readyRead ext t).m_state = 0 ∧
      (WorkerThread.readyRead ext t).m_expected_bytes = 0 ∧
      (WorkerThread.readyRead ext t).m_tcpSocket.written = t.m_tcpSocket.written ∧
      (WorkerThread.readyRead ext t).calls = t.calls) ∧
    (∀ arg, IsCommandLine (qs "Model") arg t.m_tcpSocket.readLine.1 →
      (WorkerThread.readyRead ext t).m_state = 1 ∧
      (WorkerThread.readyRead ext t).m_expected_bytes = toInt arg) ∧
    (∀ arg, IsCommandLine (qs "Algorithm") arg t.m_tcpSocket.readLine.1 →
      (WorkerThread.readyRead ext t).m_state = 2 ∧
      (WorkerThread.readyRead ext t).m_expected_bytes = toInt arg) := by
  have hnneg : ¬ t.m_state < 0 := by rw [hstate]; decide
  refine ⟨?_, ?_, ?_⟩
  · intro hno
    rw [readyRead_command ext t hstate]
    split
    · rename_i f0 f1 heq
      have hc := commandLine_of_splitLine f0 f1 _ heq
      by_cases h0 : f0 = qs "Model"
      · exact absurd (h0 ▸ hc) (hno f1).1
      · by_cases h1 : f0 = qs "Algorithm"
        · exact absurd (h1 ▸ hc) (hno f1).2
        · simp [h0, h1, hstate, hexp, Socket.readLine]
    · simp [hstate, hexp, Socket.readLine]
  · intro arg harg
    have hsp := splitLine_of_commandLine _ _ _ (by decide) harg
    simp only [WorkerThread.readyRead, hnneg, hstate, if_true, if_false, hsp]
    simp
  · intro arg harg
    have hsp := splitLine_of_commandLine _ _ _ (by decide) harg
    have hne : qs "Algorithm" ≠ qs "Model" := by decide
    simp only [WorkerThread.readyRead, hnneg, hstate, if_true, if_false, hsp, hne]
    simp

/-- C5, refuted as stated: `Model:` followed by a negative number, and
`Algorithm:` followed by text that is no number or by nothing, are received
in `AwaitingCommand`; the session leaves `AwaitingCommand`, and for the
negative number the expected byte count becomes `-5`. -/
theorem malformed_length_accepted :
    ((WorkerThread.readyRead echoExtern
        (sessionIn [] 0 0 (socketWith (lit "Model:-5\n")))).m_state = 1 ∧
      (WorkerThread.readyRead echoExtern
        (sessionIn [] 0 0 (socketWith (lit "Model:-5\n")))).m_expected_bytes = -5) ∧
    (WorkerThread.readyRead echoExtern
      (sessionIn [] 0 0 (socketWith (lit "Algorithm:abc\n")))).m_state = 2 ∧
    (WorkerThread.readyRead echoExtern
      (sessionIn [] 0 0 (socketWith (lit "Algorithm:\n")))).m_state = 2 := by
  decide

/-- C5, an instance: the line `Model:1:2` has three fields and is ignored,
the line `Model:-5` is taken as a command for `-5` bytes. -/
theorem other_lines_ignored_witness :
    ((WorkerThread.readyRead echoExtern
        (sessionIn [] 0 0 (socketWith (lit "Model:1:2\n")))).m_state = 0 ∧
      (WorkerThread.readyRead echoExtern
        (sessionIn [] 0 0 (socketWith (lit "Model:1:2\n")))).m_expected_bytes = 0 ∧
      (WorkerThread.readyRead echoExtern
        (sessionIn [] 0 0 (socketWith (lit "Model:1:2\n")))).m_tcpSocket.written = [] ∧
      (WorkerThread.readyRead echoExtern
        (sessionIn [] 0 0 (socketWith (lit "Model:1:2\n")))).calls = []) ∧
    (WorkerThread.readyRead echoExtern
      (sessionIn [] 0 0 (socketWith (lit "Model:-5\n")))).m_expected_bytes = toInt (qs "-5") :=
  ⟨(other_lines_ignored echoExtern (sessionIn [] 0 0 (socketWith (lit "Model:1:2\n")))
      rfl rfl).1 (by
        intro arg
        have e : trimmed (fromLatin1 (sessionIn [] 0 0
            (socketWith (lit "Model:1:2\n"))).m_tcpSocket.readLine.1) = qs "Model:1:2" := by
          decide
        constructor
        · rintro ⟨hc, h⟩
          rw [e] at h
          have h2 : arg = qs "1:2" := by simpa [qs] using h.symm
          rw [h2] at hc
          exact hc (by decide)
        · rintro ⟨_, h⟩
          rw [e] at h
          simp [qs] at h),
   ((other_lines_ignored echoExtern (sessionIn [] 0 0 (socketWith (lit "Model:-5\n")))
      rfl rfl).2.1 (qs "-5") ⟨by decide, by decide⟩).2⟩

/-! ## The receive loop -/

/-- With nothing to read the loop is left at once. -/
theorem readLoop_empty (n : Int) (fuel : Nat) (data : QByteArray) (s : Socket)
    (h : s.readBuffer = []) : WorkerThread.readLoop n fuel data s = (data, s) := by
  cases fuel with
  | zero => rfl
  | succ fuel => simp [WorkerThread.readLoop, Socket.bytesAvailable, h]

/-- The receive loop never runs out of fuel: from `incoming.length + 2` on,
more fuel does not change its result. -/
theorem readLoop_fuel (n : Int) : ∀ (fuel extra : Nat) (data : QByteArray) (s : Socket),
    s.incoming.length + 2 ≤ fuel →
    WorkerThread.readLoop n (fuel + extra) data s = WorkerThread.readLoop n fuel data s := by
  intro fuel
  induction fuel with
  | zero => intro _ _ _ h; omega
  | succ fuel ih =>
    intro extra data s hs
    rw [show fuel + 1 + extra = (fuel + extra) + 1 by omega]
    simp only [WorkerThread.readLoop]
    split_ifs with h1 h2
    · rfl
    · cases hinc : s.incoming with
      | nil =>
        have hw : s.readAll.2.waitForReadyRead.readBuffer = [] := by
          simp [Socket.waitForReadyRead, Socket.readAll, hinc]
        rw [readLoop_empty _ _ _ _ hw, readLoop_empty _ _ _ _ hw]
      | cons e rest =>
        apply ih
        rw [hinc] at hs
        cases e <;> simp [Socket.waitForReadyRead, Socket.readAll, hinc] <;>
          simp at hs <;> omega
    · rfl

/-- The result of `receive` is the result of the loop with any larger
amount of fuel. -/
theorem receive_eq_readLoop (n : Int) (s : Socket) (extra : Nat) :
    WorkerThread.receive n s = WorkerThread.readLoop n (s.incoming.length + 2 + extra) [] s :=
  (readLoop_fuel n _ extra [] s (Nat.le_refl _)).symm

/-! ## The payload handlers -/

@[simp] theorem catchAll_calls {W : Type} (t : WorkerThread W) :
    (WorkerThread.catchAll t).calls = t.calls := by
  unfold WorkerThread.catchAll WorkerThread.send; split <;> rfl

@[simp] theorem catchAll_world {W : Type} (t : WorkerThread W) :
    (WorkerThread.catchAll t).world = t.world := by
  unfold WorkerThread.catchAll WorkerThread.send; split <;> rfl

/-- What the `catch(...)` block writes. -/
theorem catchAll_written {W : Type} (t : WorkerThread W) :
    (WorkerThread.catchAll t).m_tcpSocket.written =
      t.m_tcpSocket.written ++ (if t.m_tcpSocket.connected then lit "Error:0" else []) := by
  unfold WorkerThread.catchAll WorkerThread.send Socket.write lit
  split <;> simp

/-- The calls of the result loop: one `serialize` per model it gets to. -/
theorem sendResults_calls {W Model Algorithm : Type} (ext : Extern W Model Algorithm)
    (models : List Model) : ∀ t : WorkerThread W,
    ∃ k, (WorkerThread.sendResults ext models t).2.calls =
      t.calls ++ List.replicate k Call.serialize := by
  induction models with
  | nil => intro t; exact ⟨0, by simp [WorkerThread.sendResults]⟩
  | cons m ms ih =>
    intro t
    unfold WorkerThread.sendResults
    by_cases ho : ext.openWrite t.world = true
    · simp only [ho, Bool.not_true, Bool.false_eq_true, if_false]
      rcases hser : ext.serialize (t.note Call.serialize).world m with ⟨o, w⟩
      cases o with
      | throws => exact ⟨1, by simp [WorkerThread.note]⟩
      | returns data =>
        obtain ⟨k, hk⟩ := ih (WorkerThread.send data (WorkerThread.send
          (toLatin1 (qs "Model:" ++ number data.length ++ qs "\n"))
          { t.note Call.serialize with world := w }))
        refine ⟨k + 1, ?_⟩
        simp only [hk]
        simp [WorkerThread.send, WorkerThread.note, List.replicate_succ]
    · simp only [ho, Bool.not_false, if_true]
      exact ⟨0, by simp⟩

/-- The calls of `readModel`: the handler itself, then, if at least
`bytesToRead` bytes were received, the opening of the gzip device on the
received buffer, then, if that succeeded, the loading of the model from the
same buffer. -/
theorem readModel_calls {W Model Algorithm : Type} (ext : Extern W Model Algorithm)
    (n : Int) (t : WorkerThread W) :
    (WorkerThread.readModel ext n t).calls =
      t.calls ++ Call.readModel n ::
        (if ((WorkerThread.receive n t.m_tcpSocket).1.length : Int) < n then []
         else Call.openRead (WorkerThread.receive n t.m_tcpSocket).1 ::
          (if ext.openRead t.world (WorkerThread.receive n t.m_tcpSocket).1
           then [Call.loadModel (WorkerThread.receive n t.m_tcpSocket).1] else [])) := by
  unfold WorkerThread.readModel
  simp only [WorkerThread.note]
  by_cases hlen : ((WorkerThread.receive n t.m_tcpSocket).1.length : Int) < n
  · simp [hlen]
  · simp only [hlen, if_false]
    by_cases ho : ext.openRead t.world (WorkerThread.receive n t.m_tcpSocket).1 = true
    · simp only [ho, Bool.not_true, Bool.false_eq_true, if_false, if_true]
      rcases hl : ext.loadModel t.world (WorkerThread.receive n t.m_tcpSocket).1 with ⟨o, w⟩
      rcases o with (_ | _) | _ <;> simp [WorkerThread.send]
    · simp [ho]

/-- The calls of `readAndRunAlgorithm`: as for `readModel`, followed by what
comes after the loading, which is `run` and `serialize` calls only. -/
theorem readAndRunAlgorithm_calls {W Model Algorithm : Type} (ext : Extern W Model Algorithm)
    (n : Int) (t : WorkerThread W) :
    ∃ tail : List Call, (∀ c ∈ tail, c = Call.run ∨ c = Call.serialize) ∧
    (WorkerThread.readAndRunAlgorithm ext n t).calls =
      t.calls ++ Call.readAndRunAlgorithm n ::
        (if ((WorkerThread.receive n t.m_tcpSocket).1.length : Int) < n then []
         else Call.openRead (WorkerThread.receive n t.m_tcpSocket).1 ::
          (if ext.openRead t.world (WorkerThread.receive n t.m_tcpSocket).1
           then Call.loadAlgorithm (WorkerThread.receive n t.m_tcpSocket).1 :: tail
           else [])) := by
  unfold WorkerThread.readAndRunAlgorithm
  simp only [WorkerThread.note]
  by_cases hlen : ((WorkerThread.receive n t.m_tcpSocket).1.length : Int) < n
  · exact ⟨[], by simp, by simp [hlen]⟩
  · simp only [hlen, if_false]
    by_cases ho : ext.openRead t.world (WorkerThread.receive n t.m_tcpSocket).1 = true
    · simp only [ho, Bool.not_true, Bool.false_eq_true, if_false, if_true]
      rcases hl : ext.loadAlgorithm t.world (WorkerThread.receive n t.m_tcpSocket).1 with ⟨o, w⟩
      rcases o with (_ | alg) | _
      · exact ⟨[], by simp, by simp⟩
      · simp only
        rcases hr : ext.run w alg with ⟨r, w1⟩
        cases r with
        | throws => exact ⟨[Call.run], by simp, by simp⟩
        | returns u =>
          simp only
          obtain ⟨k, hk⟩ := sendResults_calls ext (ext.results w1 alg)
            ({ m_registered_users := t.m_registered_users, m_state := t.m_state,
               m_expected_bytes := t.m_expected_bytes,
               m_tcpSocket := (WorkerThread.receive n t.m_tcpSocket).2, world := w1,
               calls := t.calls ++ [Call.readAndRunAlgorithm n] ++
                 [Call.openRead (WorkerThread.receive n t.m_tcpSocket).1] ++
                 [Call.loadAlgorithm (WorkerThread.receive n t.m_tcpSocket).1] ++
                 [Call.run] } : WorkerThread W)
          refine ⟨Call.run :: List.replicate k Call.serialize, ?_, ?_⟩
          · intro c hc
            rcases List.mem_cons.1 hc with h | h
            · exact Or.inl h
            · exact Or.inr (List.eq_of_mem_replicate h)
          · rcases hs : WorkerThread.sendResults ext (ext.results w1 alg) _ with ⟨b, t1⟩
            rw [hs] at hk
            simp only at hk
            cases b <;> simp [hk]
      · exact ⟨[], by simp, by simp⟩
    · exact ⟨[], by simp, by simp [ho]⟩

/-- Whatever byte count `n` the handlers are called with and however the
payload bytes arrive, every buffer on which `readModel` or
`readAndRunAlgorithm` opens the gzip device, and every buffer from which
`Impex::loadModel` or `Impex::loadAlgorithm` is asked to load, has at least
`n` bytes. -/
theorem handlers_decode_full_buffer {W Model Algorithm : Type}
    (ext : Extern W Model Algorithm) (n : Int) (t : WorkerThread W) :
    (∃ new, (WorkerThread.readModel ext n t).calls = t.calls ++ new ∧
      Call.readModel n ∈ new ∧
      ∀ buf, (Call.openRead buf ∈ new ∨ Call.loadModel buf ∈ new ∨ Call.loadAlgorithm buf ∈ new) →
        n ≤ (buf.length : Int)) ∧
    (∃ new, (WorkerThread.readAndRunAlgorithm ext n t).calls = t.calls ++ new ∧
      Call.readAndRunAlgorithm n ∈ new ∧
      ∀ buf, (Call.openRead buf ∈ new ∨ Call.loadModel buf ∈ new ∨ Call.loadAlgorithm buf ∈ new) →
        n ≤ (buf.length : Int)) := by
  constructor
  · refine ⟨_, readModel_calls ext n t, List.mem_cons_self _ _, ?_⟩
    intro buf hbuf
    by_cases hlen : ((WorkerThread.receive n t.m_tcpSocket).1.length : Int) < n
    · simp [hlen] at hbuf
    · by_cases ho : ext.openRead t.world (WorkerThread.receive n t.m_tcpSocket).1 = true
      · simp only [hlen, ho, if_false, if_true] at hbuf
        simp only [List.mem_cons, Call.openRead.injEq, Call.loadModel.injEq, reduceCtorEq,
          List.mem_singleton, List.not_mem_nil, or_false, false_or] at hbuf
        rcases hbuf with h | h <;> (rw [h]; omega)
      · simp only [hlen, ho, if_false] at hbuf
        simp at hbuf
        rw [hbuf]; omega
  · obtain ⟨tail, htail, hcalls⟩ := readAndRunAlgorithm_calls ext n t
    refine ⟨_, hcalls, List.mem_cons_self _ _, ?_⟩
    intro buf hbuf
    have hnot : ∀ c : Call, c ∈ tail → (c ≠ Call.openRead buf ∧ c ≠ Call.loadModel buf ∧
        c ≠ Call.loadAlgorithm buf) := by
      intro c hc
      rcases htail c hc with h | h <;> (rw [h]; simp)
    by_cases hlen : ((WorkerThread.receive n t.m_tcpSocket).1.length : Int) < n
    · simp [hlen] at hbuf
    · by_cases ho : ext.openRead t.world (WorkerThread.receive n t.m_tcpSocket).1 = true
      · simp only [hlen, ho, if_false, if_true] at hbuf
        simp only [List.mem_cons, Call.openRead.injEq, false_or, Call.loadAlgorithm.injEq,
          reduceCtorEq] at hbuf
        rcases hbuf with (h | h) | h | (h | h)
        · rw [h]; omega
        · exact absurd rfl (hnot _ h).1
        · exact absurd rfl (hnot _ h).2.1
        · rw [h]; omega
        · exact absurd rfl (hnot _ h).2.2
      · simp only [hlen, ho, if_false] at hbuf
        simp at hbuf
        rw [hbuf]; omega

/-- C7, the code at the failing input: after the login and the command
`Model:2\n`, the 2 payload bytes arrive together with the next command line
`Model:3\n`. The handler is called for 2 bytes, takes all 10 bytes that are
available, hands all 10 to the gzip device and to the loader, and leaves
nothing of the next command line on the socket. -/
theorem payload_takes_all_available :
    (session echoExtern [qs "alice:secret"] (socketWith []) ()
      [lit "login:alice:secret\n", lit "Model:2\n", [31, 139] ++ lit "Model:3\n"]).calls =
      [Call.readModel 2, Call.openRead ([31, 139] ++ lit "Model:3\n"),
        Call.loadModel ([31, 139] ++ lit "Model:3\n")] ∧
    ([31, 139] ++ lit "Model:3\n").length = 10 ∧
    (session echoExtern [qs "alice:secret"] (socketWith []) ()
      [lit "login:alice:secret\n", lit "Model:2\n", [31, 139] ++ lit "Model:3\n"]
      ).m_tcpSocket.readBuffer = [] ∧
    (session echoExtern [qs "alice:secret"] (socketWith []) ()
      [lit "login:alice:secret\n", lit "Model:2\n", [31, 139] ++ lit "Model:3\n"]).m_state = 0 := by
  decide

/-- One `readyRead` in a payload state: the handler runs on the expected
byte count, then the state and the expected byte count are reset. -/
theorem readyRead_payload {W Model Algorithm : Type} (ext : Extern W Model Algorithm)
    (t : WorkerThread W) :
    (t.m_state = 1 → WorkerThread.readyRead ext t =
      { WorkerThread.readModel ext t.m_expected_bytes { t with m_state := 3 } with
        m_state := 0, m_expected_bytes := 0 }) ∧
    (t.m_state = 2 → WorkerThread.readyRead ext t =
      { WorkerThread.readAndRunAlgorithm ext t.m_expected_bytes { t with m_state := 3 } with
        m_state := 0, m_expected_bytes := 0 }) := by
  constructor
  · intro h
    rw [WorkerThread.readyRead, if_neg (by rw [h]; decide), if_neg (by rw [h]; decide), if_pos h]
  · intro h
    rw [WorkerThread.readyRead, if_neg (by rw [h]; decide), if_neg (by rw [h]; decide),
      if_neg (by rw [h]; decide), if_pos h]

/-- C8: for every payload handled in `ReceivingPayload` (`m_state` is `1`
or `2`) and every outcome of the handler (whatever is received and whatever
the collaborators do), after the `readyRead` that invoked the handler the
session is in `AwaitingCommand` (`m_state = 0`) with expected byte count `0`,
and the handler has been called once with the byte count that was
expected. -/
theorem handler_returns_to_command {W Model Algorithm : Type} (ext : Extern W Model Algorithm)
    (t : WorkerThread W) (h : t.m_state = 1 ∨ t.m_state = 2) :
    (WorkerThread.readyRead ext t).m_state = 0 ∧
    (WorkerThread.readyRead ext t).m_expected_bytes = 0 ∧
    ∃ rest, (WorkerThread.readyRead ext t).calls = t.calls ++
      (if t.m_state = 1 then Call.readModel t.m_expected_bytes
        else Call.readAndRunAlgorithm t.m_expected_bytes) :: rest := by
  rcases h with h | h
  · rw [(readyRead_payload ext t).1 h]
    refine ⟨rfl, rfl, ?_⟩
    simp only [h, if_true]
    exact ⟨_, readModel_calls ext t.m_expected_bytes _⟩
  · rw [(readyRead_payload ext t).2 h]
    refine ⟨rfl, rfl, ?_⟩
    obtain ⟨tail, _, hc⟩ := readAndRunAlgorithm_calls ext t.m_expected_bytes
      { t with m_state := 3 }
    simp only [h]
    exact ⟨_, hc⟩

/-- C8, an instance: 10 bytes that are no gzip stream, sent for
`Algorithm:10`. -/
theorem handler_returns_to_command_witness :
    (WorkerThread.readyRead echoExtern
      (sessionIn [] 2 10 (socketWith (lit "0123456789")))).m_state = 0 ∧
    (WorkerThread.readyRead echoExtern
      (sessionIn [] 2 10 (socketWith (lit "0123456789")))).m_expected_bytes = 0 ∧
    ∃ rest, (WorkerThread.readyRead echoExtern
      (sessionIn [] 2 10 (socketWith (lit "0123456789")))).calls =
        (sessionIn [] 2 10 (socketWith (lit "0123456789"))).calls ++
        (if (sessionIn [] 2 10 (socketWith (lit "0123456789"))).m_state = 1
          then Call.readModel (sessionIn [] 2 10 (socketWith (lit "0123456789"))).m_expected_bytes
          else Call.readAndRunAlgorithm
            (sessionIn [] 2 10 (socketWith (lit "0123456789"))).m_expected_bytes) :: rest :=
  handler_returns_to_command echoExtern (sessionIn [] 2 10 (socketWith (lit "0123456789")))
    (Or.inr rfl)

/-- The receive loop writes nothing. -/
theorem readLoop_written (n : Int) : ∀ (fuel : Nat) (data : QByteArray) (s : Socket),
    (WorkerThread.readLoop n fuel data s).2.written = s.written := by
  intro fuel
  induction fuel with
  | zero => intro _ _; rfl
  | succ fuel ih =>
    intro data s
    simp only [WorkerThread.readLoop]
    split_ifs
    · rfl
    · rw [ih]
      unfold Socket.waitForReadyRead Socket.readAll
      split <;> rfl
    · rfl

theorem receive_written (n : Int) (s : Socket) :
    (WorkerThread.receive n s).2.written = s.written :=
  readLoop_written n _ _ s

/-- What `readModel` writes when it fails: if fewer than `bytesToRead` bytes
were received, or the gzip device does not open, or the loader returns
`NULL` or throws, then `Error:0` is written if the socket is connected and
nothing if it is not. -/
theorem readModel_failure {W Model Algorithm : Type} (ext : Extern W Model Algorithm)
    (n : Int) (t : WorkerThread W)
    (h : ((WorkerThread.receive n t.m_tcpSocket).1.length : Int) < n ∨
      ext.openRead t.world (WorkerThread.receive n t.m_tcpSocket).1 = false ∨
      (ext.loadModel t.world (WorkerThread.receive n t.m_tcpSocket).1).1 = Outcome.returns none ∨
      (ext.loadModel t.world (WorkerThread.receive n t.m_tcpSocket).1).1 = Outcome.throws) :
    (WorkerThread.readModel ext n t).m_tcpSocket.written =
      t.m_tcpSocket.written ++
        (if (WorkerThread.receive n t.m_tcpSocket).2.connected then lit "Error:0" else []) := by
  unfold WorkerThread.readModel
  simp only [WorkerThread.note]
  by_cases hlen : ((WorkerThread.receive n t.m_tcpSocket).1.length : Int) < n
  · simp only [hlen, if_true, catchAll_written, receive_written]
  · simp only [hlen, if_false]
    by_cases ho : ext.openRead t.world (WorkerThread.receive n t.m_tcpSocket).1 = true
    · simp only [ho, Bool.not_true, Bool.false_eq_true, if_false]
      rcases hl : ext.loadModel t.world (WorkerThread.receive n t.m_tcpSocket).1 with ⟨o, w⟩
      rw [hl] at h
      rcases o with (_ | m) | _
      · simp only [catchAll_written, receive_written]
      · rcases h with h | h | h | h
        · exact absurd h hlen
        · rw [ho] at h; exact absurd h (by decide)
        · simp at h
        · simp at h
      · simp only [catchAll_written, receive_written]
    · simp only [ho, Bool.not_false, if_true, catchAll_written, receive_written]

/-- What `readModel` writes when it succeeds: if at least `bytesToRead` bytes
were received, the gzip device opens and the loader returns a model, then
`Success:0` is written, whatever the state of the socket. -/
theorem readModel_success {W Model Algorithm : Type} (ext : Extern W Model Algorithm)
    (n : Int) (t : WorkerThread W) (m : Model) (w : W)
    (hlen : n ≤ ((WorkerThread.receive n t.m_tcpSocket).1.length : Int))
    (ho : ext.openRead t.world (WorkerThread.receive n t.m_tcpSocket).1 = true)
    (hl : ext.loadModel t.world (WorkerThread.receive n t.m_tcpSocket).1 =
      (Outcome.returns (some m), w)) :
    (WorkerThread.readModel ext n t).m_tcpSocket.written =
      t.m_tcpSocket.written ++ lit "Success:0" ∧
    (WorkerThread.readModel ext n t).world = w := by
  unfold WorkerThread.readModel
  simp only [WorkerThread.note]
  have hlen' : ¬ ((WorkerThread.receive n t.m_tcpSocket).1.length : Int) < n := by omega
  simp only [hlen', if_false, ho, Bool.not_true, Bool.false_eq_true, hl]
  simp [WorkerThread.send, Socket.write, receive_written, lit]

/-- C9: for every `Model:<n>` command being handled (`m_state = 1`) whose
received payload cannot be opened as a gzip stream, or from which
`Impex::loadModel` returns `NULL`, the bytes written for the command are
exactly `Error:0`, 7 bytes without a line feed, so `Success:0` is not
written, provided the socket is connected when the failure is handled. -/
theorem model_failure_writes_error {W Model Algorithm : Type}
    (ext : Extern W Model Algorithm) (t : WorkerThread W) (hstate : t.m_state = 1)
    (hfail : ext.openRead t.world
        (WorkerThread.receive t.m_expected_bytes t.m_tcpSocket).1 = false ∨
      (ext.loadModel t.world (WorkerThread.receive t.m_expected_bytes t.m_tcpSocket).1).1 =
        Outcome.returns none)
    (hconn : (WorkerThread.receive t.m_expected_bytes t.m_tcpSocket).2.connected = true) :
    (WorkerThread.readyRead ext t).m_tcpSocket.written = t.m_tcpSocket.written ++ lit "Error:0" ∧
    lit "Error:0" = [69, 114, 114, 111, 114, 58, 48] ∧
    lit "Error:0" ≠ lit "Success:0" := by
  refine ⟨?_, by decide, by decide⟩
  rw [(readyRead_payload ext t).1 hstate]
  have h := readModel_failure ext t.m_expected_bytes { t with m_state := 3 }
    (by rcases hfail with h | h
        · exact Or.inr (Or.inl h)
        · exact Or.inr (Or.inr (Or.inl h)))
  simp only [hconn, if_true] at h
  exact h

/-- C9, an instance: 10 bytes that are no gzip stream, sent for
`Model:10`. -/
theorem model_failure_writes_error_witness :
    (WorkerThread.readyRead echoExtern
      (sessionIn [] 1 10 (socketWith (lit "0123456789")))).m_tcpSocket.written =
      (sessionIn [] 1 10 (socketWith (lit "0123456789"))).m_tcpSocket.written ++ lit "Error:0" ∧
    lit "Error:0" = [69, 114, 114, 111, 114, 58, 48] ∧
    lit "Error:0" ≠ lit "Success:0" :=
  model_failure_writes_error echoExtern (sessionIn [] 1 10 (socketWith (lit "0123456789")))
    rfl (Or.inl (by decide)) (by decide)

/-- C10: for every `Model:<n>` command being handled (`m_state = 1`) whose
received payload has at least the `n` declared bytes, opens as a gzip
stream and loads to a model, the bytes written for the command are exactly
`Success:0`, 9 bytes without a line feed, and nothing else; `Error:0` is not
written. -/
theorem model_success_writes_success {W Model Algorithm : Type}
    (ext : Extern W Model Algorithm) (t : WorkerThread W) (m : Model) (w : W)
    (hstate : t.m_state = 1)
    (hlen : t.m_expected_bytes ≤
      ((WorkerThread.receive t.m_expected_bytes t.m_tcpSocket).1.length : Int))
    (hopen : ext.openRead t.world
      (WorkerThread.receive t.m_expected_bytes t.m_tcpSocket).1 = true)
    (hload : ext.loadModel t.world (WorkerThread.receive t.m_expected_bytes t.m_tcpSocket).1 =
      (Outcome.returns (some m), w)) :
    (WorkerThread.readyRead ext t).m_tcpSocket.written =
      t.m_tcpSocket.written ++ lit "Success:0" ∧
    lit "Success:0" = [83, 117, 99, 99, 101, 115, 115, 58, 48] ∧
    lit "Success:0" ≠ lit "Error:0" := by
  refine ⟨?_, by decide, by decide⟩
  rw [(readyRead_payload ext t).1 hstate]
  exact (readModel_success ext t.m_expected_bytes { t with m_state := 3 } m w hlen hopen hload).1

/-- C10, an instance: a payload of 4 bytes that opens and loads, arriving
in two pieces. -/
theorem model_success_writes_success_witness :
    (WorkerThread.readyRead echoExtern
      (sessionIn [] 1 4 { readBuffer := [31, 139], incoming := [NetEvent.data [8, 0]],
                          connected := true, written := [] })).m_tcpSocket.written =
      (sessionIn [] 1 4 { readBuffer := [31, 139], incoming := [NetEvent.data [8, 0]],
                          connected := true, written := [] }).m_tcpSocket.written ++
        lit "Success:0" ∧
    lit "Success:0" = [83, 117, 99, 99, 101, 115, 115, 58, 48] ∧
    lit "Success:0" ≠ lit "Error:0" :=
  model_success_writes_success echoExtern
    (sessionIn [] 1 4 { readBuffer := [31, 139], incoming := [NetEvent.data [8, 0]],
                        connected := true, written := [] })
    [31, 139, 8, 0] () rfl (by decide) (by decide) (by decide)

/-! ## The algorithm handler -/

theorem resultFrames_nil : resultFrames [] = [] := rfl

theorem resultFrames_cons (d : QByteArray) (ds : List QByteArray) :
    resultFrames (d :: ds) = resultFrame d ++ resultFrames ds := by
  simp [resultFrames]

/-- `readAndRunAlgorithm` from the call of `run` on, when at least
`bytesToRead` bytes were received, the gzip device opened and an algorithm
was loaded. -/
theorem readAndRunAlgorithm_loaded {W Model Algorithm : Type} (ext : Extern W Model Algorithm)
    (n : Int) (t : WorkerThread W) (alg : Algorithm) (w : W)
    (hlen : n ≤ ((WorkerThread.receive n t.m_tcpSocket).1.length : Int))
    (ho : ext.openRead t.world (WorkerThread.receive n t.m_tcpSocket).1 = true)
    (hl : ext.loadAlgorithm t.world (WorkerThread.receive n t.m_tcpSocket).1 =
      (Outcome.returns (some alg), w)) :
    WorkerThread.readAndRunAlgorithm ext n t =
      match ext.run w alg with
      | (Outcome.throws, w1) => WorkerThread.catchAll { afterLoad n t w with world := w1 }
      | (Outcome.returns _, w1) =>
        match WorkerThread.sendResults ext (ext.results w1 alg)
            { afterLoad n t w with world := w1 } with
        | (true, t1) => WorkerThread.catchAll t1
        | (false, t1) => t1 := by
  unfold WorkerThread.readAndRunAlgorithm
  have hlen' : ¬ ((WorkerThread.receive n t.m_tcpSocket).1.length : Int) < n := by omega
  simp only [WorkerThread.note, hlen', if_false, ho, Bool.not_true, Bool.false_eq_true, hl]
  simp only [afterLoad, List.append_assoc, List.singleton_append, List.cons_append,
    List.nil_append]

/-- What the result loop writes, in every case: the result frames of some
payloads `ds`, each the outcome of `serialize` on the model at the same
place of the list; the loop ends without `throw` exactly when every model
got its frame. The connection state is not touched. -/
theorem sendResults_written {W Model Algorithm : Type} (ext : Extern W Model Algorithm)
    (models : List Model) : ∀ t : WorkerThread W,
    ∃ ds : List QByteArray,
      (WorkerThread.sendResults ext models t).2.m_tcpSocket.written =
        t.m_tcpSocket.written ++ resultFrames ds ∧
      (WorkerThread.sendResults ext models t).2.m_tcpSocket.connected =
        t.m_tcpSocket.connected ∧
      List.Forall₂ (fun m d => ∃ w w1, ext.serialize w m = (Outcome.returns d, w1))
        (models.take ds.length) ds ∧
      ds.length ≤ models.length ∧
      ((WorkerThread.sendResults ext models t).1 = false ↔ ds.length = models.length) := by
  induction models with
  | nil =>
    intro t
    exact ⟨[], by simp [WorkerThread.sendResults, resultFrames], rfl, by simp,
      by simp, by simp [WorkerThread.sendResults]⟩
  | cons m ms ih =>
    intro t
    unfold WorkerThread.sendResults
    by_cases ho : ext.openWrite t.world = true
    · simp only [ho, Bool.not_true, Bool.false_eq_true, if_false]
      rcases hser : ext.serialize (t.note Call.serialize).world m with ⟨o, w⟩
      cases o with
      | throws =>
        refine ⟨[], ?_, ?_, ?_, ?_, ?_⟩
        · simp [resultFrames, WorkerThread.note]
        · rfl
        · simp
        · simp
        · simp
      | returns data =>
        obtain ⟨ds, h1, h2, h3, h4, h5⟩ := ih (WorkerThread.send data (WorkerThread.send
          (toLatin1 (qs "Model:" ++ number data.length ++ qs "\n"))
          { t.note Call.serialize with world := w }))
        refine ⟨data :: ds, ?_, ?_, ?_, ?_, ?_⟩
        · simp only [h1, resultFrames_cons, resultFrame]
          simp [WorkerThread.send, WorkerThread.note, Socket.write]
        · simp only [h2]
          rfl
        · simp only [List.length_cons, List.take_succ_cons]
          exact List.Forall₂.cons ⟨_, _, hser⟩ h3
        · simp only [List.length_cons]; omega
        · simp only [List.length_cons, add_left_inj]
          exact h5
    · simp only [ho, Bool.not_false, if_true]
      refine ⟨[], ?_, ?_, ?_, ?_, ?_⟩ <;> simp [resultFrames]

/-- What the result loop does when every model is encoded: it ends without
`throw`, has written the frames of all payloads in order, and leaves the
collaborators in the state the encoding leaves them in. -/
theorem sendResults_encodes {W Model Algorithm : Type} (ext : Extern W Model Algorithm)
    (models : List Model) (ds : List QByteArray) (w w2 : W)
    (h : Encodes ext w models ds w2) : ∀ t : WorkerThread W, t.world = w →
    (WorkerThread.sendResults ext models t).1 = false ∧
    (WorkerThread.sendResults ext models t).2.m_tcpSocket.written =
      t.m_tcpSocket.written ++ resultFrames ds ∧
    (WorkerThread.sendResults ext models t).2.world = w2 := by
  induction h with
  | nil w => intro t ht; simp [WorkerThread.sendResults, resultFrames, ht]
  | cons w w1 w2 m ms d ds hopen hser _ ih =>
    intro t ht
    unfold WorkerThread.sendResults
    have hw : (t.note Call.serialize).world = w := ht
    simp only [ht, hopen, Bool.not_true, Bool.false_eq_true, if_false, hw, hser]
    obtain ⟨h1, h2, h3⟩ := ih (WorkerThread.send d (WorkerThread.send
      (toLatin1 (qs "Model:" ++ number d.length ++ qs "\n"))
      { t.note Call.serialize with world := w1 })) rfl
    refine ⟨h1, ?_, h3⟩
    rw [h2, resultFrames_cons, resultFrame]
    simp [WorkerThread.send, WorkerThread.note, Socket.write]

/-- What `readAndRunAlgorithm` does when it fails before `run`: if fewer
than `bytesToRead` bytes were received, or the gzip device does not open, or
the loader returns `NULL` or throws, then `Error:0` is written if the socket
is connected and nothing if it is not, and neither `run` nor `serialize` is
called. -/
theorem readAndRunAlgorithm_failure {W Model Algorithm : Type} (ext : Extern W Model Algorithm)
    (n : Int) (t : WorkerThread W)
    (h : ((WorkerThread.receive n t.m_tcpSocket).1.length : Int) < n ∨
      ext.openRead t.world (WorkerThread.receive n t.m_tcpSocket).1 = false ∨
      (ext.loadAlgorithm t.world (WorkerThread.receive n t.m_tcpSocket).1).1 =
        Outcome.returns none ∨
      (ext.loadAlgorithm t.world (WorkerThread.receive n t.m_tcpSocket).1).1 = Outcome.throws) :
    (WorkerThread.readAndRunAlgorithm ext n t).m_tcpSocket.written =
      t.m_tcpSocket.written ++
        (if (WorkerThread.receive n t.m_tcpSocket).2.connected then lit "Error:0" else []) ∧
    (WorkerThread.readAndRunAlgorithm ext n t).calls =
      t.calls ++ Call.readAndRunAlgorithm n ::
        (if ((WorkerThread.receive n t.m_tcpSocket).1.length : Int) < n then []
         else Call.openRead (WorkerThread.receive n t.m_tcpSocket).1 ::
          (if ext.openRead t.world (WorkerThread.receive n t.m_tcpSocket).1
           then [Call.loadAlgorithm (WorkerThread.receive n t.m_tcpSocket).1] else [])) := by
  unfold WorkerThread.readAndRunAlgorithm
  simp only [WorkerThread.note]
  by_cases hlen : ((WorkerThread.receive n t.m_tcpSocket).1.length : Int) < n
  · simp only [hlen, if_true, catchAll_written, catchAll_calls, receive_written]
    simp
  · simp only [hlen, if_false]
    by_cases ho : ext.openRead t.world (WorkerThread.receive n t.m_tcpSocket).1 = true
    · simp only [ho, Bool.not_true, Bool.false_eq_true, if_false, if_true]
      rcases hl : ext.loadAlgorithm t.world (WorkerThread.receive n t.m_tcpSocket).1 with ⟨o, w⟩
      rw [hl] at h
      rcases o with (_ | alg) | _
      · simp only [catchAll_written, catchAll_calls, receive_written]
        simp
      · rcases h with h | h | h | h
        · exact absurd h hlen
        · rw [ho] at h; exact absurd h (by decide)
        · simp at h
        · simp at h
      · simp only [catchAll_written, catchAll_calls, receive_written]
        simp
    · simp only [ho, Bool.not_false, if_true, catchAll_written, catchAll_calls, receive_written]
      simp

/-- What `readAndRunAlgorithm` writes when `run` throws: `Error:0` if the
socket is connected, and nothing if it is not. -/
theorem readAndRunAlgorithm_run_throws {W Model Algorithm : Type}
    (ext : Extern W Model Algorithm) (n : Int) (t : WorkerThread W) (alg : Algorithm) (w : W)
    (hlen : n ≤ ((WorkerThread.receive n t.m_tcpSocket).1.length : Int))
    (ho : ext.openRead t.world (WorkerThread.receive n t.m_tcpSocket).1 = true)
    (hl : ext.loadAlgorithm t.world (WorkerThread.receive n t.m_tcpSocket).1 =
      (Outcome.returns (some alg), w))
    (hr : (ext.run w alg).1 = Outcome.throws) :
    (WorkerThread.readAndRunAlgorithm ext n t).m_tcpSocket.written =
      t.m_tcpSocket.written ++
        (if (WorkerThread.receive n t.m_tcpSocket).2.connected then lit "Error:0" else []) := by
  rw [readAndRunAlgorithm_loaded ext n t alg w hlen ho hl]
  rcases hrun : ext.run w alg with ⟨o, w1⟩
  rw [hrun] at hr
  simp only at hr
  subst hr
  simp only [catchAll_written, afterLoad, receive_written]

/-- What `readAndRunAlgorithm` writes when `run` returns: the result frames
of the payloads `ds` of the first results, in order, as many as could be
encoded; and after them `Error:0` if a result could not be encoded and the
socket is connected. -/
theorem readAndRunAlgorithm_run_returns {W Model Algorithm : Type}
    (ext : Extern W Model Algorithm) (n : Int) (t : WorkerThread W) (alg : Algorithm)
    (w w1 : W) (u : Unit)
    (hlen : n ≤ ((WorkerThread.receive n t.m_tcpSocket).1.length : Int))
    (ho : ext.openRead t.world (WorkerThread.receive n t.m_tcpSocket).1 = true)
    (hl : ext.loadAlgorithm t.world (WorkerThread.receive n t.m_tcpSocket).1 =
      (Outcome.returns (some alg), w))
    (hr : ext.run w alg = (Outcome.returns u, w1)) :
    ∃ ds : List QByteArray,
      (WorkerThread.readAndRunAlgorithm ext n t).m_tcpSocket.written =
        t.m_tcpSocket.written ++ resultFrames ds ++
          (if ds.length < (ext.results w1 alg).length ∧
              (WorkerThread.receive n t.m_tcpSocket).2.connected = true
            then lit "Error:0" else []) ∧
      ds.length ≤ (ext.results w1 alg).length ∧
      List.Forall₂ (fun m d => ∃ w w1, ext.serialize w m = (Outcome.returns d, w1))
        ((ext.results w1 alg).take ds.length) ds := by
  rw [readAndRunAlgorithm_loaded ext n t alg w hlen ho hl, hr]
  simp only
  obtain ⟨ds, h1, h2, h3, h4, h5⟩ := sendResults_written ext (ext.results w1 alg)
    { afterLoad n t w with world := w1 }
  refine ⟨ds, ?_, h4, h3⟩
  have hw : ({ afterLoad n t w with world := w1 } : WorkerThread W).m_tcpSocket.written =
      t.m_tcpSocket.written := by
    simp only [afterLoad, receive_written]
  have hc : ({ afterLoad n t w with world := w1 } : WorkerThread W).m_tcpSocket.connected =
      (WorkerThread.receive n t.m_tcpSocket).2.connected := rfl
  rw [hw] at h1
  rw [hc] at h2
  rcases hs : WorkerThread.sendResults ext (ext.results w1 alg)
    { afterLoad n t w with world := w1 } with ⟨b, t1⟩
  rw [hs] at h1 h2 h5
  simp only at h1 h2 h5
  cases b with
  | false =>
    have hall : ds.length = (ext.results w1 alg).length := h5.1 rfl
    simp only [h1, hall, lt_self_iff_false, false_and, if_false, List.append_nil]
  | true =>
    have hlt : ds.length < (ext.results w1 alg).length := by
      have hne : ds.length ≠ (ext.results w1 alg).length := fun e => by
        have := h5.2 e; exact absurd this (by decide)
      omega
    simp only [catchAll_written, h1, h2, hlt, true_and]

/-- A result frame starts with `M`, so `Error:0` is not the beginning of
one. -/
theorem error_ne_resultFrame (d rest : QByteArray) : lit "Error:0" ≠ resultFrame d ++ rest := by
  intro h
  have h1 : (lit "Error:0").head? = (resultFrame d ++ rest).head? := by rw [h]
  simp [resultFrame, toLatin1, qs, lit] at h1

/-- C11 (amended): for every `Algorithm:<n>` command being handled
(`m_state = 2`) whose received payload cannot be opened as a gzip stream, or
from which `Impex::loadAlgorithm` returns `NULL`, provided the socket is
connected when the failure is handled: the bytes written for the command are
exactly `Error:0`, which is no result frame, and neither `run` nor
`serialize` is called. -/
theorem algorithm_failure_writes_error {W Model Algorithm : Type}
    (ext : Extern W Model Algorithm) (t : WorkerThread W) (hstate : t.m_state = 2)
    (hfail : ext.openRead t.world
        (WorkerThread.receive t.m_expected_bytes t.m_tcpSocket).1 = false ∨
      (ext.loadAlgorithm t.world
        (WorkerThread.receive t.m_expected_bytes t.m_tcpSocket).1).1 = Outcome.returns none)
    (hconn : (WorkerThread.receive t.m_expected_bytes t.m_tcpSocket).2.connected = true) :
    (WorkerThread.readyRead ext t).m_tcpSocket.written = t.m_tcpSocket.written ++ lit "Error:0" ∧
    (∀ d rest, lit "Error:0" ≠ resultFrame d ++ rest) ∧
    ∃ new, (WorkerThread.readyRead ext t).calls = t.calls ++ new ∧
      Call.run ∉ new ∧ Call.serialize ∉ new := by
  rw [(readyRead_payload ext t).2 hstate]
  obtain ⟨h1, h2⟩ := readAndRunAlgorithm_failure ext t.m_expected_bytes { t with m_state := 3 }
    (by rcases hfail with h | h
        · exact Or.inr (Or.inl h)
        · exact Or.inr (Or.inr (Or.inl h)))
  simp only [hconn, if_true] at h1
  refine ⟨h1, error_ne_resultFrame, _, h2, ?_, ?_⟩
  · split_ifs <;> simp
  · split_ifs <;> simp

/-- C11, refuted as stated: 2 bytes that are no gzip stream are handled for
`Algorithm:2` on a socket that is not in the connected state, and 3 such
bytes on a socket whose peer closes the connection while the handler waits;
in both cases nothing is written. -/
theorem algorithm_failure_unconnected_writes_nothing :
    (echoExtern.openRead () (lit "ab") = false ∧
      (WorkerThread.readyRead echoExtern
        (sessionIn [] 2 2 { readBuffer := lit "ab", incoming := [], connected := false,
                            written := [] })).m_tcpSocket.written = []) ∧
    (echoExtern.openRead () (lit "abc") = false ∧
      (WorkerThread.readyRead echoExtern
        (sessionIn [] 2 2 { readBuffer := lit "abc", incoming := [NetEvent.disconnect],
                            connected := true, written := [] })).m_tcpSocket.written = []) := by
  decide

/-- C11, an instance: 10 bytes that are no gzip stream, sent for
`Algorithm:10`. -/
theorem algorithm_failure_writes_error_witness :
    (WorkerThread.readyRead echoExtern
      (sessionIn [] 2 10 (socketWith (lit "0123456789")))).m_tcpSocket.written =
      (sessionIn [] 2 10 (socketWith (lit "0123456789"))).m_tcpSocket.written ++ lit "Error:0" ∧
    (∀ d rest, lit "Error:0" ≠ resultFrame d ++ rest) ∧
    ∃ new, (WorkerThread.readyRead echoExtern
        (sessionIn [] 2 10 (socketWith (lit "0123456789")))).calls =
        (sessionIn [] 2 10 (socketWith (lit "0123456789"))).calls ++ new ∧
      Call.run ∉ new ∧ Call.serialize ∉ new :=
  algorithm_failure_writes_error echoExtern (sessionIn [] 2 10 (socketWith (lit "0123456789")))
    rfl (Or.inl (by decide)) (by decide)

/-- C12, the code at the failing input: an `Algorithm` command loads a Frost
filter whose parameters are not valid. Its `run()` emits the error `Some
parameters are not available` and returns; the worker then writes one result
frame, `Model:3\n` followed by the encoding of the placeholder image of the
constructor, and no `Error:0`. The same happens when the parameters are
valid and the filter function throws a `std::exception` on the second band:
`run()` emits `Explainable error occured: bad kernel`, and the worker writes
the frame of the placeholder. -/
theorem failed_run_streams_placeholder :
    ((WorkerThread.readyRead filterExtern (filterSession [31, 0])).world.map
        (fun ran => ran.events) =
        some [RunEvent.emit (Signal.errorMessage (qs "Some parameters are not available"))] ∧
      (WorkerThread.readyRead filterExtern (filterSession [31, 0])).m_tcpSocket.written =
        lit "Model:3\nnew") ∧
    ((WorkerThread.readyRead filterExtern (filterSession [31, 1])).world.map
        (fun ran => ran.events.filter
          (fun e => e matches RunEvent.emit (Signal.errorMessage _))) =
        some [RunEvent.emit (Signal.errorMessage (qs "Explainable error occured: bad kernel"))] ∧
      (WorkerThread.readyRead filterExtern (filterSession [31, 1])).world.map
        (fun ran => ran.m_results) =
        some [{ name := qs "new", description := [], numBands := 0 }] ∧
      (WorkerThread.readyRead filterExtern (filterSession [31, 1])).m_tcpSocket.written =
        lit "Model:3\nnew") := by
  decide

/-- Encoding yields one payload per model. -/
theorem Encodes.length_eq {W Model Algorithm : Type} {ext : Extern W Model Algorithm}
    {w w2 : W} {ms : List Model} {ds : List QByteArray} (h : Encodes ext w ms ds w2) :
    ds.length = ms.length := by
  induction h with
  | nil => rfl
  | cons _ _ _ _ _ _ _ _ _ _ ih => simp [ih]

/-- C13: for every `Algorithm` command being handled (`m_state = 2`) whose
algorithm is loaded and runs (`run()` returns) with the result list
`m_1, ..., m_k`, encoded in this order to the payloads `d_1, ..., d_k`: the
bytes written are exactly the frames `Model:<len_i>\n` followed by `d_i`, for
`i = 1..k` in the order of the list, with nothing before, between or after
them. -/
theorem results_streamed_in_order {W Model Algorithm : Type}
    (ext : Extern W Model Algorithm) (t : WorkerThread W) (alg : Algorithm) (w w1 w2 : W)
    (u : Unit) (ds : List QByteArray) (hstate : t.m_state = 2)
    (hlen : t.m_expected_bytes ≤
      ((WorkerThread.receive t.m_expected_bytes t.m_tcpSocket).1.length : Int))
    (hopen : ext.openRead t.world
      (WorkerThread.receive t.m_expected_bytes t.m_tcpSocket).1 = true)
    (hload : ext.loadAlgorithm t.world
      (WorkerThread.receive t.m_expected_bytes t.m_tcpSocket).1 = (Outcome.returns (some alg), w))
    (hrun : ext.run w alg = (Outcome.returns u, w1))
    (henc : Encodes ext w1 (ext.results w1 alg) ds w2) :
    (WorkerThread.readyRead ext t).m_tcpSocket.written =
      t.m_tcpSocket.written ++
        (ds.map (fun d => toLatin1 (qs "Model:" ++ number d.length ++ qs "\n") ++ d)).flatten ∧
    ds.length = (ext.results w1 alg).length := by
  rw [(readyRead_payload ext t).2 hstate]
  have hl := readAndRunAlgorithm_loaded ext t.m_expected_bytes { t with m_state := 3 } alg w
    hlen hopen hload
  rw [hrun] at hl
  simp only at hl
  obtain ⟨h1, h2, _⟩ := sendResults_encodes ext _ ds w1 w2 henc
    { afterLoad t.m_expected_bytes { t with m_state := 3 } w with world := w1 } rfl
  rcases hs : WorkerThread.sendResults ext (ext.results w1 alg)
    { afterLoad t.m_expected_bytes { t with m_state := 3 } w with world := w1 } with ⟨b, t1⟩
  rw [hs] at hl h1 h2
  simp only at h1 h2
  subst h1
  simp only at hl
  constructor
  · simp only [hl, h2, afterLoad, receive_written]
    rfl
  · exact henc.length_eq

/-- C13, an instance: an algorithm of three bytes whose one result is
encoded to the same three bytes. -/
theorem results_streamed_in_order_witness :
    (WorkerThread.readyRead echoExtern
      (sessionIn [] 2 3 (socketWith [31, 139, 8]))).m_tcpSocket.written =
      (sessionIn [] 2 3 (socketWith [31, 139, 8])).m_tcpSocket.written ++
        ([[31, 139, 8]].map
          (fun d => toLatin1 (qs "Model:" ++ number d.length ++ qs "\n") ++ d)).flatten ∧
    [([31, 139, 8] : QByteArray)].length = (echoExtern.results () [31, 139, 8]).length :=
  results_streamed_in_order echoExtern (sessionIn [] 2 3 (socketWith [31, 139, 8]))
    [31, 139, 8] () () () () [[31, 139, 8]] rfl (by decide) (by decide) (by decide) rfl
    (Encodes.cons () () () [31, 139, 8] [] [31, 139, 8] [] rfl rfl (Encodes.nil ()))

/-- The header of a result frame, read the way the worker reads a command
line, has the fields `Model` and the decimal digits of the length. -/
theorem splitLine_header (n : Nat) :
    WorkerThread.splitLine (toLatin1 (qs "Model:" ++ number n ++ qs "\n")) =
      [qs "Model", number n] := by
  have h := splitLine_command (qs "Model") 'M' (qs "odel") rfl (by decide) (by decide)
    (by decide) n
  have e : toLatin1 (qs "Model:" ++ number n ++ qs "\n") =
      toLatin1 (qs "Model" ++ qs ":" ++ number n) ++ [10] := by
    simp [toLatin1, qs]
  rw [e, h]

/-- With an XML writer and a compressor as the encoder, every model is
encoded to the compressed bytes of its XML document. -/
theorem compressing_encodes {W Model Algorithm : Type} (ext : Extern W Model Algorithm)
    (xml : Model → QByteArray) (gzip : QByteArray → QByteArray) (w : W) (models : List Model) :
    Encodes (compressing ext xml gzip) w models (models.map (fun m => gzip (xml m))) w := by
  induction models with
  | nil => exact Encodes.nil w
  | cons m ms ih => exact Encodes.cons w w w m ms _ _ rfl rfl ih

/-- C14: for every result model streamed by the result loop of the
Algorithm handler, the frame written is the header `Model:<n>\n` followed by
the payload `d`, where `d` is what `serialize` left in `out_model_data` once
the compressor was closed, and the decimal number `<n>` of the header, a
field of its own when the header is read as a line, has the value
`d.length`, the byte length of that payload. In particular, when a model `m`
is encoded by writing the XML document `xml m` through the compressor
`gzip`, the header carries the length of `gzip (xml m)`, not that of
`xml m`. -/
theorem header_counts_payload {W Model Algorithm : Type} (ext : Extern W Model Algorithm)
    (models : List Model) (t : WorkerThread W) :
    (∃ ds : List QByteArray,
      (WorkerThread.sendResults ext models t).2.m_tcpSocket.written =
        t.m_tcpSocket.written ++
          (ds.map (fun d => toLatin1 (qs "Model:" ++ number d.length ++ qs "\n") ++ d)).flatten ∧
      List.Forall₂ (fun m d => ∃ w w1, ext.serialize w m = (Outcome.returns d, w1))
        (models.take ds.length) ds ∧
      ∀ d ∈ ds,
        WorkerThread.splitLine (toLatin1 (qs "Model:" ++ number d.length ++ qs "\n")) =
          [qs "Model", number d.length] ∧
        parseDigits (number d.length) 0 = some d.length) ∧
    ∀ (xml : Model → QByteArray) (gzip : QByteArray → QByteArray),
      (WorkerThread.sendResults (compressing ext xml gzip) models t).2.m_tcpSocket.written =
        t.m_tcpSocket.written ++
          (models.map (fun m =>
            toLatin1 (qs "Model:" ++ number (gzip (xml m)).length ++ qs "\n") ++
              gzip (xml m))).flatten := by
  constructor
  · obtain ⟨ds, h1, _, h3, _, _⟩ := sendResults_written ext models t
    exact ⟨ds, h1, h3, fun d _ => ⟨splitLine_header d.length, (number_digits d.length).2.2⟩⟩
  · intro xml gzip
    rw [(sendResults_encodes (compressing ext xml gzip) models _ t.world t.world
      (compressing_encodes ext xml gzip t.world models) t rfl).2.1]
    simp [resultFrames, resultFrame, List.map_map, Function.comp_def]

/-- What `readAndRunAlgorithm` writes, in every case: the result frames of
some payloads `ds`, then `e`, which is nothing or `Error:0`. If a frame was
written, an algorithm was loaded and its `run` returned; if `Error:0` follows
a frame, fewer frames were written than the algorithm has results. -/
theorem readAndRunAlgorithm_written {W Model Algorithm : Type}
    (ext : Extern W Model Algorithm) (n : Int) (t : WorkerThread W) :
    ∃ (ds : List QByteArray) (e : QByteArray),
      (WorkerThread.readAndRunAlgorithm ext n t).m_tcpSocket.written =
        t.m_tcpSocket.written ++ resultFrames ds ++ e ∧
      (e = [] ∨ e = lit "Error:0") ∧
      (ds ≠ [] → ∃ alg w w1 u,
        ext.loadAlgorithm t.world (WorkerThread.receive n t.m_tcpSocket).1 =
          (Outcome.returns (some alg), w) ∧
        ext.run w alg = (Outcome.returns u, w1) ∧
        ds.length ≤ (ext.results w1 alg).length ∧
        (e ≠ [] → ds.length < (ext.results w1 alg).length)) := by
  have herr : ∀ b : Bool, (if b then lit "Error:0" else []) = [] ∨
      (if b then lit "Error:0" else []) = lit "Error:0" := by
    intro b; cases b <;> simp
  have hfail : ∀ w : QByteArray,
      (WorkerThread.readAndRunAlgorithm ext n t).m_tcpSocket.written =
        t.m_tcpSocket.written ++
          (if (WorkerThread.receive n t.m_tcpSocket).2.connected then lit "Error:0" else []) →
      w = (WorkerThread.readAndRunAlgorithm ext n t).m_tcpSocket.written →
      ∃ (ds : List QByteArray) (e : QByteArray),
        w = t.m_tcpSocket.written ++ resultFrames ds ++ e ∧
        (e = [] ∨ e = lit "Error:0") ∧
        (ds ≠ [] → ∃ alg w w1 u,
          ext.loadAlgorithm t.world (WorkerThread.receive n t.m_tcpSocket).1 =
            (Outcome.returns (some alg), w) ∧
          ext.run w alg = (Outcome.returns u, w1) ∧
          ds.length ≤ (ext.results w1 alg).length ∧
          (e ≠ [] → ds.length < (ext.results w1 alg).length)) := by
    intro w h hw
    refine ⟨[], if (WorkerThread.receive n t.m_tcpSocket).2.connected then lit "Error:0" else [],
      ?_, herr _, by simp⟩
    rw [hw, h]; simp [resultFrames]
  by_cases hlen : ((WorkerThread.receive n t.m_tcpSocket).1.length : Int) < n
  · exact hfail _ (readAndRunAlgorithm_failure ext n t (Or.inl hlen)).1 rfl
  by_cases ho : ext.openRead t.world (WorkerThread.receive n t.m_tcpSocket).1 = true
  swap
  · exact hfail _
      (readAndRunAlgorithm_failure ext n t (Or.inr (Or.inl (by simpa using ho)))).1 rfl
  obtain ⟨o, w, hl⟩ : ∃ o w,
      ext.loadAlgorithm t.world (WorkerThread.receive n t.m_tcpSocket).1 = (o, w) := ⟨_, _, rfl⟩
  rcases o with (_ | alg) | _
  · exact hfail _
      (readAndRunAlgorithm_failure ext n t (Or.inr (Or.inr (Or.inl (by rw [hl]))))).1 rfl
  · obtain ⟨r, w1, hr⟩ : ∃ r w1, ext.run w alg = (r, w1) := ⟨_, _, rfl⟩
    cases r with
    | throws =>
      exact hfail _
        (readAndRunAlgorithm_run_throws ext n t alg w (by omega) ho hl (by rw [hr])) rfl
    | returns u =>
      obtain ⟨ds, h1, h2, _⟩ := readAndRunAlgorithm_run_returns ext n t alg w w1 u (by omega)
        ho hl hr
      refine ⟨ds, _, h1, ?_, ?_⟩
      · split_ifs <;> simp
      · intro _
        refine ⟨alg, w, w1, u, hl, hr, h2, ?_⟩
        intro he
        by_contra hlt
        exact he (by simp [hlt])
  · exact hfail _
      (readAndRunAlgorithm_failure ext n t (Or.inr (Or.inr (Or.inr (by rw [hl]))))).1 rfl

/-- C17 (amended): for every Algorithm command being handled
(`m_state = 2`), the bytes written in response are a sequence of result
frames, possibly empty, followed by at most one `Error:0`, after which
nothing is written. `Error:0` follows result frames only if the algorithm
was loaded, its `run` returned, and fewer frames were written than it has
results, that is, when a later result could not be encoded. -/
theorem error_comes_last {W Model Algorithm : Type} (ext : Extern W Model Algorithm)
    (t : WorkerThread W) (hstate : t.m_state = 2) :
    ∃ (ds : List QByteArray) (e : QByteArray),
      (WorkerThread.readyRead ext t).m_tcpSocket.written =
        t.m_tcpSocket.written ++ resultFrames ds ++ e ∧
      (e = [] ∨ e = lit "Error:0") ∧
      (ds ≠ [] → e = lit "Error:0" → ∃ alg w w1 u,
        ext.loadAlgorithm t.world (WorkerThread.receive t.m_expected_bytes t.m_tcpSocket).1 =
          (Outcome.returns (some alg), w) ∧
        ext.run w alg = (Outcome.returns u, w1) ∧
        ds.length < (ext.results w1 alg).length) := by
  rw [(readyRead_payload ext t).2 hstate]
  obtain ⟨ds, e, h1, h2, h3⟩ := readAndRunAlgorithm_written ext t.m_expected_bytes
    { t with m_state := 3 }
  refine ⟨ds, e, h1, h2, ?_⟩
  intro hds he
  obtain ⟨alg, w, w1, u, hl, hr, _, hlt⟩ := h3 hds
  exact ⟨alg, w, w1, u, hl, hr, hlt (by rw [he]; decide)⟩

/-- C17, refuted as stated: an algorithm has two results and the second
cannot be serialized. The worker writes the frame of the first result,
`Model:3\n` and its 3 bytes, and then `Error:0`: both a result frame and
`Error:0` for the same command. -/
theorem error_after_result_frame :
    (WorkerThread.readyRead secondFailsExtern
      (sessionIn [] 2 3 (socketWith [31, 139, 8]))).m_tcpSocket.written =
      lit "Model:3\n" ++ [31, 139, 8] ++ lit "Error:0" ∧
    secondFailsExtern.results () [31, 139, 8] = [[31, 139, 8], []] ∧
    (secondFailsExtern.serialize () []).1 = Outcome.throws := by
  decide

/-- C17, an instance: the algorithm whose second result cannot be
serialized. -/
theorem error_comes_last_witness :
    ∃ (ds : List QByteArray) (e : QByteArray),
      (WorkerThread.readyRead secondFailsExtern
        (sessionIn [] 2 3 (socketWith [31, 139, 8]))).m_tcpSocket.written =
        (sessionIn [] 2 3 (socketWith [31, 139, 8])).m_tcpSocket.written ++
          resultFrames ds ++ e ∧
      (e = [] ∨ e = lit "Error:0") ∧
      (ds ≠ [] → e = lit "Error:0" → ∃ alg w w1 u,
        secondFailsExtern.loadAlgorithm (sessionIn [] 2 3 (socketWith [31, 139, 8])).world
          (WorkerThread.receive (sessionIn [] 2 3 (socketWith [31, 139, 8])).m_expected_bytes
            (sessionIn [] 2 3 (socketWith [31, 139, 8])).m_tcpSocket).1 =
          (Outcome.returns (some alg), w) ∧
        secondFailsExtern.run w alg = (Outcome.returns u, w1) ∧
        ds.length < (secondFailsExtern.results w1 alg).length) :=
  error_comes_last secondFailsExtern (sessionIn [] 2 3 (socketWith [31, 139, 8])) rfl

/-- C18: in every execution of the Algorithm handler, whatever is received
and whatever the collaborators do, also when a later result cannot be
encoded, the bytes written are whole frames, each the header `Model:<n>\n`
with `n` the length of the payload `d` directly followed by the `n` bytes of
`d`, and after the last frame nothing or `Error:0`. No header is written
without its payload. -/
theorem no_header_without_payload {W Model Algorithm : Type}
    (ext : Extern W Model Algorithm) (n : Int) (t : WorkerThread W) :
    ∃ (ds : List QByteArray) (e : QByteArray),
      (WorkerThread.readAndRunAlgorithm ext n t).m_tcpSocket.written =
        t.m_tcpSocket.written ++
          (ds.map (fun d => toLatin1 (qs "Model:" ++ number d.length ++ qs "\n") ++ d)).flatten ++
          e ∧
      (e = [] ∨ e = lit "Error:0") := by
  obtain ⟨ds, e, h1, h2, _⟩ := readAndRunAlgorithm_written ext n t
  exact ⟨ds, e, h1, h2⟩

/-! ## Incomplete payloads and pending commands -/

/-- The receive loop cannot return more bytes than it had, were available
and arrived. -/
theorem readLoop_length (n : Int) : ∀ (fuel : Nat) (data : QByteArray) (s : Socket),
    (WorkerThread.readLoop n fuel data s).1.length ≤
      data.length + s.readBuffer.length + incomingBytes s.incoming := by
  intro fuel
  induction fuel with
  | zero => intro data s; show data.length ≤ _; omega
  | succ fuel ih =>
    intro data s
    simp only [WorkerThread.readLoop]
    split_ifs
    · simp [Socket.readAll]
    · refine le_trans (ih _ _) ?_
      cases hinc : s.incoming with
      | nil => simp [Socket.waitForReadyRead, Socket.readAll, hinc, incomingBytes]
      | cons e rest =>
        cases e <;> simp [Socket.waitForReadyRead, Socket.readAll, hinc, incomingBytes]
        omega
    · show data.length ≤ _; omega

/-- The receive loop keeps what it has: its result starts with `data`. -/
theorem readLoop_prefix (n : Int) : ∀ (fuel : Nat) (data : QByteArray) (s : Socket),
    ∃ more, (WorkerThread.readLoop n fuel data s).1 = data ++ more := by
  intro fuel
  induction fuel with
  | zero => intro data s; exact ⟨[], by simp [WorkerThread.readLoop]⟩
  | succ fuel ih =>
    intro data s
    simp only [WorkerThread.readLoop]
    split_ifs
    · exact ⟨s.readAll.1, rfl⟩
    · obtain ⟨more, hm⟩ := ih (data ++ s.readAll.1) s.readAll.2.waitForReadyRead
      exact ⟨s.readAll.1 ++ more, by rw [hm, List.append_assoc]⟩
    · exact ⟨[], by simp⟩

/-- With a positive byte count expected, everything on the socket is taken
as payload: the received buffer starts with the read buffer. -/
theorem receive_prefix (n : Int) (s : Socket) (hn : 0 < n) :
    ∃ more, (WorkerThread.receive n s).1 = s.readBuffer ++ more := by
  by_cases hb : s.readBuffer = []
  · rw [hb]; exact ⟨_, (List.nil_append _).symm⟩
  · have hav : s.bytesAvailable ≠ 0 := by
      simpa [Socket.bytesAvailable] using hb
    have hc : s.bytesAvailable ≠ 0 ∧ ((([] : QByteArray).length : Nat) : Int) < n :=
      ⟨hav, by simpa using hn⟩
    show ∃ more, (WorkerThread.readLoop n ((s.incoming.length + 1) + 1) [] s).1 = _
    rw [WorkerThread.readLoop, if_pos hc]
    simp only
    split_ifs
    · exact ⟨[], by simp [Socket.readAll]⟩
    · obtain ⟨more, hm⟩ := readLoop_prefix n (s.incoming.length + 1) ([] ++ s.readAll.1)
        s.readAll.2.waitForReadyRead
      exact ⟨more, by rw [hm]; simp [Socket.readAll]⟩

/-- A payload handled short: in `m_state` `1` or `2`, if the bytes on the
socket and all bytes that still arrive are fewer than the expected byte
count, the handler decodes nothing (it opens no gzip device and calls no
loader), and it writes `Error:0` if the socket is connected when the failure
is handled and nothing if it is not. -/
theorem incomplete_payload_handled {W Model Algorithm : Type}
    (ext : Extern W Model Algorithm) (t : WorkerThread W)
    (hstate : t.m_state = 1 ∨ t.m_state = 2)
    (hshort : ((t.m_tcpSocket.readBuffer.length + incomingBytes t.m_tcpSocket.incoming : Nat)
      : Int) < t.m_expected_bytes) :
    (WorkerThread.readyRead ext t).calls = t.calls ++
      [if t.m_state = 1 then Call.readModel t.m_expected_bytes
        else Call.readAndRunAlgorithm t.m_expected_bytes] ∧
    (WorkerThread.readyRead ext t).m_tcpSocket.written = t.m_tcpSocket.written ++
      (if (WorkerThread.receive t.m_expected_bytes t.m_tcpSocket).2.connected
        then lit "Error:0" else []) := by
  have hlen : ((WorkerThread.receive t.m_expected_bytes t.m_tcpSocket).1.length : Int) <
      t.m_expected_bytes := by
    have := readLoop_length t.m_expected_bytes (t.m_tcpSocket.incoming.length + 2) []
      t.m_tcpSocket
    unfold WorkerThread.receive
    simp only [List.length_nil, Nat.zero_add] at this
    omega
  rcases hstate with h | h
  · rw [(readyRead_payload ext t).1 h]
    have h1 := readModel_failure ext t.m_expected_bytes { t with m_state := 3 } (Or.inl hlen)
    have h2 := readModel_calls ext t.m_expected_bytes { t with m_state := 3 }
    simp only [hlen, if_true] at h2
    exact ⟨by simp only [h, if_true]; exact h2, h1⟩
  · rw [(readyRead_payload ext t).2 h]
    obtain ⟨h1, h2⟩ := readAndRunAlgorithm_failure ext t.m_expected_bytes
      { t with m_state := 3 } (Or.inl hlen)
    simp only [hlen, if_true] at h2
    exact ⟨by simp only [h]; exact h2, h1⟩

/-- C19: while a payload is pending (`m_state` is `1` or `2`), bytes on the
socket that spell a command line `<kind>:<k>\n`, such as `Model:<k>\n`, are
not read as a command. The one handler that runs is that of the pending
command, with the byte count recorded for it, and no handler is called for
`<k>` bytes. The only buffer that is opened or loaded from is the payload
received, and when the recorded byte count is positive the bytes of the line
are the beginning of that payload. The session ends in `AwaitingCommand`
with expected byte count `0`, so a later command is taken up only after the
pending one has been handled. -/
theorem pending_payload_hides_command {W Model Algorithm : Type}
    (ext : Extern W Model Algorithm) (t : WorkerThread W) (kind : QString) (k : Nat)
    (rest : QByteArray) (hstate : t.m_state = 1 ∨ t.m_state = 2)
    (hbuf : t.m_tcpSocket.readBuffer =
      toLatin1 (kind ++ qs ":" ++ number k ++ qs "\n") ++ rest) :
    ∃ (payload : QByteArray) (new : List Call),
      (WorkerThread.readyRead ext t).calls = t.calls ++
        (if t.m_state = 1 then Call.readModel t.m_expected_bytes
          else Call.readAndRunAlgorithm t.m_expected_bytes) :: new ∧
      (∀ c ∈ new, c = Call.openRead payload ∨ c = Call.loadModel payload ∨
        c = Call.loadAlgorithm payload ∨ c = Call.run ∨ c = Call.serialize) ∧
      (0 < t.m_expected_bytes → ∃ more,
        payload = toLatin1 (kind ++ qs ":" ++ number k ++ qs "\n") ++ rest ++ more) ∧
      (WorkerThread.readyRead ext t).m_state = 0 ∧
      (WorkerThread.readyRead ext t).m_expected_bytes = 0 := by
  have hpre : 0 < t.m_expected_bytes → ∃ more,
      (WorkerThread.receive t.m_expected_bytes t.m_tcpSocket).1 =
        toLatin1 (kind ++ qs ":" ++ number k ++ qs "\n") ++ rest ++ more := by
    intro hpos
    obtain ⟨more, hmore⟩ := receive_prefix t.m_expected_bytes t.m_tcpSocket hpos
    exact ⟨more, by rw [hmore, hbuf]⟩
  rcases hstate with h | h
  · rw [(readyRead_payload ext t).1 h]
    have hc := readModel_calls ext t.m_expected_bytes { t with m_state := 3 }
    refine ⟨(WorkerThread.receive t.m_expected_bytes t.m_tcpSocket).1, _,
      by simp only [h, if_true]; exact hc, ?_, hpre, rfl, rfl⟩
    intro c hmem
    split_ifs at hmem
    · simp at hmem
    · simp only [List.mem_cons, List.mem_singleton, List.not_mem_nil, or_false] at hmem
      rcases hmem with e | e
      · exact Or.inl e
      · exact Or.inr (Or.inl e)
    · simp only [List.mem_cons, List.not_mem_nil, or_false] at hmem
      exact Or.inl hmem
  · rw [(readyRead_payload ext t).2 h]
    obtain ⟨tail, htail, hc⟩ := readAndRunAlgorithm_calls ext t.m_expected_bytes
      { t with m_state := 3 }
    refine ⟨(WorkerThread.receive t.m_expected_bytes t.m_tcpSocket).1, _,
      by simp only [h]; exact hc, ?_, hpre, rfl, rfl⟩
    intro c hmem
    split_ifs at hmem
    · simp at hmem
    · simp only [List.mem_cons] at hmem
      rcases hmem with e | e | e
      · exact Or.inl e
      · exact Or.inr (Or.inr (Or.inl e))
      · rcases htail c e with e1 | e1
        · exact Or.inr (Or.inr (Or.inr (Or.inl e1)))
        · exact Or.inr (Or.inr (Or.inr (Or.inr e1)))
    · simp only [List.mem_cons, List.not_mem_nil, or_false] at hmem
      exact Or.inl hmem

/-- C19, an instance: `Model:10` is pending and the client sends the line
`Model:7\n` instead of the payload. -/
theorem pending_payload_hides_command_witness :
    ∃ (payload : QByteArray) (new : List Call),
      (WorkerThread.readyRead echoExtern
        (sessionIn [] 1 10 (socketWith
          (toLatin1 (qs "Model" ++ qs ":" ++ number 7 ++ qs "\n") ++ [])))).calls =
        (sessionIn [] 1 10 (socketWith
          (toLatin1 (qs "Model" ++ qs ":" ++ number 7 ++ qs "\n") ++ []))).calls ++
        (if (sessionIn [] 1 10 (socketWith
            (toLatin1 (qs "Model" ++ qs ":" ++ number 7 ++ qs "\n") ++ []))).m_state = 1
          then Call.readModel (sessionIn [] 1 10 (socketWith
            (toLatin1 (qs "Model" ++ qs ":" ++ number 7 ++ qs "\n") ++ []))).m_expected_bytes
          else Call.readAndRunAlgorithm (sessionIn [] 1 10 (socketWith
            (toLatin1 (qs "Model" ++ qs ":" ++ number 7 ++ qs "\n") ++ []))).m_expected_bytes)
          :: new ∧
      (∀ c ∈ new, c = Call.openRead payload ∨ c = Call.loadModel payload ∨
        c = Call.loadAlgorithm payload ∨ c = Call.run ∨ c = Call.serialize) ∧
      (0 < (sessionIn [] 1 10 (socketWith
          (toLatin1 (qs "Model" ++ qs ":" ++ number 7 ++ qs "\n") ++ []))).m_expected_bytes →
        ∃ more,
          payload = toLatin1 (qs "Model" ++ qs ":" ++ number 7 ++ qs "\n") ++ [] ++ more) ∧
      (WorkerThread.readyRead echoExtern
        (sessionIn [] 1 10 (socketWith
          (toLatin1 (qs "Model" ++ qs ":" ++ number 7 ++ qs "\n") ++ [])))).m_state = 0 ∧
      (WorkerThread.readyRead echoExtern
        (sessionIn [] 1 10 (socketWith
          (toLatin1 (qs "Model" ++ qs ":" ++ number 7 ++ qs "\n") ++ [])))).m_expected_bytes = 0 :=
  pending_payload_hides_command echoExtern
    (sessionIn [] 1 10 (socketWith (toLatin1 (qs "Model" ++ qs ":" ++ number 7 ++ qs "\n") ++ [])))
    (qs "Model") 7 [] (Or.inl rfl) rfl

/-! ## The round trip of a frame -/

/-- When exactly the declared number of bytes is on the socket, the
received buffer is those bytes. -/
theorem receive_exact (s : Socket) : (WorkerThread.receive s.readBuffer.length s).1 = s.readBuffer := by
  show (WorkerThread.readLoop _ ((s.incoming.length + 1) + 1) [] s).1 = _
  rw [WorkerThread.readLoop]
  by_cases hb : s.readBuffer = []
  · simp [Socket.bytesAvailable, hb]
  · have hpos : 0 < s.readBuffer.length := List.length_pos.2 hb
    have hc : s.bytesAvailable ≠ 0 ∧
        ((([] : QByteArray).length : Nat) : Int) < (s.readBuffer.length : Int) :=
      ⟨by simp [Socket.bytesAvailable, hb], by simpa using hpos⟩
    rw [if_pos hc]
    simp [Socket.readAll]

/-- C15: round trip of the frame codec through the worker, for every model
`m` that satisfies the serialization contract with the bytes `data`.
Encoding `m` as the worker does for a result frame succeeds and writes the
header `Model:<n>\n`, `n` the length of `data`, followed by `data`. Decoding
these bytes as the worker does for an incoming `Model:<n>` payload (the
session expects `n` bytes for a `Model` command and `data` is on the socket)
opens the gzip device on exactly `data` and loads from exactly `data`, which
yields `m`, and the worker answers `Success:0`. -/
theorem frame_round_trip {W Model Algorithm : Type} (ext : Extern W Model Algorithm)
    (w : W) (m : Model) (data : QByteArray) (hc : SatisfiesContract ext w m data)
    (t r : WorkerThread W) (ht : t.world = w)
    (hstate : r.m_state = 1) (hexp : r.m_expected_bytes = (data.length : Int))
    (hbuf : r.m_tcpSocket.readBuffer = data) :
    ((WorkerThread.sendResults ext [m] t).1 = false ∧
      (WorkerThread.sendResults ext [m] t).2.m_tcpSocket.written =
        t.m_tcpSocket.written ++ toLatin1 (qs "Model:" ++ number data.length ++ qs "\n") ++
          data) ∧
    (WorkerThread.readyRead ext r).calls =
      r.calls ++ [Call.readModel data.length, Call.openRead data, Call.loadModel data] ∧
    (ext.loadModel r.world data).1 = Outcome.returns (some m) ∧
    (WorkerThread.readyRead ext r).m_tcpSocket.written =
      r.m_tcpSocket.written ++ lit "Success:0" := by
  obtain ⟨hopenW, hser, hdec⟩ := hc
  have henc : Encodes ext w [m] [data] (ext.serialize w m).2 :=
    Encodes.cons w _ _ m [] data [] hopenW (Prod.ext hser rfl) (Encodes.nil _)
  obtain ⟨e1, e2, _⟩ := sendResults_encodes ext [m] [data] w _ henc t ht
  have hrecv : (WorkerThread.receive r.m_expected_bytes r.m_tcpSocket).1 = data := by
    rw [hexp, ← hbuf]; exact receive_exact r.m_tcpSocket
  have hload : ext.loadModel r.world data =
      (Outcome.returns (some m), (ext.loadModel r.world data).2) :=
    Prod.ext (hdec r.world).2 rfl
  refine ⟨⟨e1, ?_⟩, ?_, (hdec r.world).2, ?_⟩
  · rw [e2]; simp [resultFrames, resultFrame]
  · rw [(readyRead_payload ext r).1 hstate]
    have hcalls := readModel_calls ext r.m_expected_bytes { r with m_state := 3 }
    simp only [hrecv, (hdec r.world).1, if_true] at hcalls
    rw [hexp] at hcalls
    simp only [lt_self_iff_false, if_false] at hcalls
    rw [hexp]
    exact hcalls
  · rw [(readyRead_payload ext r).1 hstate]
    exact (readModel_success ext r.m_expected_bytes { r with m_state := 3 } m _
      (by rw [hrecv, hexp]) (by rw [hrecv]; exact (hdec r.world).1)
      (by rw [hrecv]; exact hload)).1

/-- C15, an instance: with the example collaborators, the model of the bytes
`1f 8b 08` is encoded to itself and decoded from itself. -/
theorem frame_round_trip_witness :
    ((WorkerThread.sendResults echoExtern [[31, 139, 8]]
        (sessionIn [] 3 0 (socketWith []))).1 = false ∧
      (WorkerThread.sendResults echoExtern [[31, 139, 8]]
        (sessionIn [] 3 0 (socketWith []))).2.m_tcpSocket.written =
        (sessionIn [] 3 0 (socketWith [])).m_tcpSocket.written ++
          toLatin1 (qs "Model:" ++ number ([31, 139, 8] : QByteArray).length ++ qs "\n") ++
          [31, 139, 8]) ∧
    (WorkerThread.readyRead echoExtern (sessionIn [] 1 3 (socketWith [31, 139, 8]))).calls =
      (sessionIn [] 1 3 (socketWith [31, 139, 8])).calls ++
        [Call.readModel ([31, 139, 8] : QByteArray).length, Call.openRead [31, 139, 8],
          Call.loadModel [31, 139, 8]] ∧
    (echoExtern.loadModel (sessionIn [] 1 3 (socketWith [31, 139, 8])).world [31, 139, 8]).1 =
      Outcome.returns (some [31, 139, 8]) ∧
    (WorkerThread.readyRead echoExtern
      (sessionIn [] 1 3 (socketWith [31, 139, 8]))).m_tcpSocket.written =
      (sessionIn [] 1 3 (socketWith [31, 139, 8])).m_tcpSocket.written ++ lit "Success:0" :=
  frame_round_trip echoExtern () [31, 139, 8] [31, 139, 8]
    ⟨rfl, rfl, fun _ => ⟨rfl, rfl⟩⟩
    (sessionIn [] 3 0 (socketWith [])) (sessionIn [] 1 3 (socketWith [31, 139, 8]))
    rfl rfl rfl rfl

/-! ## The run of an image filter -/

/-- The events of the loop over the bands: none of them locks or unlocks,
and the lock is not touched. -/
theorem filterBands_events (count : Nat) (phases : List Nat) : ∀ a : FilterAlgorithm,
    ∃ body, (FilterAlgorithm.filterBands count phases a).1.events = a.events ++ body ∧
      RunEvent.lockModels ∉ body ∧ RunEvent.unlockModels ∉ body ∧
      (FilterAlgorithm.filterBands count phases a).1.locked = a.locked ∧
      (FilterAlgorithm.filterBands count phases a).1.computation = a.computation := by
  induction phases with
  | nil => intro a; exact ⟨[], by simp [FilterAlgorithm.filterBands]⟩
  | cons p ps ih =>
    intro a
    unfold FilterAlgorithm.filterBands
    simp only [FilterAlgorithm.note]
    cases hf : a.computation.filter p with
    | some e => exact ⟨[RunEvent.filterBand p], by simp⟩
    | none =>
      obtain ⟨body, h1, h2, h3, h4, h5⟩ := ih (FilterAlgorithm.emit
        (Signal.statusMessage ⟨p * 99, count⟩ (qs "filtering"))
        { a with events := a.events ++ [RunEvent.filterBand p] })
      refine ⟨RunEvent.filterBand p :: RunEvent.emit
        (Signal.statusMessage ⟨p * 99, count⟩ (qs "filtering")) :: body, ?_, ?_, ?_, ?_, ?_⟩
      · simp only [h1]; simp [FilterAlgorithm.emit, FilterAlgorithm.note]
      · simp [h2]
      · simp [h3]
      · simp only [h4]; rfl
      · simp only [h5]; rfl

/-- The events of the `try` block: none of them locks or unlocks, and the
lock is not touched. -/
theorem tryBlock_events (a : FilterAlgorithm) :
    ∃ body, (FilterAlgorithm.tryBlock a).1.events = a.events ++ body ∧
      RunEvent.lockModels ∉ body ∧ RunEvent.unlockModels ∉ body ∧
      (FilterAlgorithm.tryBlock a).1.locked = a.locked := by
  unfold FilterAlgorithm.tryBlock
  simp only [FilterAlgorithm.emit, FilterAlgorithm.note]
  cases hcr : a.computation.create with
  | some e =>
    refine ⟨[RunEvent.emit (Signal.statusMessage ⟨0, 1⟩ (qs "started")),
      RunEvent.emit (Signal.statusMessage ⟨1, 1⟩ (qs "starting computation"))], ?_, ?_, ?_, ?_⟩
    · simp
    · simp
    · simp
    · rfl
  | none =>
    simp only
    obtain ⟨body, h1, h2, h3, h4, h5⟩ := filterBands_events a.current_image.numBands
      (List.range a.current_image.numBands)
      { a with events := a.events ++
          [RunEvent.emit (Signal.statusMessage ⟨0, 1⟩ (qs "started"))] ++
          [RunEvent.emit (Signal.statusMessage ⟨1, 1⟩ (qs "starting computation"))] }
    rcases hfb : FilterAlgorithm.filterBands a.current_image.numBands
      (List.range a.current_image.numBands)
      { a with events := a.events ++
          [RunEvent.emit (Signal.statusMessage ⟨0, 1⟩ (qs "started"))] ++
          [RunEvent.emit (Signal.statusMessage ⟨1, 1⟩ (qs "starting computation"))] }
      with ⟨a1, thrown⟩
    rw [hfb] at h1 h4 h5
    simp only at h1 h4 h5
    cases thrown with
    | some e =>
      refine ⟨RunEvent.emit (Signal.statusMessage ⟨0, 1⟩ (qs "started")) ::
        RunEvent.emit (Signal.statusMessage ⟨1, 1⟩ (qs "starting computation")) :: body,
        ?_, ?_, ?_, h4⟩
      · simp only [h1]; simp
      · simp [h2]
      · simp [h3]
    | none =>
      simp only
      cases hd : a1.computation.describe with
      | some e =>
        refine ⟨RunEvent.emit (Signal.statusMessage ⟨0, 1⟩ (qs "started")) ::
          RunEvent.emit (Signal.statusMessage ⟨1, 1⟩ (qs "starting computation")) :: body,
          ?_, ?_, ?_, h4⟩
        · simp only [h1]; simp
        · simp [h2]
        · simp [h3]
      | none =>
        refine ⟨RunEvent.emit (Signal.statusMessage ⟨0, 1⟩ (qs "started")) ::
          RunEvent.emit (Signal.statusMessage ⟨1, 1⟩ (qs "starting computation")) ::
          (body ++ [RunEvent.emit (Signal.statusMessage ⟨100, 1⟩ (qs "finished computation")),
            RunEvent.emit Signal.finished]), ?_, ?_, ?_, h4⟩
        · simp only [h1]; simp
        · simp [h2]
        · simp [h3]

/-- C20: for every image filter of the module and every `run()` with valid
parameters, whatever the computation does (it completes, it raises a
`std::exception`, it raises anything else, at whatever point): `lockModels()`
is called exactly once, before everything else `run()` does, and
`unlockModels()` exactly once, after everything else, the filter
computation included; the models are not locked when `run()` returns. -/
theorem run_locks_and_unlocks (a : FilterAlgorithm) (hvalid : a.parametersValid = true) :
    ∃ body, a.run.events = a.events ++ RunEvent.lockModels :: body ++ [RunEvent.unlockModels] ∧
      RunEvent.lockModels ∉ body ∧ RunEvent.unlockModels ∉ body ∧
      a.run.locked = false := by
  unfold FilterAlgorithm.run
  simp only [hvalid, Bool.not_true, Bool.false_eq_true, if_false]
  obtain ⟨body, h1, h2, h3, _⟩ := tryBlock_events a.lockModels
  rcases ht : FilterAlgorithm.tryBlock a.lockModels with ⟨a1, thrown⟩
  rw [ht] at h1
  simp only at h1
  have hl : a.lockModels.events = a.events ++ [RunEvent.lockModels] := rfl
  rcases thrown with _ | ⟨what⟩ | _
  · exact ⟨body, by simp [FilterAlgorithm.unlockModels, FilterAlgorithm.note, h1, hl],
      h2, h3, rfl⟩
  · refine ⟨body ++ [RunEvent.emit
      (Signal.errorMessage (qs "Explainable error occured: " ++ what))], ?_, ?_, ?_, rfl⟩
    · simp [FilterAlgorithm.unlockModels, FilterAlgorithm.note, FilterAlgorithm.emit, h1, hl]
    · simp [h2]
    · simp [h3]
  · refine ⟨body ++ [RunEvent.emit
      (Signal.errorMessage (qs "Non-explainable error occured"))], ?_, ?_, ?_, rfl⟩
    · simp [FilterAlgorithm.unlockModels, FilterAlgorithm.note, FilterAlgorithm.emit, h1, hl]
    · simp [h2]
    · simp [h3]

/-- C20, an instance: a Frost filter on two bands whose filter function
throws something that is no `std::exception` on the second band. -/
theorem run_locks_and_unlocks_witness :
    ∃ body, (frostOn true { Computation.completes with
        filter := fun m_phase => if m_phase = 1 then some Thrown.other else none }).run.events =
        (frostOn true { Computation.completes with
          filter := fun m_phase => if m_phase = 1 then some Thrown.other else none }).events ++
        RunEvent.lockModels :: body ++ [RunEvent.unlockModels] ∧
      RunEvent.lockModels ∉ body ∧ RunEvent.unlockModels ∉ body ∧
      (frostOn true { Computation.completes with
        filter := fun m_phase => if m_phase = 1 then some Thrown.other else none }).run.locked =
        false :=
  run_locks_and_unlocks (frostOn true { Computation.completes with
    filter := fun m_phase => if m_phase = 1 then some Thrown.other else none }) rfl

/-! ## Errors of the run of an image filter -/

theorem errorsOf_append (xs ys : List RunEvent) :
    errorsOf (xs ++ ys) = errorsOf xs ++ errorsOf ys := by
  induction xs with
  | nil => rfl
  | cons x xs ih =>
    cases x with
    | emit sig => cases sig <;> simp [errorsOf, ih]
    | _ => simp [errorsOf, ih]

/-- The loop over the bands stops at the first band on which the filter
function throws, and passes on what was thrown; it reports no error and
leaves the results alone. -/
theorem filterBands_thrown (count : Nat) (phases : List Nat) : ∀ a : FilterAlgorithm,
    (FilterAlgorithm.filterBands count phases a).2 =
      (phases.map a.computation.filter).findSome? id ∧
    errorsOf (FilterAlgorithm.filterBands count phases a).1.events = errorsOf a.events ∧
    (FilterAlgorithm.filterBands count phases a).1.m_results = a.m_results ∧
    (FilterAlgorithm.filterBands count phases a).1.computation = a.computation := by
  induction phases with
  | nil => intro a; simp [FilterAlgorithm.filterBands]
  | cons p ps ih =>
    intro a
    unfold FilterAlgorithm.filterBands
    simp only [FilterAlgorithm.note]
    cases hf : a.computation.filter p with
    | some e => simp [hf, errorsOf_append, errorsOf]
    | none =>
      obtain ⟨h1, h2, h3, h4⟩ := ih (FilterAlgorithm.emit
        (Signal.statusMessage ⟨p * 99, count⟩ (qs "filtering"))
        { a with events := a.events ++ [RunEvent.filterBand p] })
      refine ⟨?_, ?_, ?_, ?_⟩
      · simp only [h1]
        simp [hf, FilterAlgorithm.emit, FilterAlgorithm.note]
      · simp only [h2]
        simp [FilterAlgorithm.emit, FilterAlgorithm.note, errorsOf_append, errorsOf]
      · simp only [h3]; rfl
      · simp only [h4]; rfl

/-- The `try` block ends with the first thing thrown by its operations, if
any; it reports no error itself, and it leaves the results alone when
something is thrown. -/
theorem tryBlock_thrown (a : FilterAlgorithm) :
    (FilterAlgorithm.tryBlock a).2 = firstThrown a.computation a.current_image.numBands ∧
    errorsOf (FilterAlgorithm.tryBlock a).1.events = errorsOf a.events ∧
    ((FilterAlgorithm.tryBlock a).2 ≠ none →
      (FilterAlgorithm.tryBlock a).1.m_results = a.m_results) := by
  unfold FilterAlgorithm.tryBlock firstThrown
  simp only [FilterAlgorithm.emit, FilterAlgorithm.note]
  cases hcr : a.computation.create with
  | some e => simp [errorsOf_append, errorsOf]
  | none =>
    simp only
    obtain ⟨h1, h2, h3, h4⟩ := filterBands_thrown a.current_image.numBands
      (List.range a.current_image.numBands)
      { a with events := a.events ++
          [RunEvent.emit (Signal.statusMessage ⟨0, 1⟩ (qs "started"))] ++
          [RunEvent.emit (Signal.statusMessage ⟨1, 1⟩ (qs "starting computation"))] }
    rcases hfb : FilterAlgorithm.filterBands a.current_image.numBands
      (List.range a.current_image.numBands)
      { a with events := a.events ++
          [RunEvent.emit (Signal.statusMessage ⟨0, 1⟩ (qs "started"))] ++
          [RunEvent.emit (Signal.statusMessage ⟨1, 1⟩ (qs "starting computation"))] }
      with ⟨a1, thrown⟩
    rw [hfb] at h1 h2 h3 h4
    simp only at h1 h2 h3 h4
    have herr : errorsOf a1.events = errorsOf a.events := by
      rw [h2]; simp [errorsOf_append, errorsOf]
    cases thrown with
    | some e =>
      refine ⟨?_, herr, fun _ => h3⟩
      simp [List.findSome?_append, ← h1]
    | none =>
      simp only
      rw [h4]
      cases hd : a.computation.describe with
      | some e =>
        refine ⟨?_, herr, fun _ => h3⟩
        simp [List.findSome?_append, ← h1, hd]
      | none =>
        refine ⟨?_, ?_, fun h => absurd rfl h⟩
        · simp [List.findSome?_append, ← h1, hd]
        · simp [errorsOf_append, errorsOf, herr]

/-- C21: for every filter with valid parameters and every exception `e`
raised by the computation (the first thing thrown by an operation of the
`try` block), `run()` returns, having reported exactly one error: the text is
`Explainable error occured: ` followed by the message when `e` is a
`std::exception`, and `Non-explainable error occured` for anything else. The
result list is what it was before the run, and the models are unlocked. -/
theorem run_reports_exception (a : FilterAlgorithm) (e : Thrown)
    (hvalid : a.parametersValid = true)
    (hthrown : firstThrown a.computation a.current_image.numBands = some e) :
    errorsOf a.run.events = errorsOf a.events ++
      [match e with
        | Thrown.stdException what => qs "Explainable error occured: " ++ what
        | Thrown.other => qs "Non-explainable error occured"] ∧
    a.run.m_results = a.m_results ∧
    a.run.locked = false := by
  obtain ⟨h1, h2, h3⟩ := tryBlock_thrown a.lockModels
  have hc : firstThrown a.lockModels.computation a.lockModels.current_image.numBands =
      some e := hthrown
  rw [hc] at h1
  have hres := h3 (by rw [h1]; simp)
  have herr : errorsOf a.lockModels.events = errorsOf a.events := by
    simp [FilterAlgorithm.lockModels, FilterAlgorithm.note, errorsOf_append, errorsOf]
  unfold FilterAlgorithm.run
  simp only [hvalid, Bool.not_true, Bool.false_eq_true, if_false]
  rcases ht : FilterAlgorithm.tryBlock a.lockModels with ⟨a1, thrown⟩
  rw [ht] at h1 h2 hres
  simp only at h1 h2 hres
  subst h1
  cases e with
  | stdException what =>
    refine ⟨?_, ?_, rfl⟩
    · simp [FilterAlgorithm.unlockModels, FilterAlgorithm.note, FilterAlgorithm.emit,
        errorsOf_append, errorsOf, h2, herr]
    · simp only [FilterAlgorithm.unlockModels, FilterAlgorithm.note, FilterAlgorithm.emit, hres]
      rfl
  | other =>
    refine ⟨?_, ?_, rfl⟩
    · simp [FilterAlgorithm.unlockModels, FilterAlgorithm.note, FilterAlgorithm.emit,
        errorsOf_append, errorsOf, h2, herr]
    · simp only [FilterAlgorithm.unlockModels, FilterAlgorithm.note, FilterAlgorithm.emit, hres]
      rfl

/-- C21, an instance: a Frost filter on two bands whose filter function
throws the `std::exception` `bad kernel` on the second band. -/
theorem run_reports_exception_witness :
    errorsOf (frostOn true { Computation.completes with
        filter := fun m_phase =>
          if m_phase = 1 then some (Thrown.stdException (qs "bad kernel")) else none }
      ).run.events =
      errorsOf (frostOn true { Computation.completes with
        filter := fun m_phase =>
          if m_phase = 1 then some (Thrown.stdException (qs "bad kernel")) else none }
      ).events ++
      [match Thrown.stdException (qs "bad kernel") with
        | Thrown.stdException what => qs "Explainable error occured: " ++ what
        | Thrown.other => qs "Non-explainable error occured"] ∧
    (frostOn true { Computation.completes with
        filter := fun m_phase =>
          if m_phase = 1 then some (Thrown.stdException (qs "bad kernel")) else none }
      ).run.m_results =
      (frostOn true { Computation.completes with
        filter := fun m_phase =>
          if m_phase = 1 then some (Thrown.stdException (qs "bad kernel")) else none }
      ).m_results ∧
    (frostOn true { Computation.completes with
        filter := fun m_phase =>
          if m_phase = 1 then some (Thrown.stdException (qs "bad kernel")) else none }
      ).run.locked = false :=
  run_reports_exception (frostOn true { Computation.completes with
      filter := fun m_phase =>
        if m_phase = 1 then some (Thrown.stdException (qs "bad kernel")) else none })
    (Thrown.stdException (qs "bad kernel")) rfl (by decide)

/-- C28: for every filter whose `parametersValid()` is false, `run()`
returns, having reported exactly one error with the text `Some parameters
are not available`; it calls neither `lockModels()` nor `unlockModels()`, it
does not call the filter function on any band, and it leaves the result
list as it was: for a filter as the constructor made it, the list still
holds the one placeholder image. -/
theorem invalid_parameters_reported (a : FilterAlgorithm) (hinvalid : a.parametersValid = false) :
    a.run.events = a.events ++
      [RunEvent.emit (Signal.errorMessage (qs "Some parameters are not available"))] ∧
    errorsOf a.run.events = errorsOf a.events ++ [qs "Some parameters are not available"] ∧
    filterCallsOf a.run.events = filterCallsOf a.events ∧
    a.run.locked = a.locked ∧
    a.run.m_results = a.m_results ∧
    ∀ kind placeholder current_image valueText computation,
      (FilterAlgorithm.construct kind placeholder false current_image valueText computation
        ).run.m_results = [placeholder] := by
  have hrun : ∀ b : FilterAlgorithm, b.parametersValid = false →
      b.run = b.emit (Signal.errorMessage (qs "Some parameters are not available")) := by
    intro b hb
    unfold FilterAlgorithm.run
    simp [hb]
  rw [hrun a hinvalid]
  refine ⟨rfl, ?_, ?_, rfl, rfl, ?_⟩
  · simp [FilterAlgorithm.emit, FilterAlgorithm.note, errorsOf_append, errorsOf]
  · have happ : ∀ xs : List RunEvent, ∀ s : Signal,
        filterCallsOf (xs ++ [RunEvent.emit s]) = filterCallsOf xs := by
      intro xs s
      induction xs with
      | nil => rfl
      | cons x xs ih => cases x <;> simp [filterCallsOf, ih]
    exact happ _ _
  · intro kind placeholder current_image valueText computation
    rw [hrun _ rfl]
    rfl

/-- C28, an instance: the Frost filter of the examples with parameters that
are not valid. -/
theorem invalid_parameters_reported_witness :
    (frostOn false Computation.completes).run.events =
      (frostOn false Computation.completes).events ++
      [RunEvent.emit (Signal.errorMessage (qs "Some parameters are not available"))] ∧
    errorsOf (frostOn false Computation.completes).run.events =
      errorsOf (frostOn false Computation.completes).events ++
        [qs "Some parameters are not available"] ∧
    filterCallsOf (frostOn false Computation.completes).run.events =
      filterCallsOf (frostOn false Computation.completes).events ∧
    (frostOn false Computation.completes).run.locked =
      (frostOn false Computation.completes).locked ∧
    (frostOn false Computation.completes).run.m_results =
      (frostOn false Computation.completes).m_results ∧
    ∀ kind placeholder current_image valueText computation,
      (FilterAlgorithm.construct kind placeholder false current_image valueText computation
        ).run.m_results = [placeholder] :=
  invalid_parameters_reported (frostOn false Computation.completes) rfl

/-! ## `FloatParameter` -/

theorem FloatValue.ge_eq_le (a b : FloatValue) : a.ge b = b.le a := by
  cases a <;> cases b <;> simp [FloatValue.ge, FloatValue.le]

theorem FloatValue.le_trans (a b c : FloatValue) (hab : a.le b = true) (hbc : b.le c = true) :
    a.le c = true := by
  cases a <;> cases b <;> cases c <;> simp_all [FloatValue.le]
  exact hab.trans hbc

theorem FloatValue.gt_not_le (a b : FloatValue) (h : a.gt b = true) : a.le b = false := by
  cases a <;> cases b <;> simp_all [FloatValue.gt, FloatValue.le]

/-- C22: for every lower bound, upper bound and value, also the infinities
and not-a-number, `FloatParameter::isValid()` is true exactly when
`lowerBound() <= value()` and `value() <= upperBound()` both hold; when the
lower bound is greater than the upper bound it is false whatever the value.
This holds for the parameter as the constructor makes it and for every
other state of the three members. -/
theorem isValid_iff_between :
    (∀ p : FloatParameter,
      p.isValid = true ↔ (p.lowerBound.le p.value = true ∧ p.value.le p.upperBound = true)) ∧
    (∀ low upp value : FloatValue,
      (FloatParameter.new low upp value).isValid = true ↔
        (low.le value = true ∧ value.le upp = true)) ∧
    (∀ low upp : FloatValue, low.gt upp = true →
      ∀ value : FloatValue, (FloatParameter.new low upp value).isValid = false) := by
  have hmain : ∀ p : FloatParameter,
      p.isValid = true ↔ (p.lowerBound.le p.value = true ∧ p.value.le p.upperBound = true) := by
    intro p
    simp [FloatParameter.isValid, FloatValue.ge_eq_le]
  refine ⟨hmain, fun low upp value => hmain (FloatParameter.new low upp value), ?_⟩
  intro low upp hgt value
  cases hv : (FloatParameter.new low upp value).isValid with
  | false => rfl
  | true =>
    have h := (hmain _).1 hv
    have hle := FloatValue.le_trans _ _ _ h.1 h.2
    have hnot := FloatValue.gt_not_le low upp hgt
    simp only [FloatParameter.new, FloatParameter.lowerBound, FloatParameter.upperBound] at hle
    rw [hnot] at hle
    cases hle

theorem FloatParameter.deserialize_of_base (base : QByteArray → Bool × QByteArray)
    (toFloat : QByteArray → Option FloatValue)
    (boxSetValue : QDoubleSpinBox → FloatValue → QDoubleSpinBox × Bool)
    (p : FloatParameter) (input : QByteArray) (hbase : (base input).1 = true) :
    (FloatParameter.deserialize base toFloat boxSetValue p input).1 = true ∧
    (p.m_dsbDelegate = none →
      (FloatParameter.deserialize base toFloat boxSetValue p input).2.1.value =
        (toFloat (FloatParameter.trimmedBytes (Socket.lineOf (base input).2))).getD
          (FloatValue.finite 0)) := by
  refine ⟨by simp [FloatParameter.deserialize, hbase], ?_⟩
  intro hnone
  simp [FloatParameter.deserialize, hbase, FloatParameter.setValue, FloatParameter.value, hnone]

/-- C23, the behaviour of the code: on the value line `abc`, which is not
a number, with `Parameter::deserialize` successful, `deserialize` returns
true and the value of the parameter, `5` before the call, is `0` after it;
on the value line `7` it returns true with the value `7`. The answer does
not tell the two apart. The parameter is as the constructor made it (it has
no delegate), so the behaviour of the delegate plays no part. -/
theorem deserialize_accepts_unparsable :
    digitsToFloat (FloatParameter.trimmedBytes (Socket.lineOf (lit "abc\n"))) = none ∧
    (∀ boxSetValue, (FloatParameter.deserialize (fun input => (true, input)) digitsToFloat
      boxSetValue
      (FloatParameter.new (FloatValue.finite 0) (FloatValue.finite 10) (FloatValue.finite 5))
      (lit "abc\n")).1 = true) ∧
    (∀ boxSetValue, (FloatParameter.deserialize (fun input => (true, input)) digitsToFloat
      boxSetValue
      (FloatParameter.new (FloatValue.finite 0) (FloatValue.finite 10) (FloatValue.finite 5))
      (lit "abc\n")).2.1.value = FloatValue.finite 0) ∧
    (∀ boxSetValue, (FloatParameter.deserialize (fun input => (true, input)) digitsToFloat
      boxSetValue
      (FloatParameter.new (FloatValue.finite 0) (FloatValue.finite 10) (FloatValue.finite 5))
      (lit "7\n")).1 = true) ∧
    (∀ boxSetValue, (FloatParameter.deserialize (fun input => (true, input)) digitsToFloat
      boxSetValue
      (FloatParameter.new (FloatValue.finite 0) (FloatValue.finite 10) (FloatValue.finite 5))
      (lit "7\n")).2.1.value = FloatValue.finite 7) := by
  have habc : digitsToFloat (FloatParameter.trimmedBytes (Socket.lineOf (lit "abc\n"))) = none := by
    decide
  have hseven : digitsToFloat (FloatParameter.trimmedBytes (Socket.lineOf (lit "7\n"))) =
      some (FloatValue.finite 7) := by
    decide
  refine ⟨habc, fun _ => rfl, ?_, fun _ => rfl, ?_⟩
  · intro boxSetValue
    have h := (FloatParameter.deserialize_of_base (fun input => (true, input)) digitsToFloat
      boxSetValue
      (FloatParameter.new (FloatValue.finite 0) (FloatValue.finite 10) (FloatValue.finite 5))
      (lit "abc\n") rfl).2 rfl
    rw [h]
    show (digitsToFloat (FloatParameter.trimmedBytes (Socket.lineOf (lit "abc\n")))).getD _ = _
    rw [habc]
    rfl
  · intro boxSetValue
    have h := (FloatParameter.deserialize_of_base (fun input => (true, input)) digitsToFloat
      boxSetValue
      (FloatParameter.new (FloatValue.finite 0) (FloatValue.finite 10) (FloatValue.finite 5))
      (lit "7\n") rfl).2 rfl
    rw [h]
    show (digitsToFloat (FloatParameter.trimmedBytes (Socket.lineOf (lit "7\n")))).getD _ = _
    rw [hseven]
    rfl

/-! ## The tables of the image filter module -/

/-- C24: the list of border treatments has six entries, one for each
enumerator of `vigra::BorderTreatmentMode`. Each named entry sits at the
index that is the value of the mode it names: for AVOID, REPEAT, REFLECT,
WRAP and ZEROPAD the entry at the value of the mode starts with the name of
the mode, and whenever the entry at an index starts with the name of a
mode, converting that index gives that mode. Every filter that registers
`bt` starts at index 2, which converts to REPEAT; these are all filters but
the shock filter. -/
theorem border_modes_aligned :
    m_border_treatment_modes.length = 6 ∧
    (∀ mode : BorderTreatmentMode, mode ≠ BorderTreatmentMode.BORDER_TREATMENT_CLIP →
      (m_border_treatment_modes.get? mode.value).map firstWord = some mode.name ∧
      BorderTreatmentMode.ofIndex mode.value = some mode) ∧
    (∀ (index : Nat) (mode : BorderTreatmentMode),
      (m_border_treatment_modes.get? index).map firstWord = some mode.name →
      BorderTreatmentMode.ofIndex index = some mode) ∧
    (∀ kind : FilterKind,
      (kind.registeredClass "bt" = some ParameterClass.EnumParameter ↔
        kind ≠ FilterKind.ShockFilter) ∧
      (kind.registeredClass "bt" = some ParameterClass.EnumParameter →
        kind.borderTreatmentDefault = some 2)) ∧
    BorderTreatmentMode.ofIndex 2 = some BorderTreatmentMode.BORDER_TREATMENT_REPEAT ∧
    (m_border_treatment_modes.get? 2).map firstWord = some (qs "REPEAT") := by
  refine ⟨rfl, ?_, ?_, ?_, rfl, by decide⟩
  · intro mode hmode
    cases mode <;> first | exact absurd rfl hmode | exact ⟨by decide, rfl⟩
  · intro index mode h
    match index, h with
    | 0, h => cases mode <;> first | rfl | exact absurd h (by decide)
    | 1, h => cases mode <;> first | rfl | exact absurd h (by decide)
    | 2, h => cases mode <;> first | rfl | exact absurd h (by decide)
    | 3, h => cases mode <;> first | rfl | exact absurd h (by decide)
    | 4, h => cases mode <;> first | rfl | exact absurd h (by decide)
    | 5, h => cases mode <;> first | rfl | exact absurd h (by decide)
    | n + 6, h => simp [m_border_treatment_modes] at h
  · intro kind
    cases kind <;> exact ⟨by decide, by decide⟩

/-- C27, the behaviour of the code: the constructor of `GammaMAPFilter`
registers the key `ENL` as an `IntParameter`, and `run()` of that filter
casts the parameter fetched under `ENL` to `FloatParameter`. For every
other filter of the module, and for every other key of `GammaMAPFilter`,
the class of the cast is the class registered; `KuanFilter` reads its `ENL`
as the `IntParameter` it registered. -/
theorem gammaMAP_reads_ENL_as_float :
    FilterKind.GammaMAPFilter.registeredClass "ENL" = some ParameterClass.IntParameter ∧
    ("ENL", ParameterClass.FloatParameter) ∈ FilterKind.GammaMAPFilter.fetched ∧
    (∀ kind : FilterKind, ∀ entry ∈ kind.fetched,
      (kind, entry.1) ≠ (FilterKind.GammaMAPFilter, "ENL") →
      kind.registeredClass entry.1 = some entry.2) ∧
    FilterKind.KuanFilter.registeredClass "ENL" = some ParameterClass.IntParameter ∧
    ("ENL", ParameterClass.IntParameter) ∈ FilterKind.KuanFilter.fetched := by
  refine ⟨by decide, by decide, ?_, by decide, by decide⟩
  intro kind
  cases kind <;> decide

/-- C29: `algorithmFactory()` returns eight items; the topic of each is
`Image filters`; no two items have the same `algorithm_type`; and for each
item, the algorithm that its `algorithm_fptr` creates has the item's
`algorithm_type` as its `typeName()`. -/
theorem factory_items_consistent :
    algorithmFactory.length = 8 ∧
    (∀ item ∈ algorithmFactory, item.topic_name = qs "Image filters") ∧
    (algorithmFactory.map (fun item => item.algorithm_type)).Nodup ∧
    (∀ item ∈ algorithmFactory, item.algorithm_fptr.typeName = item.algorithm_type) := by
  refine ⟨rfl, by decide, by decide, by decide⟩

/-! ## The login test and the session invariant -/

theorem readyRead_login_state {W Model Algorithm : Type} (ext : Extern W Model Algorithm)
    (t : WorkerThread W) (h : t.m_state < 0) :
    (WorkerThread.readyRead ext t).m_state = 0 ↔
      acceptsLogin t.m_registered_users t.m_tcpSocket.readLine.1 = true := by
  rw [readyRead_login ext t h]
  by_cases ha : acceptsLogin t.m_registered_users t.m_tcpSocket.readLine.1 = true
  · simp [ha]
  · simp only [ha, Bool.false_eq_true, if_false, iff_false]
    omega

theorem acceptsLogin_iff (users : List QString) (data : QByteArray) :
    acceptsLogin users data = true ↔
      ∃ f1 f2 : QString, split ':' (trimmed (fromLatin1 data)) = [qs "login", f1, f2] ∧
        f1 ++ qs ":" ++ f2 ∈ users := by
  unfold acceptsLogin WorkerThread.splitLine
  constructor
  · intro h
    split at h
    · rename_i f0 f1 f2 heq
      simp only [Bool.and_eq_true, decide_eq_true_eq] at h
      exact ⟨f1, f2, by rw [heq, h.1], h.2⟩
    · exact absurd h (by simp)
  · rintro ⟨f1, f2, heq, hmem⟩
    rw [heq]
    simpa using hmem

theorem one_colon_ne (f1 f2 user pass : QString) (h1 : ':' ∉ f1) (h2 : ':' ∉ f2)
    (h : ':' ∈ user ∨ ':' ∈ pass) : f1 ++ qs ":" ++ f2 ≠ user ++ qs ":" ++ pass := by
  intro heq
  have hc := congrArg (List.count ':') heq
  have hq : List.count ':' (qs ":") = 1 := by decide
  simp only [List.count_append, hq, List.count_eq_zero.2 h1, List.count_eq_zero.2 h2] at hc
  rcases h with hu | hp
  · have := List.count_pos_iff.2 hu
    omega
  · have := List.count_pos_iff.2 hp
    omega

theorem acceptsLogin_dead_entry (users : List QString) (data : QByteArray) (user pass : QString)
    (h : ':' ∈ user ∨ ':' ∈ pass) :
    acceptsLogin (users.filter (fun entry => decide (entry ≠ user ++ qs ":" ++ pass))) data =
      acceptsLogin users data := by
  have hiff : acceptsLogin (users.filter (fun entry => decide (entry ≠ user ++ qs ":" ++ pass)))
      data = true ↔ acceptsLogin users data = true := by
    rw [acceptsLogin_iff, acceptsLogin_iff]
    constructor
    · rintro ⟨f1, f2, heq, hmem⟩
      exact ⟨f1, f2, heq, (List.mem_filter.1 hmem).1⟩
    · rintro ⟨f1, f2, heq, hmem⟩
      refine ⟨f1, f2, heq, List.mem_filter.2 ⟨hmem, ?_⟩⟩
      have hf := split_field_no_sep ':' (trimmed (fromLatin1 data))
      rw [heq] at hf
      have hne := one_colon_ne f1 f2 user pass (hf f1 (by simp)) (hf f2 (by simp)) h
      simpa using hne
  cases hb : acceptsLogin users data with
  | true => exact hiff.2 hb
  | false =>
    cases ha : acceptsLogin (users.filter (fun entry => decide (entry ≠ user ++ qs ":" ++ pass)))
        data with
    | false => rfl
    | true => rw [hiff.1 ha] at hb; cases hb

/-- C25: in `AwaitingLogin` (`m_state < 0`), the `readyRead` of a line
moves the session to `AwaitingCommand` (`m_state = 0`) if and only if the
line, made a string, trimmed and split at every `:`, has exactly three
fields, of which the first is `login` and the other two, joined by `:`, are
an element of the allow-list. Hence an entry `user:pass` of the allow-list
with a `:` in `user` or in `pass` never takes part in a login: the
transition happens exactly when it happens with that entry taken off the
list, and never when the list holds only that entry. -/
theorem login_transition_iff {W Model Algorithm : Type} (ext : Extern W Model Algorithm)
    (t : WorkerThread W) (hstate : t.m_state < 0) :
    ((WorkerThread.readyRead ext t).m_state = 0 ↔
      ∃ f1 f2 : QString,
        split ':' (trimmed (fromLatin1 t.m_tcpSocket.readLine.1)) = [qs "login", f1, f2] ∧
        f1 ++ qs ":" ++ f2 ∈ t.m_registered_users) ∧
    (∀ user pass : QString, (':' ∈ user ∨ ':' ∈ pass) →
      ((WorkerThread.readyRead ext t).m_state = 0 ↔
        (WorkerThread.readyRead ext { t with m_registered_users :=
          (t.m_registered_users.filter
            (fun entry => decide (entry ≠ user ++ qs ":" ++ pass))) }).m_state = 0) ∧
      (t.m_registered_users = [user ++ qs ":" ++ pass] →
        (WorkerThread.readyRead ext t).m_state ≠ 0)) := by
  refine ⟨(readyRead_login_state ext t hstate).trans (acceptsLogin_iff _ _), ?_⟩
  intro user pass hcolon
  have hdead := acceptsLogin_dead_entry t.m_registered_users t.m_tcpSocket.readLine.1
    user pass hcolon
  constructor
  · have h2 := readyRead_login_state ext { t with m_registered_users :=
      (t.m_registered_users.filter (fun entry => decide (entry ≠ user ++ qs ":" ++ pass))) }
      hstate
    rw [readyRead_login_state ext t hstate, h2]
    show _ ↔ acceptsLogin (t.m_registered_users.filter _) t.m_tcpSocket.readLine.1 = true
    rw [hdead]
  · intro honly
    show ¬ _
    rw [readyRead_login_state ext t hstate, ← hdead, honly]
    have hnil : [user ++ qs ":" ++ pass].filter
        (fun entry => decide (entry ≠ user ++ qs ":" ++ pass)) = [] := by
      simp
    rw [hnil]
    unfold acceptsLogin
    split <;> simp

/-- C25, an instance: with the allow-list `alice:secret`, `a:b:c`, the
line `login:alice:secret` is accepted, and the entry `a:b:c` (user `a:b`,
password `c`) does not matter. -/
theorem login_transition_iff_witness :
    (sessionIn [qs "alice:secret", qs "a:b:c"] (-1) 0
      (socketWith (lit "login:alice:secret\n"))).m_state < 0 ∧
    (((WorkerThread.readyRead echoExtern (sessionIn [qs "alice:secret", qs "a:b:c"] (-1) 0
        (socketWith (lit "login:alice:secret\n")))).m_state = 0 ↔
      ∃ f1 f2 : QString,
        split ':' (trimmed (fromLatin1 (sessionIn [qs "alice:secret", qs "a:b:c"] (-1) 0
          (socketWith (lit "login:alice:secret\n"))).m_tcpSocket.readLine.1)) =
          [qs "login", f1, f2] ∧
        f1 ++ qs ":" ++ f2 ∈ (sessionIn [qs "alice:secret", qs "a:b:c"] (-1) 0
          (socketWith (lit "login:alice:secret\n"))).m_registered_users) ∧
    (∀ user pass : QString, (':' ∈ user ∨ ':' ∈ pass) →
      ((WorkerThread.readyRead echoExtern (sessionIn [qs "alice:secret", qs "a:b:c"] (-1) 0
          (socketWith (lit "login:alice:secret\n")))).m_state = 0 ↔
        (WorkerThread.readyRead echoExtern
          { sessionIn [qs "alice:secret", qs "a:b:c"] (-1) 0
              (socketWith (lit "login:alice:secret\n")) with
            m_registered_users :=
              ((sessionIn [qs "alice:secret", qs "a:b:c"] (-1) 0
                (socketWith (lit "login:alice:secret\n"))).m_registered_users.filter
                (fun entry => decide (entry ≠ user ++ qs ":" ++ pass))) }).m_state = 0) ∧
      ((sessionIn [qs "alice:secret", qs "a:b:c"] (-1) 0
          (socketWith (lit "login:alice:secret\n"))).m_registered_users =
          [user ++ qs ":" ++ pass] →
        (WorkerThread.readyRead echoExtern (sessionIn [qs "alice:secret", qs "a:b:c"] (-1) 0
          (socketWith (lit "login:alice:secret\n")))).m_state ≠ 0))) :=
  ⟨by decide, login_transition_iff echoExtern (sessionIn [qs "alice:secret", qs "a:b:c"] (-1) 0
    (socketWith (lit "login:alice:secret\n"))) (by decide)⟩

theorem readyRead_invariant {W Model Algorithm : Type} (ext : Extern W Model Algorithm)
    (t : WorkerThread W) (h : SessionInvariant t) :
    SessionInvariant (WorkerThread.readyRead ext t) := by
  obtain ⟨hs, he⟩ := h
  rcases hs with h1 | h0 | h1 | h2
  · have hexp := he (Or.inl h1)
    rw [readyRead_login ext t (by rw [h1]; decide)]
    by_cases ha : acceptsLogin t.m_registered_users t.m_tcpSocket.readLine.1 = true
    · simp [SessionInvariant, ha, hexp]
    · simp [SessionInvariant, ha, hexp, h1]
  · have hexp := he (Or.inr h0)
    rw [readyRead_command ext t h0]
    split
    · rename_i f0 f1 heq
      by_cases hm : f0 = qs "Model"
      · simp [SessionInvariant, hm]
      · by_cases hg : f0 = qs "Algorithm"
        · rw [if_neg hm, if_pos hg]
          simp [SessionInvariant]
        · rw [if_neg hm, if_neg hg]
          simp [SessionInvariant, h0, hexp]
    · simp [SessionInvariant, h0, hexp]
  · rw [(readyRead_payload ext t).1 h1]
    simp [SessionInvariant]
  · rw [(readyRead_payload ext t).2 h2]
    simp [SessionInvariant]

theorem deliverAll_invariant {W Model Algorithm : Type} (ext : Extern W Model Algorithm)
    (chunks : List QByteArray) : ∀ t : WorkerThread W, SessionInvariant t →
    SessionInvariant (WorkerThread.deliverAll ext t chunks) := by
  induction chunks with
  | nil => intro t h; exact h
  | cons c cs ih =>
    intro t h
    show SessionInvariant (WorkerThread.deliverAll ext (WorkerThread.deliver ext t c) cs)
    exact ih _ (readyRead_invariant ext _ h)

/-- C26: the session invariant (`m_state` is one of `-1`, `0`, `1`, `2`,
and the expected byte count is `0` whenever `m_state` is `-1` or `0`) holds
in the state the constructor sets; every `readyRead` preserves it, whatever
the socket holds and whatever the collaborators of the handlers do; so it
holds after every sequence of arrivals on a fresh connection, and `m_state`
is never `3` between two events. -/
theorem session_invariant {W Model Algorithm : Type} (ext : Extern W Model Algorithm)
    (users : List QString) (sock : Socket) (w : W) :
    SessionInvariant (WorkerThread.init users sock w) ∧
    (∀ t : WorkerThread W, SessionInvariant t →
      SessionInvariant (WorkerThread.readyRead ext t) ∧
      (WorkerThread.readyRead ext t).m_state ≠ 3) ∧
    (∀ chunks : List QByteArray,
      SessionInvariant (session ext users sock w chunks) ∧
      (session ext users sock w chunks).m_state ≠ 3) := by
  have hne : ∀ t : WorkerThread W, SessionInvariant t → t.m_state ≠ 3 := by
    intro t h h3
    rcases h.1 with h | h | h | h <;> omega
  have hinit : SessionInvariant (WorkerThread.init users sock w) := by
    simp [SessionInvariant, WorkerThread.init]
  refine ⟨hinit, ?_, ?_⟩
  · intro t h
    exact ⟨readyRead_invariant ext t h, hne _ (readyRead_invariant ext t h)⟩
  · intro chunks
    have h := deliverAll_invariant ext chunks _ hinit
    exact ⟨h, hne _ h⟩

/-! ## `Impex::save` -/

theorem right_two_gz (s : QString) : right 2 s = qs "gz" ↔ qs "gz" <:+ s := by
  unfold right
  constructor
  · intro h
    rw [← h]
    exact List.drop_suffix _ _
  · rintro ⟨t, rfl⟩
    have hlen : (t ++ qs "gz").length - 2 = t.length := by
      simp [qs]
    rw [hlen, List.drop_left]

theorem openFile_device {Object : Type} (fs : FileSystem Object) (filename : QString)
    (device : Device) (hopen : Impex.openFile fs filename = some device) :
    (device = Device.compressor filename ↔ qs "gz" <:+ filename) ∧
    (device = Device.file filename ↔ ¬ qs "gz" <:+ filename) := by
  unfold Impex.openFile at hopen
  by_cases hgz : right 2 filename = qs "gz"
  · have hsuf := (right_two_gz filename).1 hgz
    simp only [hgz, beq_self_eq_true, if_true] at hopen
    split at hopen
    · split at hopen
      · cases hopen
        simp [hsuf]
      · cases hopen
    · cases hopen
  · have hsuf : ¬ qs "gz" <:+ filename := fun h => hgz ((right_two_gz filename).2 h)
    have hb : (right 2 filename == qs "gz") = false := by simpa using hgz
    simp only [hb, Bool.false_eq_true, if_false] at hopen
    split at hopen
    · split at hopen
      · cases hopen
        simp [hsuf]
      · cases hopen
    · cases hopen

theorem save_of_device {Object : Type} (fs : FileSystem Object) (object : Object)
    (filename : QString) (c : Bool) (device : Device)
    (hopen : Impex.openFile fs filename = some device) :
    (fs.serialize object device = Outcome.returns () →
      Impex.save fs object filename c =
        (Outcome.returns true, [DeviceEvent.serialize device, DeviceEvent.close device])) ∧
    (fs.serialize object device = Outcome.throws →
      Impex.save fs object filename c = (Outcome.throws, [DeviceEvent.serialize device])) := by
  unfold Impex.save
  rw [hopen]
  constructor <;> intro h <;> simp only [h]

/-- C30: for every object, file name and behaviour of the files and of
`serialize`, `Impex::save` gives the same result and does the same to the
same device for both values of `compress`. When `Impex::openFile` yields a
device, `save` serializes the object to that device and to no other, closes
it and returns true (or passes on the exception of `serialize`); the device
it serializes to is the gzip compressor exactly when the file name ends in
`gz`, and the plain file exactly when it does not. `save` returns false
exactly when `openFile` yields no device, and then nothing is serialized;
this is the case for the empty file name. -/
theorem save_ignores_compress {Object : Type} (fs : FileSystem Object) (object : Object)
    (filename : QString) :
    (∀ c1 c2 : Bool, Impex.save fs object filename c1 = Impex.save fs object filename c2) ∧
    (∀ (c : Bool) (device : Device), Impex.openFile fs filename = some device →
      (fs.serialize object device = Outcome.returns () →
        Impex.save fs object filename c =
          (Outcome.returns true, [DeviceEvent.serialize device, DeviceEvent.close device])) ∧
      (fs.serialize object device = Outcome.throws →
        Impex.save fs object filename c = (Outcome.throws, [DeviceEvent.serialize device])) ∧
      (Impex.save fs object filename c).2.head? = some (DeviceEvent.serialize device) ∧
      (device = Device.compressor filename ↔ qs "gz" <:+ filename) ∧
      (device = Device.file filename ↔ ¬ qs "gz" <:+ filename)) ∧
    (∀ (c : Bool) (device : Device),
      DeviceEvent.serialize device ∈ (Impex.save fs object filename c).2 →
      Impex.openFile fs filename = some device ∧
      (device = Device.compressor filename ↔ qs "gz" <:+ filename) ∧
      (device = Device.file filename ↔ ¬ qs "gz" <:+ filename)) ∧
    (∀ c : Bool, (Impex.save fs object filename c).1 = Outcome.returns false ↔
      Impex.openFile fs filename = none) ∧
    (∀ c : Bool, Impex.openFile fs filename = none →
      Impex.save fs object filename c = (Outcome.returns false, [])) ∧
    Impex.openFile fs [] = none ∧
    (∀ c : Bool, Impex.save fs object [] c = (Outcome.returns false, [])) := by
  refine ⟨fun _ _ => rfl, ?_, ?_, ?_, ?_, rfl, fun _ => rfl⟩
  · intro c device hopen
    obtain ⟨h1, h2⟩ := save_of_device fs object filename c device hopen
    obtain ⟨h3, h4⟩ := openFile_device fs filename device hopen
    refine ⟨h1, h2, ?_, h3, h4⟩
    cases hs : fs.serialize object device with
    | returns u => cases u; rw [h1 hs]; rfl
    | throws => rw [h2 hs]; rfl
  · intro c device hmem
    unfold Impex.save at hmem
    cases hopen : Impex.openFile fs filename with
    | none => rw [hopen] at hmem; simp at hmem
    | some d =>
      rw [hopen] at hmem
      simp only at hmem
      have hd : device = d := by
        cases hs : fs.serialize object d <;> rw [hs] at hmem <;> simpa using hmem
      subst hd
      exact ⟨rfl, openFile_device fs filename device hopen⟩
  · intro c
    unfold Impex.save
    cases hopen : Impex.openFile fs filename with
    | none => simp
    | some device =>
      simp only
      cases fs.serialize object device <;> simp
  · intro c hopen
    unfold Impex.save
    rw [hopen]

/-! ## Declared lengths and the payload handlers -/

/-- One `readyRead` in the command state on the line `Model:<n>\n` or
`Algorithm:<n>\n` with `n ≤ 2147483647`: the session afterwards. -/
theorem readyRead_command_line {W Model Algorithm : Type} (ext : Extern W Model Algorithm)
    (t : WorkerThread W) (n : Nat) (rest : QByteArray) (hn : n ≤ 2147483647)
    (hstate : t.m_state = 0) :
    (t.m_tcpSocket.readBuffer = toLatin1 (qs "Model:" ++ number n ++ qs "\n") ++ rest →
      WorkerThread.readyRead ext t =
        { t with m_tcpSocket := { t.m_tcpSocket with readBuffer := rest },
                 m_state := 1, m_expected_bytes := (n : Int) }) ∧
    (t.m_tcpSocket.readBuffer = toLatin1 (qs "Algorithm:" ++ number n ++ qs "\n") ++ rest →
      WorkerThread.readyRead ext t =
        { t with m_tcpSocket := { t.m_tcpSocket with readBuffer := rest },
                 m_state := 2, m_expected_bytes := (n : Int) }) := by
  have hnneg : ¬ t.m_state < 0 := by rw [hstate]; decide
  constructor
  · intro hbuf
    obtain ⟨hl1, hl2⟩ := readLine_command t (qs "Model") (by decide) (by decide) n rest hbuf
    have hsp := splitLine_command (qs "Model") 'M' (qs "odel") rfl (by decide) (by decide)
      (by decide) n
    simp only [WorkerThread.readyRead, hnneg, hstate, if_true, if_false, hl1, hl2, hsp,
      toInt_number n hn]
    simp
  · intro hbuf
    obtain ⟨hl1, hl2⟩ := readLine_command t (qs "Algorithm") (by decide) (by decide) n rest hbuf
    have hsp := splitLine_command (qs "Algorithm") 'A' (qs "lgorithm") rfl (by decide)
      (by decide) (by decide) n
    have hne : qs "Algorithm" ≠ qs "Model" := by decide
    simp only [WorkerThread.readyRead, hnneg, hstate, if_true, if_false, hl1, hl2, hsp,
      toInt_number n hn, hne]
    simp

/-- C6 (amended): for every declared length `n` with `0 ≤ n ≤ 2147483647`
and every way the payload bytes arrive (the bytes `rest` that follow the
command line, the bytes `bytes` that come with the next event, and whatever
arrives while the handler waits), after the command `Model:<n>\n`,
respectively `Algorithm:<n>\n`, has been read in `AwaitingCommand`, the
handler is called for `n` bytes, and every buffer on which it opens the gzip
device, and every buffer from which `Impex::loadModel` or
`Impex::loadAlgorithm` is asked to load, has at least `n` bytes. -/
theorem no_short_buffer_decoded {W Model Algorithm : Type} (ext : Extern W Model Algorithm)
    (t : WorkerThread W) (n : Nat) (rest bytes : QByteArray) (hn : n ≤ 2147483647)
    (hstate : t.m_state = 0) :
    (t.m_tcpSocket.readBuffer = toLatin1 (qs "Model:" ++ number n ++ qs "\n") ++ rest →
      ∃ new, (WorkerThread.deliver ext (WorkerThread.readyRead ext t) bytes).calls =
          t.calls ++ new ∧
        Call.readModel (n : Int) ∈ new ∧
        ∀ buf, (Call.openRead buf ∈ new ∨ Call.loadModel buf ∈ new ∨
            Call.loadAlgorithm buf ∈ new) → n ≤ buf.length) ∧
    (t.m_tcpSocket.readBuffer = toLatin1 (qs "Algorithm:" ++ number n ++ qs "\n") ++ rest →
      ∃ new, (WorkerThread.deliver ext (WorkerThread.readyRead ext t) bytes).calls =
          t.calls ++ new ∧
        Call.readAndRunAlgorithm (n : Int) ∈ new ∧
        ∀ buf, (Call.openRead buf ∈ new ∨ Call.loadModel buf ∈ new ∨
            Call.loadAlgorithm buf ∈ new) → n ≤ buf.length) := by
  constructor
  · intro hbuf
    rw [(readyRead_command_line ext t n rest hn hstate).1 hbuf]
    unfold WorkerThread.deliver
    rw [(readyRead_payload ext _).1 rfl]
    obtain ⟨new, h1, h2, h3⟩ := (handlers_decode_full_buffer ext (n : Int)
      { t with m_tcpSocket := { t.m_tcpSocket with readBuffer := rest ++ bytes },
               m_state := 3, m_expected_bytes := (n : Int) }).1
    refine ⟨new, h1, h2, ?_⟩
    intro buf hb
    have := h3 buf hb
    omega
  · intro hbuf
    rw [(readyRead_command_line ext t n rest hn hstate).2 hbuf]
    unfold WorkerThread.deliver
    rw [(readyRead_payload ext _).2 rfl]
    obtain ⟨new, h1, h2, h3⟩ := (handlers_decode_full_buffer ext (n : Int)
      { t with m_tcpSocket := { t.m_tcpSocket with readBuffer := rest ++ bytes },
               m_state := 3, m_expected_bytes := (n : Int) }).2
    refine ⟨new, h1, h2, ?_⟩
    intro buf hb
    have := h3 buf hb
    omega

/-- C6, refuted as stated: the declared length is `2147483648`, which
`toInt()` turns into `0`. Three bytes arrive; the handler is called for `0`
bytes, reads none of them, opens the gzip device on the empty buffer and
asks `Impex::loadModel` to load from it. -/
theorem declared_length_beyond_int_decodes_empty :
    lit "Model:2147483648\n" = toLatin1 (qs "Model:" ++ number 2147483648 ++ qs "\n") ∧
    (WorkerThread.deliver openingExtern
      (WorkerThread.readyRead openingExtern
        (sessionIn [] 0 0 (socketWith (lit "Model:2147483648\n"))))
      [31, 139, 8]).calls =
      [Call.readModel 0, Call.openRead [], Call.loadModel []] := by
  decide

/-- C6, an instance: `Model:3\n` is read, then three bytes arrive. -/
theorem no_short_buffer_decoded_witness :
    ∃ new, (WorkerThread.deliver echoExtern (WorkerThread.readyRead echoExtern
        (sessionIn [] 0 0 (socketWith (toLatin1 (qs "Model:" ++ number 3 ++ qs "\n") ++ []))))
        [31, 139, 8]).calls =
        (sessionIn [] 0 0 (socketWith (toLatin1 (qs "Model:" ++ number 3 ++ qs "\n") ++ []))
          ).calls ++ new ∧
      Call.readModel ((3 : Nat) : Int) ∈ new ∧
      ∀ buf, (Call.openRead buf ∈ new ∨ Call.loadModel buf ∈ new ∨
          Call.loadAlgorithm buf ∈ new) → 3 ≤ buf.length :=
  (no_short_buffer_decoded echoExtern
    (sessionIn [] 0 0 (socketWith (toLatin1 (qs "Model:" ++ number 3 ++ qs "\n") ++ [])))
    3 [] [31, 139, 8] (by decide) rfl).1 rfl

/-- C16 (amended): for every declared length `n` with `0 < n ≤ 2147483647`,
after the command `Model:<n>\n`, respectively `Algorithm:<n>\n`, has been
read in `AwaitingCommand`: if the payload bytes that the client delivers
(the bytes `rest` that follow the command line, the bytes `bytes` that come
with the next event, and all bytes that arrive while the handler waits) are
fewer than `n`, the handler is called for `n` bytes and decodes nothing (it
opens no gzip device and calls no loader), whether the socket is connected
or not; and, provided the socket is connected when the failure is handled,
the bytes it writes are exactly `Error:0`. -/
theorem incomplete_payload_writes_error {W Model Algorithm : Type}
    (ext : Extern W Model Algorithm) (t : WorkerThread W) (n : Nat) (rest bytes : QByteArray)
    (hn : n ≤ 2147483647) (hstate : t.m_state = 0)
    (hshort : rest.length + bytes.length + incomingBytes t.m_tcpSocket.incoming < n) :
    (t.m_tcpSocket.readBuffer = toLatin1 (qs "Model:" ++ number n ++ qs "\n") ++ rest →
      (WorkerThread.deliver ext (WorkerThread.readyRead ext t) bytes).calls =
        t.calls ++ [Call.readModel (n : Int)] ∧
      ((WorkerThread.receive (n : Int)
          { t.m_tcpSocket with readBuffer := rest ++ bytes }).2.connected = true →
        (WorkerThread.deliver ext (WorkerThread.readyRead ext t) bytes).m_tcpSocket.written =
          t.m_tcpSocket.written ++ lit "Error:0")) ∧
    (t.m_tcpSocket.readBuffer = toLatin1 (qs "Algorithm:" ++ number n ++ qs "\n") ++ rest →
      (WorkerThread.deliver ext (WorkerThread.readyRead ext t) bytes).calls =
        t.calls ++ [Call.readAndRunAlgorithm (n : Int)] ∧
      ((WorkerThread.receive (n : Int)
          { t.m_tcpSocket with readBuffer := rest ++ bytes }).2.connected = true →
        (WorkerThread.deliver ext (WorkerThread.readyRead ext t) bytes).m_tcpSocket.written =
          t.m_tcpSocket.written ++ lit "Error:0")) := by
  constructor
  · intro hbuf
    rw [(readyRead_command_line ext t n rest hn hstate).1 hbuf]
    unfold WorkerThread.deliver
    obtain ⟨h1, h2⟩ := incomplete_payload_handled ext
      { t with m_tcpSocket := { t.m_tcpSocket with readBuffer := rest ++ bytes },
               m_state := 1, m_expected_bytes := (n : Int) }
      (Or.inl rfl) (by
        show (((rest ++ bytes).length + incomingBytes t.m_tcpSocket.incoming : Nat) : Int) < n
        rw [List.length_append]
        omega)
    refine ⟨h1, ?_⟩
    intro hconn
    rw [h2]
    show _ ++ (if (WorkerThread.receive (n : Int)
      { t.m_tcpSocket with readBuffer := rest ++ bytes }).2.connected then _ else _) = _
    rw [hconn]
    rfl
  · intro hbuf
    rw [(readyRead_command_line ext t n rest hn hstate).2 hbuf]
    unfold WorkerThread.deliver
    obtain ⟨h1, h2⟩ := incomplete_payload_handled ext
      { t with m_tcpSocket := { t.m_tcpSocket with readBuffer := rest ++ bytes },
               m_state := 2, m_expected_bytes := (n : Int) }
      (Or.inr rfl) (by
        show (((rest ++ bytes).length + incomingBytes t.m_tcpSocket.incoming : Nat) : Int) < n
        rw [List.length_append]
        omega)
    refine ⟨h1, ?_⟩
    intro hconn
    rw [h2]
    show _ ++ (if (WorkerThread.receive (n : Int)
      { t.m_tcpSocket with readBuffer := rest ++ bytes }).2.connected then _ else _) = _
    rw [hconn]
    rfl

/-- C16, refuted as stated. First, 10 bytes are declared for a `Model`
command, 4 arrive, and the client closes the connection: no further bytes
become available, nothing is decoded, and the handler writes nothing.
Second, `2147483648` bytes are declared and 3 arrive: the handler is called
for `0` bytes, opens the gzip device on the empty buffer and asks the loader
to load from it. -/
theorem incomplete_payload_unconnected_writes_nothing :
    ((WorkerThread.deliver echoExtern
        (WorkerThread.readyRead echoExtern
          (sessionIn [] 0 0 { readBuffer := lit "Model:10\n", incoming := [NetEvent.disconnect],
                              connected := true, written := [] }))
        (lit "0123")).m_tcpSocket.written = [] ∧
      (WorkerThread.deliver echoExtern
        (WorkerThread.readyRead echoExtern
          (sessionIn [] 0 0 { readBuffer := lit "Model:10\n", incoming := [NetEvent.disconnect],
                              connected := true, written := [] }))
        (lit "0123")).calls = [Call.readModel 10]) ∧
    (lit "Model:2147483648\n" = toLatin1 (qs "Model:" ++ number 2147483648 ++ qs "\n") ∧
      (WorkerThread.deliver openingExtern
        (WorkerThread.readyRead openingExtern
          (sessionIn [] 0 0 (socketWith (lit "Model:2147483648\n"))))
        (lit "012")).calls = [Call.readModel 0, Call.openRead [], Call.loadModel []]) := by
  decide

/-- C16, an instance: `Algorithm:10\n` is read, then 4 bytes arrive, 3 more
while the handler waits, and then the wait times out. -/
theorem incomplete_payload_writes_error_witness :
    (WorkerThread.deliver echoExtern (WorkerThread.readyRead echoExtern
      (sessionIn [] 0 0 { readBuffer := toLatin1 (qs "Algorithm:" ++ number 10 ++ qs "\n") ++ [],
                          incoming := [NetEvent.data (lit "456"), NetEvent.timeout],
                          connected := true, written := [] }))
      (lit "0123")).calls = [Call.readAndRunAlgorithm 10] ∧
    (WorkerThread.deliver echoExtern (WorkerThread.readyRead echoExtern
      (sessionIn [] 0 0 { readBuffer := toLatin1 (qs "Algorithm:" ++ number 10 ++ qs "\n") ++ [],
                          incoming := [NetEvent.data (lit "456"), NetEvent.timeout],
                          connected := true, written := [] }))
      (lit "0123")).m_tcpSocket.written = lit "Error:0" :=
  ⟨((incomplete_payload_writes_error echoExtern
      (sessionIn [] 0 0 { readBuffer := toLatin1 (qs "Algorithm:" ++ number 10 ++ qs "\n") ++ [],
                          incoming := [NetEvent.data (lit "456"), NetEvent.timeout],
                          connected := true, written := [] })
      10 [] (lit "0123") (by decide) rfl (by decide)).2 rfl).1,
    ((incomplete_payload_writes_error echoExtern
      (sessionIn [] 0 0 { readBuffer := toLatin1 (qs "Algorithm:" ++ number 10 ++ qs "\n") ++ [],
                          incoming := [NetEvent.data (lit "456"), NetEvent.timeout],
                          connected := true, written := [] })
      10 [] (lit "0123") (by decide) rfl (by decide)).2 rfl).2 (by decide)⟩

end graipe
